import Mathlib

/-!
Verification of the encoder module `disvae/models/encoders.py`.

The module defines three variational-autoencoder encoders (`EncoderBurgess`,
`ConvEncoder`, `DomainEncoder`) and a string-based factory `get_encoder`.
We embed the tensors as nested lists of rationals and the framework layer
primitives (`nn.Conv2d`, `nn.Linear`, `nn.BatchNorm1d/2d`, `nn.Embedding`,
`F.max_pool2d`, `view`, `unbind`) by their documented semantics.  Fallible
framework operations return `Except PyError`; the error constructors record
which kind of Python exception the framework raises.

One deliberate abstraction: batch normalization divides by the square root
of the (shifted) variance, an irrational operation in general.  The layer
records therefore carry the reciprocal-square-root map as a function field
`rsqrt : ℚ → ℚ`; none of the properties proved below depend on its values.
-/

set_option maxRecDepth 8192

namespace Disvae

/-- The kinds of Python exceptions the embedded code can raise:
`assert` failures, tensor shape/reshape failures (`RuntimeError`),
batch-norm batch-size failures (`ValueError`), embedding lookups out of
range (`IndexError`), and attribute lookups that do not exist
(`AttributeError`). -/
inductive PyError where
  | assertionError
  | runtimeError
  | valueError
  | indexError
  | attributeError
deriving DecidableEq

instance {α : Type} [DecidableEq α] : DecidableEq (Except PyError α) := fun x y =>
  match x, y with
  | .ok a, .ok b =>
    if h : a = b then isTrue (by rw [h])
    else isFalse (fun hc => by cases hc; exact h rfl)
  | .error a, .error b =>
    if h : a = b then isTrue (by rw [h])
    else isFalse (fun hc => by cases hc; exact h rfl)
  | .ok _, .error _ => isFalse (fun hc => by cases hc)
  | .error _, .ok _ => isFalse (fun hc => by cases hc)

/-- A 1-d tensor. -/
abbrev Vec := List ℚ

/-- A 2-d tensor (rows of a matrix). -/
abbrev Mat := List Vec

/-- A 3-d tensor (channels of an image). -/
abbrev Img := List Mat

/-- A 4-d tensor (a batch of images). -/
abbrev Batch := List Img

/-- `nthD d l n` is the `n`-th element of `l`, or `d` past the end. -/
def nthD {α : Type} (d : α) : List α → Nat → α
  | [], _ => d
  | a :: _, 0 => a
  | _ :: t, n + 1 => nthD d t n

/-- `nth l n` is the `n`-th entry of a 1-d tensor, `0` past the end. -/
def nth (l : List ℚ) (n : Nat) : ℚ := nthD 0 l n

/-- `List.mapIdx` with an explicit start offset, kept local so that all
index bookkeeping is by structural recursion. -/
def mapIdxP {α β : Type} (f : Nat → α → β) : Nat → List α → List β
  | _, [] => []
  | n, a :: t => f n a :: mapIdxP f (n + 1) t

/-- Maximum of two rationals, via the kernel-computable comparison
`Rat.blt` (boolean `<`). -/
def qmax (a b : ℚ) : ℚ := if Rat.blt a b then b else a

/-- `torch.relu`: elementwise `max x 0`. -/
def relu (q : ℚ) : ℚ := qmax q 0

/-- `nn.LeakyReLU` with the default negative slope `0.01` (the
comparison with `0` is the kernel-computable `Rat.blt`). -/
def leakyRelu (q : ℚ) : ℚ := if Rat.blt q 0 then q / 100 else q

/-- Elementwise `torch.relu` on a vector. -/
def reluV (v : Vec) : Vec := v.map relu

/-- Elementwise `torch.relu` on one image. -/
def reluImg (x : Img) : Img := x.map (fun m => m.map reluV)

/-- Elementwise `torch.relu` on a batch of images. -/
def reluB (b : Batch) : Batch := b.map reluImg

/-- Elementwise `torch.relu` on a batch of vectors. -/
def reluRows (rows : List Vec) : List Vec := rows.map reluV

/-- Elementwise leaky ReLU on a vector. -/
def leakyV (v : Vec) : Vec := v.map leakyRelu

/-- Elementwise leaky ReLU on one image. -/
def leakyImg (x : Img) : Img := x.map (fun m => m.map leakyV)

/-- Elementwise leaky ReLU on a batch of images. -/
def leakyB (b : Batch) : Batch := b.map leakyImg

/-- Elementwise leaky ReLU on a batch of vectors. -/
def leakyRows (rows : List Vec) : List Vec := rows.map leakyV

/-! ### `nn.Linear` -/

/-- `nn.Linear(in_features, out_features)`: an affine map given by a
weight matrix (`out_features` rows of `in_features` columns) and a bias. -/
structure Linear where
  in_features : Nat
  out_features : Nat
  weight : List Vec
  bias : Vec

/-- Dot product of two equally long vectors (`zip` truncates, but every
use is guarded by the length check of `Linear.run`). -/
def dot (a v : Vec) : ℚ := ((a.zip v).map (fun p => p.1 * p.2)).sum

/-- The affine output `W v + b` of a linear layer. -/
def linOut (L : Linear) (v : Vec) : Vec :=
  (L.weight.zip L.bias).map (fun wb => dot wb.1 v + wb.2)

/-- Applying a linear layer to one sample: the framework raises a shape
`RuntimeError` unless the input width equals `in_features`. -/
def Linear.run (L : Linear) (v : Vec) : Except PyError Vec :=
  if v.length = L.in_features then .ok (linOut L v) else .error .runtimeError

/-- `nn.Linear(inF, outF)` with all parameters filled by `q` (the real
framework draws them randomly; only the shapes matter to construction). -/
def mkLinear (inF outF : Nat) (q : ℚ) : Linear :=
  { in_features := inF, out_features := outF,
    weight := List.replicate outF (List.replicate inF q),
    bias := List.replicate outF q }

/-! ### `nn.Conv2d` -/

/-- `nn.Conv2d` with a square kernel, as used throughout the source. -/
structure Conv2d where
  in_channels : Nat
  out_channels : Nat
  kernel_size : Nat
  stride : Nat
  padding : Nat
  weight : List (List Mat)
  bias : Vec

/-- Output spatial extent of a convolution:
`(n + 2*padding - kernel_size) / stride + 1` (floor division). -/
def convOutDim (L : Conv2d) (n : Nat) : Nat :=
  (n + 2 * L.padding - L.kernel_size) / L.stride + 1

/-- Channel count of an image. -/
def imgC (x : Img) : Nat := x.length

/-- Height of an image (length of the first channel). -/
def imgH (x : Img) : Nat := (nthD [] x 0).length

/-- Width of an image (length of the first row of the first channel). -/
def imgW (x : Img) : Nat := (nthD [] (nthD [] x 0) 0).length

/-- A matrix entry addressed with integer coordinates; zero outside the
matrix, which is exactly the zero padding of the convolution. -/
def matGetP (m : Mat) (i j : Int) : ℚ :=
  if 0 ≤ i ∧ 0 ≤ j then nth (nthD [] m i.toNat) j.toNat else 0

/-- One output scalar of a convolution: bias plus the windowed sum over
input channels and kernel positions. -/
def convCell (L : Conv2d) (x : Img) (o i j : Nat) : ℚ :=
  nth L.bias o +
    ((List.range L.in_channels).map (fun c =>
      ((List.range L.kernel_size).map (fun a =>
        ((List.range L.kernel_size).map (fun b =>
          nth (nthD [] (nthD [] (nthD [] L.weight o) c) a) b *
            matGetP (nthD [] x c)
              ((L.stride * i + a : Int) - (L.padding : Int))
              ((L.stride * j + b : Int) - (L.padding : Int)))).sum)).sum)).sum

/-- The full output image of a convolution on one sample. -/
def convGrid (L : Conv2d) (x : Img) : Img :=
  (List.range L.out_channels).map (fun o =>
    (List.range (convOutDim L (imgH x))).map (fun i =>
      (List.range (convOutDim L (imgW x))).map (fun j => convCell L x o i j)))

/-- Applying a convolution to one sample: the framework raises a
`RuntimeError` when the channel count does not match `in_channels` or the
padded input is smaller than the kernel (empty output). -/
def Conv2d.run (L : Conv2d) (x : Img) : Except PyError Img :=
  if imgC x = L.in_channels ∧ L.kernel_size ≤ imgH x + 2 * L.padding ∧
      L.kernel_size ≤ imgW x + 2 * L.padding then
    .ok (convGrid L x)
  else .error .runtimeError

/-- `nn.Conv2d(inC, outC, k, stride=s, padding=p)` with parameters filled
by `q`. -/
def mkConv2d (inC outC k s p : Nat) (q : ℚ) : Conv2d :=
  { in_channels := inC, out_channels := outC, kernel_size := k,
    stride := s, padding := p,
    weight := List.replicate outC (List.replicate inC
      (List.replicate k (List.replicate k q))),
    bias := List.replicate outC q }

/-! ### `F.max_pool2d(stride=2, kernel_size=3, padding=1)` -/

/-- The in-bounds entries of the 3×3 pooling window at output position
`(i, j)` (padding contributes `-inf`, i.e. never the maximum, so padded
cells are simply dropped). -/
def poolCands (m : Mat) (i j : Nat) : List ℚ :=
  ((List.range 3).map (fun a =>
    ((List.range 3).map (fun b =>
      let r : Int := (2 * i + a : Int) - 1
      let c : Int := (2 * j + b : Int) - 1
      if 0 ≤ r ∧ r.toNat < m.length ∧ 0 ≤ c ∧
          c.toNat < (nthD [] m r.toNat).length then
        [nth (nthD [] m r.toNat) c.toNat]
      else [])).flatten)).flatten

/-- Maximum of a list of rationals (`0` on the empty list, which no
reachable pooling window produces). -/
def listMax : List ℚ → ℚ
  | [] => 0
  | q :: t => t.foldl qmax q

/-- Max pooling of one channel with kernel 3, stride 2, padding 1. -/
def maxPoolMat (m : Mat) : Mat :=
  (List.range ((m.length + 2 - 3) / 2 + 1)).map (fun i =>
    (List.range (((nthD [] m 0).length + 2 - 3) / 2 + 1)).map (fun j =>
      listMax (poolCands m i j)))

/-- `F.max_pool2d(·, stride=2, kernel_size=3, padding=1)` on one sample. -/
def maxPool2d (x : Img) : Img := x.map maxPoolMat

/-- Max pooling of a whole batch. -/
def poolB (b : Batch) : Batch := b.map maxPool2d

/-! ### Batch normalization

`nn.BatchNorm1d`/`nn.BatchNorm2d` share their parameter record: affine
weights, running statistics, momentum (default `0.1`), epsilon (default
`1e-5`), the module `training` flag (`True` after construction) and the
tracked batch counter.  In training mode the layer normalizes with the
biased batch statistics, updates the running statistics with the unbiased
variance and raises a `ValueError` when there are not more than one value
per channel; in eval mode it normalizes with the running statistics and
leaves the record unchanged. -/

structure BatchNorm where
  num_features : Nat
  weight : Vec
  bias : Vec
  running_mean : Vec
  running_var : Vec
  momentum : ℚ
  eps : ℚ
  training : Bool
  num_batches_tracked : Nat
  rsqrt : ℚ → ℚ

/-- Mean of a list of rationals. -/
def meanOf (l : List ℚ) : ℚ := l.sum / (l.length : ℚ)

/-- Biased variance of a list of rationals. -/
def varOf (l : List ℚ) : ℚ :=
  ((l.map (fun x => (x - meanOf l) * (x - meanOf l))).sum) / (l.length : ℚ)

/-- Unbiased variance of a list of rationals. -/
def varUnbiasedOf (l : List ℚ) : ℚ :=
  ((l.map (fun x => (x - meanOf l) * (x - meanOf l))).sum) /
    ((l.length : ℚ) - 1)

/-- One normalized value: `γ * (x - μ) * rsqrt(σ² + eps) + β`. -/
def bnScalar (γ β μ σ2 eps : ℚ) (rs : ℚ → ℚ) (x : ℚ) : ℚ :=
  γ * ((x - μ) * rs (σ2 + eps)) + β

/-- The values of channel `c` across a `(N, C)` batch. -/
def chanVals1d (rows : List Vec) (c : Nat) : List ℚ := rows.map (fun r => nth r c)

/-- Normalizing one `(N, C)` row with given per-channel statistics. -/
def bn1dRow (L : BatchNorm) (stat : Nat → ℚ × ℚ) (r : Vec) : Vec :=
  mapIdxP (fun c x =>
    bnScalar (nth L.weight c) (nth L.bias c) (stat c).1 (stat c).2 L.eps L.rsqrt x) 0 r

/-- The per-channel statistics used by an eval-mode layer: the running
mean and running variance. -/
def bnRunningStat (L : BatchNorm) (c : Nat) : ℚ × ℚ :=
  (nth L.running_mean c, nth L.running_var c)

/-- `nn.BatchNorm1d` applied to a `(N, C)` batch. -/
def BatchNorm.run1d (L : BatchNorm) (rows : List Vec) :
    Except PyError (List Vec × BatchNorm) :=
  if rows.all (fun r => r.length == L.num_features) then
    if L.training then
      if rows.length ≤ 1 then .error .valueError
      else
        .ok (rows.map (bn1dRow L (fun c =>
            (meanOf (chanVals1d rows c), varOf (chanVals1d rows c)))),
          { L with
            running_mean := (List.range L.num_features).map (fun c =>
              (1 - L.momentum) * nth L.running_mean c +
                L.momentum * meanOf (chanVals1d rows c)),
            running_var := (List.range L.num_features).map (fun c =>
              (1 - L.momentum) * nth L.running_var c +
                L.momentum * varUnbiasedOf (chanVals1d rows c)),
            num_batches_tracked := L.num_batches_tracked + 1 })
    else .ok (rows.map (bn1dRow L (bnRunningStat L)), L)
  else .error .runtimeError

/-- The values of channel `c` across a `(N, C, H, W)` batch. -/
def chanVals2d (b : Batch) (c : Nat) : List ℚ :=
  (b.map (fun x => (nthD [] x c).flatten)).flatten

/-- Normalizing one image with given per-channel statistics. -/
def bn2dImg (L : BatchNorm) (stat : Nat → ℚ × ℚ) (x : Img) : Img :=
  mapIdxP (fun c m => m.map (fun r => r.map (
    bnScalar (nth L.weight c) (nth L.bias c) (stat c).1 (stat c).2 L.eps L.rsqrt))) 0 x

/-- `nn.BatchNorm2d` applied to a `(N, C, H, W)` batch; the per-channel
value count for the training-mode size check is `N * H * W`. -/
def BatchNorm.run2d (L : BatchNorm) (b : Batch) :
    Except PyError (Batch × BatchNorm) :=
  if b.all (fun x => x.length == L.num_features) then
    if L.training then
      if (chanVals2d b 0).length ≤ 1 then .error .valueError
      else
        .ok (b.map (bn2dImg L (fun c =>
            (meanOf (chanVals2d b c), varOf (chanVals2d b c)))),
          { L with
            running_mean := (List.range L.num_features).map (fun c =>
              (1 - L.momentum) * nth L.running_mean c +
                L.momentum * meanOf (chanVals2d b c)),
            running_var := (List.range L.num_features).map (fun c =>
              (1 - L.momentum) * nth L.running_var c +
                L.momentum * varUnbiasedOf (chanVals2d b c)),
            num_batches_tracked := L.num_batches_tracked + 1 })
    else .ok (b.map (bn2dImg L (bnRunningStat L)), L)
  else .error .runtimeError

/-- A freshly constructed `nn.BatchNorm1d/2d(n)`: affine weight `1`,
bias `0`, running mean `0`, running variance `1`, momentum `0.1`,
eps `1e-5`, training mode on. -/
def mkBatchNorm (n : Nat) (rs : ℚ → ℚ) : BatchNorm :=
  { num_features := n,
    weight := List.replicate n 1, bias := List.replicate n 0,
    running_mean := List.replicate n 0, running_var := List.replicate n 1,
    momentum := 1 / 10, eps := 1 / 100000,
    training := true, num_batches_tracked := 0, rsqrt := rs }

/-! ### `nn.Embedding` -/

/-- `nn.Embedding(num_embeddings, embedding_dim)`. -/
structure Embedding where
  num_embeddings : Nat
  embedding_dim : Nat
  weight : List Vec

/-- An embedding lookup: indices outside `[0, num_embeddings)` raise an
`IndexError`. -/
def Embedding.run (E : Embedding) (i : Int) : Except PyError Vec :=
  if 0 ≤ i ∧ i < (E.num_embeddings : Int) then .ok (nthD [] E.weight i.toNat)
  else .error .indexError

/-! ### `view` and `unbind` -/

/-- The `len`-long slice of a flat tensor starting at `start`. -/
def sliceRow (f : Vec) (start len : Nat) : Vec :=
  (List.range len).map (fun t => nth f (start + t))

/-- Regrouping a flat tensor into `rows` rows of `cols` entries. -/
def viewRows (f : Vec) (rows cols : Nat) : List Vec :=
  (List.range rows).map (fun r => sliceRow f (r * cols) cols)

/-- All entries of a 4-d tensor in row-major order. -/
def flat4 (b : Batch) : Vec := (b.map (fun x => (x.map List.flatten).flatten)).flatten

/-- `x.view((B, -1))`: the framework infers `-1` only when the element
count is positive and divisible by `B`, and raises a `RuntimeError`
otherwise. -/
def viewFlattenB (B : Nat) (b : Batch) : Except PyError (List Vec) :=
  let f := flat4 b
  if 0 < f.length ∧ f.length % B = 0 then .ok (viewRows f B (f.length / B))
  else .error .runtimeError

/-- `x.view(-1, c, w, h)` on the elements of a tensor. -/
def view4Infer (c w h : Nat) (f : Vec) : Except PyError Batch :=
  if 0 < f.length ∧ f.length % (c * w * h) = 0 then
    .ok ((List.range (f.length / (c * w * h))).map (fun n =>
      (List.range c).map (fun ci =>
        (List.range w).map (fun wi =>
          sliceRow f (((n * c + ci) * w + wi) * h) h))))
  else .error .runtimeError

/-- The even-indexed `d`-slice of a flat tensor from `base`: positions
`base, base+2, ...` — the first component of `unbind(-1)` after a
`view(..., d, 2)`. -/
def evenSlice (f : Vec) (base d : Nat) : Vec :=
  (List.range d).map (fun i => nth f (base + 2 * i))

/-- The odd-indexed `d`-slice of a flat tensor from `base`. -/
def oddSlice (f : Vec) (base d : Nat) : Vec :=
  (List.range d).map (fun i => nth f (base + 2 * i + 1))

/-- `m.view(-1, d, 2).unbind(-1)` on a `(B, L)` tensor: the element count
must be positive and divisible by `2 d`; the result is a pair of
`(numel/(2d), d)` tensors holding the even- and odd-indexed entries. -/
def viewUnbindInfer (d : Nat) (m : List Vec) :
    Except PyError (List Vec × List Vec) :=
  let f := m.flatten
  if 0 < f.length ∧ f.length % (d * 2) = 0 then
    .ok ((List.range (f.length / (d * 2))).map (fun b => evenSlice f (b * (d * 2)) d),
         (List.range (f.length / (d * 2))).map (fun b => oddSlice f (b * (d * 2)) d))
  else .error .runtimeError

/-- `m.view(B, d, 2).unbind(-1)` with explicit dimensions: the element
count must equal `B * d * 2`. -/
def viewUnbindExplicit (B d : Nat) (m : List Vec) :
    Except PyError (List Vec × List Vec) :=
  let f := m.flatten
  if f.length = B * (d * 2) then
    .ok ((List.range B).map (fun b => evenSlice f (b * (d * 2)) d),
         (List.range B).map (fun b => oddSlice f (b * (d * 2)) d))
  else .error .runtimeError

/-! ### `EncoderBurgess` -/

/-- `EncoderBurgess.__init__(img_size, latent_dim=10)`: three stride-2
convolutions, a fourth one only when the declared image size is 64×64,
two hidden linear layers fed from the hard-coded reshape `(32, 4, 4)`,
and the `mu_logvar_gen` head of width `2 * latent_dim`. -/
structure EncoderBurgess where
  latent_dim : Nat
  img_size : Nat × Nat × Nat
  conv1 : Conv2d
  conv2 : Conv2d
  conv3 : Conv2d
  conv_64 : Option Conv2d
  lin1 : Linear
  lin2 : Linear
  mu_logvar_gen : Linear

/-- The constructor of `EncoderBurgess` with parameter values filled by
`q`: `hid_channels = 32`, `kernel_size = 4`, `hidden_dim = 256`,
`cnn_kwargs = dict(stride=2, padding=1)`, `conv_64` present exactly when
`img_size[1] == img_size[2] == 64`, and `lin1` of input width
`np.product((32, 4, 4)) = 512`. -/
def mkEncoderBurgess (img_size : Nat × Nat × Nat) (latent_dim : Nat) (q : ℚ) :
    EncoderBurgess :=
  { latent_dim := latent_dim,
    img_size := img_size,
    conv1 := mkConv2d img_size.1 32 4 2 1 q,
    conv2 := mkConv2d 32 32 4 2 1 q,
    conv3 := mkConv2d 32 32 4 2 1 q,
    conv_64 := if img_size.2.1 = 64 ∧ img_size.2.2 = 64 then
        some (mkConv2d 32 32 4 2 1 q)
      else none,
    lin1 := mkLinear (32 * (4 * 4)) 256 q,
    lin2 := mkLinear 256 256 q,
    mu_logvar_gen := mkLinear 256 (latent_dim * 2) q }

/-- `EncoderBurgess.forward` up to (and including) the
`x.view((batch_size, -1))` flatten: the convolution stack with ReLU
activations and the conditional fourth convolution guarded by
`img_size`. -/
def burgessConvFlat (e : EncoderBurgess) (x : Batch) :
    Except PyError (List Vec) := do
  let c1 ← List.mapM e.conv1.run x
  let a1 := reluB c1
  let c2 ← List.mapM e.conv2.run a1
  let a2 := reluB c2
  let c3 ← List.mapM e.conv3.run a2
  let a3 := reluB c3
  let a4 ← if e.img_size.2.1 = 64 ∧ e.img_size.2.2 = 64 then
      match e.conv_64 with
      | some L => do
          let c4 ← List.mapM L.run a3
          pure (reluB c4)
      | none => Except.error .attributeError
    else pure a3
  viewFlattenB x.length a4

/-- `EncoderBurgess.forward` up to (and including) the second hidden
ReLU layer. -/
def burgessPre (e : EncoderBurgess) (x : Batch) : Except PyError (List Vec) := do
  let f ← burgessConvFlat e x
  let l1 ← List.mapM e.lin1.run f
  let l2 ← List.mapM e.lin2.run (reluRows l1)
  pure (reluRows l2)

/-- `EncoderBurgess.forward`: the hidden stack, the `mu_logvar_gen`
projection and the split `mu_logvar.view(-1, latent_dim, 2).unbind(-1)`. -/
def EncoderBurgess.forward (e : EncoderBurgess) (x : Batch) :
    Except PyError (List Vec × List Vec) := do
  let h ← burgessPre e x
  let ml ← List.mapM e.mu_logvar_gen.run h
  viewUnbindInfer e.latent_dim ml

/-! ### Python tensors of arbitrary rank

`ConvEncoder.forward` begins with `assert len(inputs.shape) == 4`, so its
input is embedded as a tree of arbitrary nesting depth.  A real framework
tensor is rectangular by construction; `PyTensor.regular` states that the
tree denotes such a tensor. -/

inductive PyTensor where
  | val (q : ℚ)
  | arr (ts : List PyTensor)

/-- The immediate sub-tensors. -/
def PyTensor.dim1 : PyTensor → List PyTensor
  | .val _ => []
  | .arr ts => ts

/-- The shape of a tensor, read along the first component as the
framework metadata would record it. -/
def PyTensor.shape : PyTensor → List Nat
  | .val _ => []
  | .arr [] => [0]
  | .arr (t :: ts) => (ts.length + 1) :: t.shape

/-- All members of a list of tensor trees share the shape of the first. -/
def shapesEq (ts : List PyTensor) : Bool :=
  ts.all (fun t => t.shape == (nthD (.val 0) ts 0).shape)

mutual

/-- Whether a tensor tree is rectangular: every level has sub-tensors of
one common shape. -/
def PyTensor.regular : PyTensor → Bool
  | .val _ => true
  | .arr ts => regularList ts && shapesEq ts

/-- All members of a list of tensor trees are rectangular. -/
def regularList : List PyTensor → Bool
  | [] => true
  | t :: ts => t.regular && regularList ts

end

/-- The scalar stored in a rank-0 tensor. -/
def tensorToQ : PyTensor → ℚ
  | .val q => q
  | .arr _ => 0

/-- A rank-1 tensor as a vector. -/
def tensorToVec (t : PyTensor) : Vec := t.dim1.map tensorToQ

/-- A rank-2 tensor as a matrix. -/
def tensorToMat (t : PyTensor) : Mat := t.dim1.map tensorToVec

/-- A rank-3 tensor as an image. -/
def tensorToImg (t : PyTensor) : Img := t.dim1.map tensorToMat

/-- A rank-4 tensor as a batch of images. -/
def tensorToBatch (t : PyTensor) : Batch := t.dim1.map tensorToImg

/-- The elements of a rank-4 tensor in row-major order, as consumed by
`view`. -/
def tensorFlat (t : PyTensor) : Vec := flat4 (tensorToBatch t)

/-! ### `ConvEncoder` -/

/-- `ConvEncoder.__init__(output_dim)`: three 5×5 stride-1 pad-2
convolutions with batch norm, two fully connected layers with batch norm
(`fc1 : 8192 → 3072`, `fc2 : 3072 → 2048`) and the `mu_logvar_gen` head;
the nonlinearity is a `LeakyReLU`. -/
structure ConvEncoder where
  latent_dim : Nat
  conv1 : Conv2d
  bn1 : BatchNorm
  conv2 : Conv2d
  bn2 : BatchNorm
  conv3 : Conv2d
  bn3 : BatchNorm
  fc1 : Linear
  bn1_fc : BatchNorm
  fc2 : Linear
  bn2_fc : BatchNorm
  mu_logvar_gen : Linear

/-- The constructor of `ConvEncoder` with parameter values filled by `q`
and reciprocal square root `rs`. -/
def mkConvEncoder (output_dim : Nat) (q : ℚ) (rs : ℚ → ℚ) : ConvEncoder :=
  { latent_dim := output_dim,
    conv1 := mkConv2d 3 64 5 1 2 q, bn1 := mkBatchNorm 64 rs,
    conv2 := mkConv2d 64 64 5 1 2 q, bn2 := mkBatchNorm 64 rs,
    conv3 := mkConv2d 64 128 5 1 2 q, bn3 := mkBatchNorm 128 rs,
    fc1 := mkLinear 8192 3072 q, bn1_fc := mkBatchNorm 3072 rs,
    fc2 := mkLinear 3072 2048 q, bn2_fc := mkBatchNorm 2048 rs,
    mu_logvar_gen := mkLinear 2048 (output_dim * 2) q }

/-- The `ConvEncoder` pipeline from the reshaped 4-d input to the second
hidden LeakyReLU layer, threading the five batch-norm states. -/
def convRest (e : ConvEncoder) (B : Nat) (h0 : Batch) :
    Except PyError (List Vec × ConvEncoder) := do
  let c1 ← List.mapM e.conv1.run h0
  let (b1, bn1a) ← e.bn1.run2d c1
  let p1 := poolB (leakyB b1)
  let c2 ← List.mapM e.conv2.run p1
  let (b2, bn2a) ← e.bn2.run2d c2
  let p2 := poolB (leakyB b2)
  let c3 ← List.mapM e.conv3.run p2
  let (b3, bn3a) ← e.bn3.run2d c3
  let a3 := leakyB b3
  let hf ← viewFlattenB B a3
  let f1 ← List.mapM e.fc1.run hf
  let (g1, bnf1a) ← e.bn1_fc.run1d f1
  let h1 := leakyRows g1
  let f2 ← List.mapM e.fc2.run h1
  let (g2, bnf2a) ← e.bn2_fc.run1d f2
  let h2 := leakyRows g2
  pure (h2, { e with bn1 := bn1a, bn2 := bn2a, bn3 := bn3a,
                     bn1_fc := bnf1a, bn2_fc := bnf2a })

/-- The hidden part of `ConvEncoder.forward` after the rank assertion:
the sizes are read from the input shape, the input is reshaped by
`inputs.contiguous().view(-1, channel, width, height)` and fed through
the convolutional and fully connected pipeline; an irregular tree does
not denote a framework tensor and is rejected. -/
def convHidden (e : ConvEncoder) (t : PyTensor) :
    Except PyError (List Vec × ConvEncoder) :=
  if t.regular then
    let channel := nthD 0 t.shape 1
    let width := nthD 0 t.shape 2
    let height := nthD 0 t.shape 3
    do
      let h0 ← view4Infer channel width height (tensorFlat t)
      convRest e (nthD 0 t.shape 0) h0
  else .error .runtimeError

/-- `ConvEncoder.forward` after the rank assertion has passed: the hidden
pipeline, the `mu_logvar_gen` projection and the
`view(batch_size, latent_dim, 2).unbind(-1)` split. -/
def convAfterAssert (e : ConvEncoder) (t : PyTensor) :
    Except PyError ((List Vec × List Vec) × ConvEncoder) := do
  let (h2, e1) ← convHidden e t
  let ml ← List.mapM e.mu_logvar_gen.run h2
  let (ms, ls) ← viewUnbindExplicit (nthD 0 t.shape 0) e.latent_dim ml
  pure ((ms, ls), e1)

/-- `ConvEncoder.forward`: `assert len(inputs.shape) == 4`, then the
pipeline; the updated batch-norm states are returned alongside the
`(mu, logvar)` outputs. -/
def ConvEncoder.forwardT (e : ConvEncoder) (t : PyTensor) :
    Except PyError ((List Vec × List Vec) × ConvEncoder) :=
  if t.shape.length = 4 then convAfterAssert e t
  else .error .assertionError

/-- The hidden pipeline with the initial reshape removed (the comparison
point of the reshape-identity claim): the 4-d input is consumed directly. -/
def convHiddenNoView (e : ConvEncoder) (t : PyTensor) :
    Except PyError (List Vec × ConvEncoder) :=
  if t.regular then convRest e (nthD 0 t.shape 0) (tensorToBatch t)
  else .error .runtimeError

/-- `convAfterAssert` with the initial reshape removed. -/
def convAfterAssertNoView (e : ConvEncoder) (t : PyTensor) :
    Except PyError ((List Vec × List Vec) × ConvEncoder) := do
  let (h2, e1) ← convHiddenNoView e t
  let ml ← List.mapM e.mu_logvar_gen.run h2
  let (ms, ls) ← viewUnbindExplicit (nthD 0 t.shape 0) e.latent_dim ml
  pure ((ms, ls), e1)

/-- `ConvEncoder.forward` with the initial reshape removed. -/
def ConvEncoder.forwardTNoView (e : ConvEncoder) (t : PyTensor) :
    Except PyError ((List Vec × List Vec) × ConvEncoder) :=
  if t.shape.length = 4 then convAfterAssertNoView e t
  else .error .assertionError

/-- `nn.Module.eval()` on a `ConvEncoder`: all batch-norm layers leave
training mode. -/
def ConvEncoder.toEval (e : ConvEncoder) : ConvEncoder :=
  { e with bn1 := { e.bn1 with training := false },
           bn2 := { e.bn2 with training := false },
           bn3 := { e.bn3 with training := false },
           bn1_fc := { e.bn1_fc with training := false },
           bn2_fc := { e.bn2_fc with training := false } }

/-- All batch-norm layers of a `ConvEncoder` are in eval mode. -/
def ConvEncoder.isEval (e : ConvEncoder) : Prop :=
  e.bn1.training = false ∧ e.bn2.training = false ∧ e.bn3.training = false ∧
    e.bn1_fc.training = false ∧ e.bn2_fc.training = false

/-! ### `DomainEncoder` -/

/-- `DomainEncoder.__init__(num_domains, output_dim)`: an embedding into
dimension 512, a `BatchNorm1d(512)`, a LeakyReLU and the
`mu_logvar_gen : 512 → 2*output_dim` head. -/
structure DomainEncoder where
  latent_dim : Nat
  embed : Embedding
  bn : BatchNorm
  mu_logvar_gen : Linear

/-- The constructor of `DomainEncoder` with parameter values filled by
`q` and reciprocal square root `rs`. -/
def mkDomainEncoder (num_domains output_dim : Nat) (q : ℚ) (rs : ℚ → ℚ) :
    DomainEncoder :=
  { latent_dim := output_dim,
    embed := { num_embeddings := num_domains, embedding_dim := 512,
               weight := List.replicate num_domains (List.replicate 512 q) },
    bn := mkBatchNorm 512 rs,
    mu_logvar_gen := mkLinear 512 (output_dim * 2) q }

/-- `DomainEncoder.forward` up to the LeakyReLU hidden layer:
`self.act(self.bn(self.embed(inputs)))`, threading the batch-norm state. -/
def domainPre (e : DomainEncoder) (inputs : List Int) :
    Except PyError (List Vec × DomainEncoder) := do
  let h0 ← List.mapM e.embed.run inputs
  let (h1, bnA) ← e.bn.run1d h0
  pure (leakyRows h1, { e with bn := bnA })

/-- `DomainEncoder.forward` returning the `(mu, logvar)` outputs and the
updated module state. -/
def DomainEncoder.forwardS (e : DomainEncoder) (inputs : List Int) :
    Except PyError ((List Vec × List Vec) × DomainEncoder) := do
  let (h2, e1) ← domainPre e inputs
  let ml ← List.mapM e.mu_logvar_gen.run h2
  let (ms, ls) ← viewUnbindExplicit inputs.length e.latent_dim ml
  pure ((ms, ls), e1)

/-- The `(mu, logvar)` outputs of `DomainEncoder.forward`. -/
def DomainEncoder.forward (e : DomainEncoder) (inputs : List Int) :
    Except PyError (List Vec × List Vec) :=
  (DomainEncoder.forwardS e inputs).map Prod.fst

/-- `nn.Module.eval()` on a `DomainEncoder`. -/
def DomainEncoder.toEval (e : DomainEncoder) : DomainEncoder :=
  { e with bn := { e.bn with training := false } }

/-- The batch-norm layer of a `DomainEncoder` is in eval mode. -/
def DomainEncoder.isEval (e : DomainEncoder) : Prop := e.bn.training = false

/-! ### `get_encoder` -/

/-- Python `str.lower()` (ASCII, which covers the encoder names). -/
def pyLower (s : String) : String := String.mk (s.data.map Char.toLower)

/-- Python `str.capitalize()`: first character upper-cased, the rest
lower-cased. -/
def pyCapitalize (s : String) : String :=
  match s.data with
  | [] => ""
  | c :: t => String.mk (c.toUpper :: t.map Char.toLower)

/-- The encoder classes defined at module level. -/
inductive EncoderClass where
  | encoderBurgess
  | convEncoder
  | domainEncoder
deriving DecidableEq

/-- The global class names of the module paired with the classes they
denote; `eval` resolves a name against exactly this table. -/
def moduleClasses : List (String × EncoderClass) :=
  [("EncoderBurgess", .encoderBurgess),
   ("ConvEncoder", .convEncoder),
   ("DomainEncoder", .domainEncoder)]

/-- `get_encoder(model_type)`:
`eval("Encoder{}".format(model_type.lower().capitalize()))`; `none`
models the `NameError` raised when no module global bears the name. -/
def get_encoder (model_type : String) : Option EncoderClass :=
  moduleClasses.lookup ("Encoder" ++ pyCapitalize (pyLower model_type))

/-! ### Shape predicates and dimension flow

The shape bookkeeping used by the theorems: an `Img` of a given channel
count and spatial extent, a rectangular batch, and the flow of dimensions
through a convolution / pooling stage.  These are statements about the
embedded code, phrased so that they are decidable on concrete layers. -/

/-- `ImgShape n a c x`: `x` is an `n × a × c` image. -/
def ImgShape (n a c : Nat) (x : Img) : Prop :=
  x.length = n ∧ ∀ m ∈ x, m.length = a ∧ ∀ r ∈ m, r.length = c

/-- `BatchShape B n a c b`: `b` is a `B × n × a × c` batch. -/
def BatchShape (B n a c : Nat) (b : Batch) : Prop :=
  b.length = B ∧ ∀ x ∈ b, ImgShape n a c x

/-- `RowsShape B w rows`: `rows` is a `B × w` matrix of rows. -/
def RowsShape (B w : Nat) (rows : List Vec) : Prop :=
  rows.length = B ∧ ∀ r ∈ rows, r.length = w

/-- The weight and bias lists of a linear layer have the lengths declared
at construction (true of every layer `nn.Linear` builds). -/
def Linear.wfShape (L : Linear) : Prop :=
  L.weight.length = L.out_features ∧ L.bias.length = L.out_features

/-- Dimension flow `(channels, height, width)` through a convolution. -/
def convDims (L : Conv2d) (d : Nat × Nat × Nat) : Nat × Nat × Nat :=
  (L.out_channels, convOutDim L d.2.1, convOutDim L d.2.2)

/-- A convolution accepts an input of dimensions `d`: the channel counts
agree, the input is nonempty in every dimension and the padded extent
fits the kernel. -/
def convFits (L : Conv2d) (d : Nat × Nat × Nat) : Prop :=
  d.1 = L.in_channels ∧ 0 < d.1 ∧ 0 < d.2.1 ∧ 0 < d.2.2 ∧
    L.kernel_size ≤ d.2.1 + 2 * L.padding ∧
    L.kernel_size ≤ d.2.2 + 2 * L.padding

instance (L : Conv2d) (d : Nat × Nat × Nat) : Decidable (convFits L d) := by
  unfold convFits; infer_instance

/-- `convFits` through an optional convolution (`False` when absent). -/
def optionFits : Option Conv2d → Nat × Nat × Nat → Prop
  | none, _ => False
  | some L, d => convFits L d

instance (o : Option Conv2d) (d : Nat × Nat × Nat) : Decidable (optionFits o d) :=
  match o with
  | none => isFalse (fun h => h)
  | some L => (inferInstance : Decidable (convFits L d))

/-- Dimension flow through an optional convolution. -/
def optionDims : Option Conv2d → Nat × Nat × Nat → Nat × Nat × Nat
  | none, d => d
  | some L, d => convDims L d

/-- The number of scalars per sample after flattening. -/
def flatLen (d : Nat × Nat × Nat) : Nat := d.1 * (d.2.1 * d.2.2)

/-- Spatial extent after `F.max_pool2d(stride=2, kernel_size=3, padding=1)`. -/
def poolDim (n : Nat) : Nat := (n + 2 - 3) / 2 + 1

/-- Dimension flow through the max-pooling stage. -/
def poolDims (d : Nat × Nat × Nat) : Nat × Nat × Nat :=
  (d.1, poolDim d.2.1, poolDim d.2.2)

/-- One sample flattened in row-major order (`x.view((B, -1))` acts like
this on each sample of a rectangular batch). -/
def imgFlat (x : Img) : Vec := (x.map List.flatten).flatten

/-- Split a list of pairs into the pair of component lists. -/
def unzipPair (l : List (Vec × Vec)) : List Vec × List Vec :=
  (l.map Prod.fst, l.map Prod.snd)

/-! ### Per-sample pipelines

The per-sample value functions that the no-cross-sample-coupling claim
compares against: identical to the batched pipelines except that every
stage acts on one sample (batch normalization uses its running
statistics, i.e. eval mode). -/

/-- The convolution stack of `EncoderBurgess` on one sample. -/
def burgessConvSample (e : EncoderBurgess) (x : Img) : Img :=
  let a3 := reluImg (convGrid e.conv3
    (reluImg (convGrid e.conv2 (reluImg (convGrid e.conv1 x)))))
  if e.img_size.2.1 = 64 ∧ e.img_size.2.2 = 64 then
    match e.conv_64 with
    | some L => reluImg (convGrid L a3)
    | none => a3
  else a3

/-- `EncoderBurgess.forward` on one sample. -/
def burgessSample (e : EncoderBurgess) (x : Img) : Vec × Vec :=
  let s := linOut e.mu_logvar_gen (reluV (linOut e.lin2
    (reluV (linOut e.lin1 (imgFlat (burgessConvSample e x))))))
  (evenSlice s 0 e.latent_dim, oddSlice s 0 e.latent_dim)

/-- Eval-mode batch normalization of one `(C, H, W)` sample. -/
def bn2dSample (L : BatchNorm) (x : Img) : Img := bn2dImg L (bnRunningStat L) x

/-- Eval-mode batch normalization of one row. -/
def bn1dSample (L : BatchNorm) (r : Vec) : Vec := bn1dRow L (bnRunningStat L) r

/-- The `ConvEncoder` hidden pipeline on one sample (eval mode). -/
def convEncSampleHidden (e : ConvEncoder) (x : Img) : Vec :=
  let p1 := maxPool2d (leakyImg (bn2dSample e.bn1 (convGrid e.conv1 x)))
  let p2 := maxPool2d (leakyImg (bn2dSample e.bn2 (convGrid e.conv2 p1)))
  let a3 := leakyImg (bn2dSample e.bn3 (convGrid e.conv3 p2))
  leakyV (bn1dSample e.bn2_fc (linOut e.fc2
    (leakyV (bn1dSample e.bn1_fc (linOut e.fc1 (imgFlat a3))))))

/-- `ConvEncoder.forward` on one sample (eval mode). -/
def convEncSample (e : ConvEncoder) (x : Img) : Vec × Vec :=
  let s := linOut e.mu_logvar_gen (convEncSampleHidden e x)
  (evenSlice s 0 e.latent_dim, oddSlice s 0 e.latent_dim)

/-- `DomainEncoder.forward` on one sample (eval mode, index in range). -/
def domainSample (e : DomainEncoder) (i : Int) : Vec × Vec :=
  let s := linOut e.mu_logvar_gen (leakyV (bn1dSample e.bn
    (nthD [] e.embed.weight i.toNat)))
  (evenSlice s 0 e.latent_dim, oddSlice s 0 e.latent_dim)

/-! ### Whole-encoder shape conditions -/

/-- Conditions under which the layer dimensions of an `EncoderBurgess`
record fit an input of dimensions `d0` all the way through `forward`;
every record the constructor builds satisfies them for the image sizes it
supports. -/
def burgessShapeOk (e : EncoderBurgess) (d0 : Nat × Nat × Nat) : Prop :=
  let d1 := convDims e.conv1 d0
  let d2 := convDims e.conv2 d1
  let d3 := convDims e.conv3 d2
  let d4 := if e.img_size.2.1 = 64 ∧ e.img_size.2.2 = 64 then
      optionDims e.conv_64 d3
    else d3
  convFits e.conv1 d0 ∧ convFits e.conv2 d1 ∧ convFits e.conv3 d2 ∧
    (e.img_size.2.1 = 64 ∧ e.img_size.2.2 = 64 → optionFits e.conv_64 d3) ∧
    0 < d4.1 ∧
    flatLen d4 = e.lin1.in_features ∧ e.lin1.wfShape ∧
    e.lin2.in_features = e.lin1.out_features ∧ e.lin2.wfShape ∧
    e.mu_logvar_gen.in_features = e.lin2.out_features ∧
    e.mu_logvar_gen.wfShape ∧
    e.mu_logvar_gen.out_features = e.latent_dim * 2 ∧ 0 < e.latent_dim

/-- Conditions under which the layer dimensions of a `ConvEncoder` record
fit an input of dimensions `d0`; the constructed encoder satisfies them
for `d0 = (3, 32, 32)`. -/
def convEncShapeOk (e : ConvEncoder) (d0 : Nat × Nat × Nat) : Prop :=
  let da1 := convDims e.conv1 d0
  let d1 := poolDims da1
  let da2 := convDims e.conv2 d1
  let d2 := poolDims da2
  let d3 := convDims e.conv3 d2
  convFits e.conv1 d0 ∧ e.bn1.num_features = e.conv1.out_channels ∧
    convFits e.conv2 d1 ∧ e.bn2.num_features = e.conv2.out_channels ∧
    convFits e.conv3 d2 ∧ e.bn3.num_features = e.conv3.out_channels ∧
    0 < d3.1 ∧
    flatLen d3 = e.fc1.in_features ∧ e.fc1.wfShape ∧
    e.bn1_fc.num_features = e.fc1.out_features ∧
    e.fc2.in_features = e.fc1.out_features ∧ e.fc2.wfShape ∧
    e.bn2_fc.num_features = e.fc2.out_features ∧
    e.mu_logvar_gen.in_features = e.fc2.out_features ∧
    e.mu_logvar_gen.wfShape ∧
    e.mu_logvar_gen.out_features = e.latent_dim * 2

/-- The training-mode batch-size conditions of the `ConvEncoder`
batch-norm layers for a `B × d0` input. -/
def convCountOk (e : ConvEncoder) (d0 : Nat × Nat × Nat) (B : Nat) : Prop :=
  let da1 := convDims e.conv1 d0
  let da2 := convDims e.conv2 (poolDims da1)
  let da3 := convDims e.conv3 (poolDims da2)
  (e.bn1.training = true → 1 < B * (da1.2.1 * da1.2.2)) ∧
    (e.bn2.training = true → 1 < B * (da2.2.1 * da2.2.2)) ∧
    (e.bn3.training = true → 1 < B * (da3.2.1 * da3.2.2)) ∧
    (e.bn1_fc.training = true → 1 < B) ∧
    (e.bn2_fc.training = true → 1 < B)

/-- Conditions under which the layer dimensions of a `DomainEncoder`
record fit `forward`; every constructed record satisfies them. -/
def domainShapeOk (e : DomainEncoder) : Prop :=
  e.embed.num_embeddings ≤ e.embed.weight.length ∧
    (∀ r ∈ e.embed.weight, r.length = e.bn.num_features) ∧
    e.mu_logvar_gen.in_features = e.bn.num_features ∧
    e.mu_logvar_gen.wfShape ∧
    e.mu_logvar_gen.out_features = e.latent_dim * 2

/-! ### Layer and parameter counting (for the conditional fourth
convolution of `EncoderBurgess`) -/

/-- The number of scalar parameters of a convolution. -/
def convParamCount (L : Conv2d) : Nat :=
  (L.weight.map (fun r => (r.map (fun m => (m.map List.length).sum)).sum)).sum +
    L.bias.length

/-- The number of scalar parameters of a linear layer. -/
def linParamCount (L : Linear) : Nat :=
  (L.weight.map List.length).sum + L.bias.length

/-- The number of convolutional layers an `EncoderBurgess` owns. -/
def burgessNumConvs (e : EncoderBurgess) : Nat :=
  3 + (if e.conv_64.isSome then 1 else 0)

/-- The total number of scalar parameters of an `EncoderBurgess`. -/
def burgessParamCount (e : EncoderBurgess) : Nat :=
  convParamCount e.conv1 + convParamCount e.conv2 + convParamCount e.conv3 +
    (match e.conv_64 with
     | some L => convParamCount L
     | none => 0) +
    linParamCount e.lin1 + linParamCount e.lin2 +
    linParamCount e.mu_logvar_gen

/-- The channel/height/width dimensions produced by the `EncoderBurgess`
convolution stack on an input of dimensions `d0` (including the
conditional fourth convolution). -/
def burgessOutDims (e : EncoderBurgess) (d0 : Nat × Nat × Nat) :
    Nat × Nat × Nat :=
  let d3 := convDims e.conv3 (convDims e.conv2 (convDims e.conv1 d0))
  if e.img_size.2.1 = 64 ∧ e.img_size.2.2 = 64 then optionDims e.conv_64 d3
  else d3

/-! ### Concrete inputs and small encoder records

Concrete rectangular tensors and deliberately small encoder records used
to instantiate the theorems on explicit inputs. -/

/-- The rank-4 tensor of dimensions `B × c × w × h` filled with `q`. -/
def tensorRep4 (B c w h : Nat) (q : ℚ) : PyTensor :=
  .arr (List.replicate B (.arr (List.replicate c
    (.arr (List.replicate w (.arr (List.replicate h (.val q))))))))

/-- A 1→1 convolution with kernel 1, stride 1, no padding, weight `1`,
bias `0`: the identity on a `1 × n × m` image. -/
def convId : Conv2d :=
  { in_channels := 1, out_channels := 1, kernel_size := 1, stride := 1,
    padding := 0, weight := [[[[1]]]], bias := [0] }

/-- The identity `1 → 1` linear layer. -/
def linId : Linear :=
  { in_features := 1, out_features := 1, weight := [[1]], bias := [0] }

/-- The `1 → 2` linear layer sending `[x]` to `[x, 2 x]`. -/
def linTwo : Linear :=
  { in_features := 1, out_features := 2, weight := [[1], [2]], bias := [0, 0] }

/-- An eval-mode single-feature batch norm with `eps = 0` and constant
reciprocal square root `1`: the identity on every row. -/
def bnId : BatchNorm :=
  { num_features := 1, weight := [1], bias := [0], running_mean := [0],
    running_var := [1], momentum := 1 / 10, eps := 0, training := false,
    num_batches_tracked := 0, rsqrt := fun _ => 1 }

/-- A small `EncoderBurgess` record: every layer the identity except the
final `1 → 2` projection. -/
def tinyBurgess : EncoderBurgess :=
  { latent_dim := 1, img_size := (1, 1, 1),
    conv1 := convId, conv2 := convId, conv3 := convId, conv_64 := none,
    lin1 := linId, lin2 := linId, mu_logvar_gen := linTwo }

/-- A small eval-mode `ConvEncoder` record: every layer the identity
except the final `1 → 2` projection. -/
def tinyConv : ConvEncoder :=
  { latent_dim := 1,
    conv1 := convId, bn1 := bnId, conv2 := convId, bn2 := bnId,
    conv3 := convId, bn3 := bnId, fc1 := linId, bn1_fc := bnId,
    fc2 := linId, bn2_fc := bnId, mu_logvar_gen := linTwo }

/-- A small eval-mode `DomainEncoder` record with a one-entry embedding
table. -/
def tinyDomain : DomainEncoder :=
  { latent_dim := 1,
    embed := { num_embeddings := 1, embedding_dim := 1, weight := [[1]] },
    bn := bnId, mu_logvar_gen := linTwo }

/-- A training-mode `DomainEncoder` whose embedding rows differ only in
their first coordinate and whose `mu` head reads exactly that coordinate:
the batch statistics of its batch norm couple the samples of a batch. -/
def couplingCex : DomainEncoder :=
  { latent_dim := 1,
    embed := { num_embeddings := 2, embedding_dim := 512,
               weight := [List.replicate 512 0, 1 :: List.replicate 511 0] },
    bn := mkBatchNorm 512 (fun _ => 1),
    mu_logvar_gen := { in_features := 512, out_features := 2,
                       weight := [1 :: List.replicate 511 0,
                                  List.replicate 512 0],
                       bias := [0, 0] } }

/-! ### Basic list lemmas -/

theorem nthD_eq_getElem {α : Type} (d : α) :
    ∀ (l : List α) (n : Nat) (h : n < l.length), nthD d l n = l[n]
  | a :: _, 0, _ => rfl
  | _ :: t, n + 1, h => nthD_eq_getElem d t n (by simpa using h)

theorem nthD_mem {α : Type} (d : α) (l : List α) (n : Nat) (h : n < l.length) :
    nthD d l n ∈ l := by
  rw [nthD_eq_getElem d l n h]; exact List.getElem_mem h

theorem length_mapIdxP {α β : Type} (f : Nat → α → β) :
    ∀ (n : Nat) (l : List α), (mapIdxP f n l).length = l.length
  | _, [] => rfl
  | n, _ :: t => by simp [mapIdxP, length_mapIdxP f (n + 1) t]

theorem mem_mapIdxP {α β : Type} (f : Nat → α → β) :
    ∀ (n : Nat) (l : List α) (y : β), y ∈ mapIdxP f n l →
      ∃ i x, x ∈ l ∧ y = f i x
  | _, [], _, h => by cases h
  | n, a :: t, y, h => by
    rcases List.mem_cons.mp h with h1 | h1
    · exact ⟨n, a, by simp, h1⟩
    · rcases mem_mapIdxP f (n + 1) t y h1 with ⟨i, x, hx, hy⟩
      exact ⟨i, x, by simp [hx], hy⟩

theorem rangeMap_nthD_self {α : Type} (d : α) (l : List α) :
    (List.range l.length).map (fun i => nthD d l i) = l := by
  apply List.ext_getElem
  · simp
  · intro i h1 h2
    simp only [List.getElem_map, List.getElem_range]
    exact nthD_eq_getElem d l i h2

theorem nthD_append_left {α : Type} (d : α) :
    ∀ (l s : List α) (n : Nat), n < l.length → nthD d (l ++ s) n = nthD d l n
  | a :: _, _, 0, _ => rfl
  | _ :: t, s, n + 1, h => nthD_append_left d t s n (by simpa using h)

theorem nthD_append_right {α : Type} (d : α) :
    ∀ (l s : List α) (n : Nat), nthD d (l ++ s) (l.length + n) = nthD d s n
  | [], _, _ => by simp [nthD]
  | a :: t, s, n => by
    simpa [List.length_cons, Nat.succ_add, nthD] using nthD_append_right d t s n

theorem length_flatten_uniform {α : Type} (k : Nat) :
    ∀ (l : List (List α)), (∀ r ∈ l, r.length = k) →
      l.flatten.length = l.length * k
  | [], _ => by simp
  | a :: t, h => by
    have ht := length_flatten_uniform k t (fun r hr => h r (by simp [hr]))
    simp [List.flatten_cons, h a (by simp), ht, Nat.succ_mul, Nat.add_comm]

theorem nth_flatten_uniform (k : Nat) :
    ∀ (rows : List Vec), (∀ r ∈ rows, r.length = k) →
      ∀ (b t : Nat), t < k →
        nth rows.flatten (b * k + t) = nth (nthD [] rows b) t
  | [], _, b, t, _ => by cases b <;> simp [nth, nthD]
  | r :: rs, h, 0, t, ht => by
    have hr : r.length = k := h r (by simp)
    simp only [List.flatten_cons, Nat.zero_mul, Nat.zero_add, nth, nthD]
    exact nthD_append_left 0 r rs.flatten t (by rw [hr]; exact ht)
  | r :: rs, h, b + 1, t, ht => by
    have hr : r.length = k := h r (by simp)
    have ih := nth_flatten_uniform k rs (fun x hx => h x (by simp [hx])) b t ht
    have : (b + 1) * k + t = r.length + (b * k + t) := by
      rw [hr]; ring
    simp only [List.flatten_cons, nth, this, nthD]
    rw [nthD_append_right 0 r rs.flatten (b * k + t)]
    exact ih

theorem length_sliceRow (f : Vec) (s k : Nat) : (sliceRow f s k).length = k := by
  simp [sliceRow]

theorem sliceRow_flatten_uniform (k : Nat) (rows : List Vec)
    (h : ∀ r ∈ rows, r.length = k) (b s len : Nat) (hsl : s + len ≤ k) :
    sliceRow rows.flatten (b * k + s) len = sliceRow (nthD [] rows b) s len := by
  unfold sliceRow
  apply List.map_congr_left
  intro t ht
  have ht' : t < len := List.mem_range.mp ht
  have : b * k + s + t = b * k + (s + t) := by ring
  rw [this]
  exact nth_flatten_uniform k rows h b (s + t) (by omega)

theorem sliceRow_self (r : Vec) : sliceRow r 0 r.length = r := by
  unfold sliceRow
  have : ∀ t ∈ List.range r.length, nth r (0 + t) = nthD 0 r t := by
    intro t _; simp [nth]
  rw [List.map_congr_left this]
  exact rangeMap_nthD_self 0 r

theorem viewRows_flatten_uniform (rows : List Vec) (k : Nat)
    (h : ∀ r ∈ rows, r.length = k) :
    viewRows rows.flatten rows.length k = rows := by
  unfold viewRows
  have step : ∀ b ∈ List.range rows.length,
      sliceRow rows.flatten (b * k) k = nthD [] rows b := by
    intro b hb
    have hb' : b < rows.length := List.mem_range.mp hb
    have hr : (nthD [] rows b).length = k := h _ (nthD_mem [] rows b hb')
    have h1 : sliceRow rows.flatten (b * k + 0) k = sliceRow (nthD [] rows b) 0 k :=
      sliceRow_flatten_uniform k rows h b 0 k (by omega)
    rw [← hr] at h1 ⊢
    simpa [sliceRow_self] using h1
  rw [List.map_congr_left step]
  exact rangeMap_nthD_self [] rows

/-! ### `Except`-valued `mapM` lemmas -/

theorem mapM_ok_of {α β : Type} (f : α → Except PyError β) (g : α → β) :
    ∀ l : List α, (∀ x ∈ l, f x = .ok (g x)) → l.mapM f = .ok (l.map g) := by
  intro l h
  induction l with
  | nil => rfl
  | cons a t ih =>
    rw [List.mapM_cons, h a (by simp), ih (fun x hx => h x (by simp [hx]))]
    rfl

theorem mapM_error_of {α β : Type} (f : α → Except PyError β) (er : PyError) :
    ∀ l : List α, (∀ x ∈ l, f x = .error er ∨ ∃ y, f x = .ok y) →
      (∃ x ∈ l, f x = .error er) → l.mapM f = .error er := by
  intro l h hex
  induction l with
  | nil => rcases hex with ⟨x, hx, _⟩; cases hx
  | cons a t ih =>
    rw [List.mapM_cons]
    rcases h a (by simp) with ha | ⟨y, hy⟩
    · rw [ha]; rfl
    · rw [hy]
      have hext : ∃ x ∈ t, f x = .error er := by
        rcases hex with ⟨x, hx, hfx⟩
        rcases List.mem_cons.mp hx with hx1 | hx1
        · rw [hx1] at hfx; rw [hfx] at hy; cases hy
        · exact ⟨x, hx1, hfx⟩
      rw [ih (fun x hx => h x (by simp [hx])) hext]
      rfl

theorem mapM_ok_forall {α β : Type} (f : α → Except PyError β) :
    ∀ (l : List α) (out : List β), l.mapM f = .ok out →
      ∀ x ∈ l, ∃ y, f x = .ok y := by
  intro l
  induction l with
  | nil => intro out _ x hx; cases hx
  | cons a t ih =>
    intro out hok x hx
    rw [List.mapM_cons] at hok
    cases hfa : f a with
    | error er => rw [hfa] at hok; cases hok
    | ok y =>
      rw [hfa] at hok
      cases hmt : t.mapM f with
      | error er =>
        rw [hmt] at hok; cases hok
      | ok ys =>
        rcases List.mem_cons.mp hx with hx1 | hx1
        · exact ⟨y, by rw [hx1]; exact hfa⟩
        · exact ih ys hmt x hx1

theorem mapM_ok_length {α β : Type} (f : α → Except PyError β) :
    ∀ (l : List α) (out : List β), l.mapM f = .ok out →
      out.length = l.length := by
  intro l
  induction l with
  | nil => intro out h; cases h; rfl
  | cons a t ih =>
    intro out hok
    rw [List.mapM_cons] at hok
    cases hfa : f a with
    | error er => rw [hfa] at hok; cases hok
    | ok y =>
      rw [hfa] at hok
      cases hmt : t.mapM f with
      | error er => rw [hmt] at hok; cases hok
      | ok ys =>
        rw [hmt] at hok
        cases hok
        simp [ih ys hmt]

/-! ### Characterizations of the `view`/`unbind` reshapes on rectangular
inputs -/

theorem evenSlice_flatten_uniform (d : Nat) (rows : List Vec)
    (h : ∀ r ∈ rows, r.length = d * 2) (b : Nat) :
    evenSlice rows.flatten (b * (d * 2)) d = evenSlice (nthD [] rows b) 0 d := by
  unfold evenSlice
  apply List.map_congr_left
  intro i hi
  have hi' : i < d := List.mem_range.mp hi
  have : b * (d * 2) + 2 * i = b * (d * 2) + (0 + 2 * i) := by ring
  rw [this]
  exact nth_flatten_uniform (d * 2) rows h b (0 + 2 * i) (by omega)

theorem oddSlice_flatten_uniform (d : Nat) (rows : List Vec)
    (h : ∀ r ∈ rows, r.length = d * 2) (b : Nat) :
    oddSlice rows.flatten (b * (d * 2)) d = oddSlice (nthD [] rows b) 0 d := by
  unfold oddSlice
  apply List.map_congr_left
  intro i hi
  have hi' : i < d := List.mem_range.mp hi
  have : b * (d * 2) + 2 * i + 1 = b * (d * 2) + (0 + (2 * i + 1)) := by ring
  rw [this]
  exact nth_flatten_uniform (d * 2) rows h b (0 + (2 * i + 1)) (by omega)

theorem viewUnbindInfer_uniform (d : Nat) (rows : List Vec) (hd : 0 < d)
    (hne : rows ≠ []) (h : ∀ r ∈ rows, r.length = d * 2) :
    viewUnbindInfer d rows =
      .ok (rows.map (fun r => evenSlice r 0 d),
           rows.map (fun r => oddSlice r 0 d)) := by
  have hlen : rows.flatten.length = rows.length * (d * 2) :=
    length_flatten_uniform (d * 2) rows h
  have hBpos : 0 < rows.length := List.length_pos.mpr hne
  have hpos : 0 < rows.flatten.length := by
    rw [hlen]; positivity
  have hmod : rows.flatten.length % (d * 2) = 0 := by
    rw [hlen]; exact Nat.mul_mod_left _ _
  have hdiv : rows.flatten.length / (d * 2) = rows.length := by
    rw [hlen]; exact Nat.mul_div_cancel _ (by omega)
  have he : (List.range rows.length).map
      (fun b => evenSlice rows.flatten (b * (d * 2)) d) =
      rows.map (fun r => evenSlice r 0 d) := by
    rw [List.map_congr_left (fun b hb =>
      evenSlice_flatten_uniform d rows h b)]
    rw [show (fun b => evenSlice (nthD [] rows b) 0 d) =
        ((fun r => evenSlice r 0 d) ∘ fun b => nthD [] rows b) from rfl]
    rw [← List.map_map, rangeMap_nthD_self]
  have ho : (List.range rows.length).map
      (fun b => oddSlice rows.flatten (b * (d * 2)) d) =
      rows.map (fun r => oddSlice r 0 d) := by
    rw [List.map_congr_left (fun b hb =>
      oddSlice_flatten_uniform d rows h b)]
    rw [show (fun b => oddSlice (nthD [] rows b) 0 d) =
        ((fun r => oddSlice r 0 d) ∘ fun b => nthD [] rows b) from rfl]
    rw [← List.map_map, rangeMap_nthD_self]
  unfold viewUnbindInfer
  rw [if_pos ⟨hpos, hmod⟩, hdiv, he, ho]

theorem viewUnbindExplicit_uniform (d : Nat) (rows : List Vec)
    (h : ∀ r ∈ rows, r.length = d * 2) :
    viewUnbindExplicit rows.length d rows =
      .ok (rows.map (fun r => evenSlice r 0 d),
           rows.map (fun r => oddSlice r 0 d)) := by
  have hlen : rows.flatten.length = rows.length * (d * 2) :=
    length_flatten_uniform (d * 2) rows h
  have he : (List.range rows.length).map
      (fun b => evenSlice rows.flatten (b * (d * 2)) d) =
      rows.map (fun r => evenSlice r 0 d) := by
    rw [List.map_congr_left (fun b hb =>
      evenSlice_flatten_uniform d rows h b)]
    rw [show (fun b => evenSlice (nthD [] rows b) 0 d) =
        ((fun r => evenSlice r 0 d) ∘ fun b => nthD [] rows b) from rfl]
    rw [← List.map_map, rangeMap_nthD_self]
  have ho : (List.range rows.length).map
      (fun b => oddSlice rows.flatten (b * (d * 2)) d) =
      rows.map (fun r => oddSlice r 0 d) := by
    rw [List.map_congr_left (fun b hb =>
      oddSlice_flatten_uniform d rows h b)]
    rw [show (fun b => oddSlice (nthD [] rows b) 0 d) =
        ((fun r => oddSlice r 0 d) ∘ fun b => nthD [] rows b) from rfl]
    rw [← List.map_map, rangeMap_nthD_self]
  unfold viewUnbindExplicit
  rw [if_pos hlen, he, ho]

theorem flat4_eq (b : Batch) : flat4 b = (b.map imgFlat).flatten := rfl

theorem viewFlattenB_uniform (b : Batch) (k : Nat) (hp : 0 < k) (hne : b ≠ [])
    (h : ∀ x ∈ b, (imgFlat x).length = k) :
    viewFlattenB b.length b = .ok (b.map imgFlat) := by
  have hrows : ∀ r ∈ b.map imgFlat, r.length = k := by
    intro r hr
    rcases List.mem_map.mp hr with ⟨x, hx, rfl⟩
    exact h x hx
  have hlen : (flat4 b).length = b.length * k := by
    rw [flat4_eq]
    calc ((b.map imgFlat).flatten).length = (b.map imgFlat).length * k :=
          length_flatten_uniform k _ hrows
      _ = b.length * k := by simp
  have hBpos : 0 < b.length := List.length_pos.mpr hne
  have hpos : 0 < (flat4 b).length := by rw [hlen]; positivity
  have hmod : (flat4 b).length % b.length = 0 := by
    rw [hlen]; exact Nat.mul_mod_right _ _
  have hdiv : (flat4 b).length / b.length = k := by
    rw [hlen]; exact Nat.mul_div_cancel_left _ hBpos
  unfold viewFlattenB
  rw [if_pos ⟨hpos, hmod⟩, hdiv]
  have : b.length = (b.map imgFlat).length := by simp
  rw [flat4_eq, this, viewRows_flatten_uniform (b.map imgFlat) k hrows]

/-! ### Shape lemmas for the layer primitives -/

theorem imgC_of_shape {n a c : Nat} {x : Img} (h : ImgShape n a c x) :
    imgC x = n := h.1

theorem imgH_of_shape {n a c : Nat} {x : Img} (h : ImgShape n a c x)
    (hn : 0 < n) : imgH x = a := by
  have hmem : nthD [] x 0 ∈ x := nthD_mem [] x 0 (by rw [h.1]; exact hn)
  exact (h.2 _ hmem).1

theorem imgW_of_shape {n a c : Nat} {x : Img} (h : ImgShape n a c x)
    (hn : 0 < n) (ha : 0 < a) : imgW x = c := by
  have hmem : nthD [] x 0 ∈ x := nthD_mem [] x 0 (by rw [h.1]; exact hn)
  obtain ⟨hlen, hrows⟩ := h.2 _ hmem
  have hrowmem : nthD [] (nthD [] x 0) 0 ∈ nthD [] x 0 :=
    nthD_mem [] _ 0 (by rw [hlen]; exact ha)
  exact hrows _ hrowmem

theorem imgFlat_length_of_shape {n a c : Nat} {x : Img}
    (h : ImgShape n a c x) : (imgFlat x).length = n * (a * c) := by
  unfold imgFlat
  have hel : ∀ v ∈ x.map List.flatten, v.length = a * c := by
    intro v hv
    rcases List.mem_map.mp hv with ⟨m, hm, rfl⟩
    obtain ⟨hlen, hrows⟩ := h.2 m hm
    rw [length_flatten_uniform c m hrows, hlen]
  rw [length_flatten_uniform (a * c) _ hel]
  simp [h.1]

theorem convOutDim_pos (L : Conv2d) (m : Nat) : 0 < convOutDim L m :=
  Nat.succ_pos _

theorem convGrid_shape (L : Conv2d) (x : Img) :
    ImgShape L.out_channels (convOutDim L (imgH x)) (convOutDim L (imgW x))
      (convGrid L x) := by
  refine ⟨by simp [convGrid], ?_⟩
  intro m hm
  rcases List.mem_map.mp hm with ⟨o, _, rfl⟩
  refine ⟨by simp, ?_⟩
  intro r hr
  rcases List.mem_map.mp hr with ⟨i, _, rfl⟩
  simp

theorem convRun_ok (L : Conv2d) {n a c : Nat} (x : Img)
    (hfit : convFits L (n, a, c)) (hx : ImgShape n a c x) :
    L.run x = .ok (convGrid L x) := by
  obtain ⟨h1, h2, h3, h4, h5, h6⟩ := hfit
  unfold Conv2d.run
  rw [if_pos]
  refine ⟨?_, ?_, ?_⟩
  · rw [imgC_of_shape hx]; exact h1
  · rw [imgH_of_shape hx h2]; exact h5
  · rw [imgW_of_shape hx h2 h3]; exact h6

theorem convGrid_shape_of (L : Conv2d) {n a c : Nat} (x : Img)
    (hfit : convFits L (n, a, c)) (hx : ImgShape n a c x) :
    ImgShape L.out_channels (convOutDim L a) (convOutDim L c)
      (convGrid L x) := by
  obtain ⟨h1, h2, h3, h4, h5, h6⟩ := hfit
  have := convGrid_shape L x
  rwa [imgH_of_shape hx h2, imgW_of_shape hx h2 h3] at this

theorem reluImg_shape {n a c : Nat} {x : Img} (h : ImgShape n a c x) :
    ImgShape n a c (reluImg x) := by
  refine ⟨by simp [reluImg, h.1], ?_⟩
  intro m hm
  rcases List.mem_map.mp hm with ⟨m0, hm0, rfl⟩
  obtain ⟨hlen, hrows⟩ := h.2 m0 hm0
  refine ⟨by simp [hlen], ?_⟩
  intro r hr
  rcases List.mem_map.mp hr with ⟨r0, hr0, rfl⟩
  simp [reluV, hrows r0 hr0]

theorem leakyImg_shape {n a c : Nat} {x : Img} (h : ImgShape n a c x) :
    ImgShape n a c (leakyImg x) := by
  refine ⟨by simp [leakyImg, h.1], ?_⟩
  intro m hm
  rcases List.mem_map.mp hm with ⟨m0, hm0, rfl⟩
  obtain ⟨hlen, hrows⟩ := h.2 m0 hm0
  refine ⟨by simp [hlen], ?_⟩
  intro r hr
  rcases List.mem_map.mp hr with ⟨r0, hr0, rfl⟩
  simp [leakyV, hrows r0 hr0]

theorem maxPoolMat_shape {a c : Nat} {m : Mat} (ha : 0 < a)
    (hlen : m.length = a) (hrows : ∀ r ∈ m, r.length = c) :
    (maxPoolMat m).length = poolDim a ∧
      ∀ r ∈ maxPoolMat m, r.length = poolDim c := by
  have hw : (nthD [] m 0).length = c :=
    hrows _ (nthD_mem [] m 0 (by rw [hlen]; exact ha))
  constructor
  · simp [maxPoolMat, hlen, poolDim]
  · intro r hr
    rcases List.mem_map.mp hr with ⟨i, _, rfl⟩
    simp [hw, poolDim]

theorem maxPool2d_shape {n a c : Nat} {x : Img} (ha : 0 < a)
    (h : ImgShape n a c x) : ImgShape n (poolDim a) (poolDim c) (maxPool2d x) := by
  refine ⟨by simp [maxPool2d, h.1], ?_⟩
  intro m hm
  rcases List.mem_map.mp hm with ⟨m0, hm0, rfl⟩
  obtain ⟨hlen, hrows⟩ := h.2 m0 hm0
  exact maxPoolMat_shape ha hlen hrows

theorem bn2dImg_shape (L : BatchNorm) (st : Nat → ℚ × ℚ) {n a c : Nat}
    {x : Img} (h : ImgShape n a c x) : ImgShape n a c (bn2dImg L st x) := by
  refine ⟨by simp [bn2dImg, length_mapIdxP, h.1], ?_⟩
  intro m hm
  rcases mem_mapIdxP _ 0 x m hm with ⟨i, m0, hm0, rfl⟩
  obtain ⟨hlen, hrows⟩ := h.2 m0 hm0
  refine ⟨by simp [hlen], ?_⟩
  intro r hr
  rcases List.mem_map.mp hr with ⟨r0, hr0, rfl⟩
  simp [hrows r0 hr0]

theorem bn1dRow_length (L : BatchNorm) (st : Nat → ℚ × ℚ) (r : Vec) :
    (bn1dRow L st r).length = r.length := by
  simp [bn1dRow, length_mapIdxP]

theorem linOut_length (L : Linear) (hwf : L.wfShape) (v : Vec) :
    (linOut L v).length = L.out_features := by
  simp [linOut, hwf.1, hwf.2]

theorem leakyV_length (v : Vec) : (leakyV v).length = v.length := by
  simp [leakyV]

theorem reluV_length (v : Vec) : (reluV v).length = v.length := by
  simp [reluV]

/-! ### Batch-level lemmas -/

theorem batchShape_map {B n a c n2 a2 c2 : Nat} {b : Batch} {g : Img → Img}
    (hg : ∀ x, ImgShape n a c x → ImgShape n2 a2 c2 (g x))
    (hb : BatchShape B n a c b) : BatchShape B n2 a2 c2 (b.map g) := by
  refine ⟨by simp [hb.1], ?_⟩
  intro x hx
  rcases List.mem_map.mp hx with ⟨x0, hx0, rfl⟩
  exact hg x0 (hb.2 x0 hx0)

theorem conv_mapM_ok (L : Conv2d) {B n a c : Nat} {b : Batch}
    (hfit : convFits L (n, a, c)) (hb : BatchShape B n a c b) :
    List.mapM L.run b = .ok (b.map (convGrid L)) :=
  mapM_ok_of L.run (convGrid L) b (fun x hx => convRun_ok L x hfit (hb.2 x hx))

theorem reluB_shape {B n a c : Nat} {b : Batch} (hb : BatchShape B n a c b) :
    BatchShape B n a c (reluB b) :=
  batchShape_map (fun _ h => reluImg_shape h) hb

theorem leakyB_shape {B n a c : Nat} {b : Batch} (hb : BatchShape B n a c b) :
    BatchShape B n a c (leakyB b) :=
  batchShape_map (fun _ h => leakyImg_shape h) hb

theorem poolB_shape {B n a c : Nat} {b : Batch} (ha : 0 < a)
    (hb : BatchShape B n a c b) :
    BatchShape B n (poolDim a) (poolDim c) (poolB b) :=
  batchShape_map (fun _ h => maxPool2d_shape ha h) hb

theorem bn2d_check_of_shape (L : BatchNorm) {B n a c : Nat} {b : Batch}
    (hb : BatchShape B n a c b) (hn : n = L.num_features) :
    b.all (fun x => x.length == L.num_features) = true := by
  rw [List.all_eq_true]
  intro x hx
  simpa using ((hb.2 x hx).1.trans hn)

theorem chanVals2d_length {B n a c : Nat} {b : Batch} (hn : 0 < n)
    (hb : BatchShape B n a c b) : (chanVals2d b 0).length = B * (a * c) := by
  unfold chanVals2d
  have hel : ∀ v ∈ b.map (fun x => (nthD [] x 0).flatten), v.length = a * c := by
    intro v hv
    rcases List.mem_map.mp hv with ⟨x, hx, rfl⟩
    obtain ⟨hlen, hmats⟩ := hb.2 x hx
    have hmem : nthD [] x 0 ∈ x := nthD_mem [] x 0 (by rw [hlen]; exact hn)
    obtain ⟨hml, hrows⟩ := hmats _ hmem
    rw [length_flatten_uniform c _ hrows, hml]
  rw [length_flatten_uniform (a * c) _ hel]
  simp [hb.1]

theorem bn2d_run_ok (L : BatchNorm) {B n a c : Nat} {b : Batch}
    (hb : BatchShape B n a c b) (hn : n = L.num_features) (hpos : 0 < n)
    (hcount : L.training = true → 1 < B * (a * c)) :
    ∃ st L2, L.run2d b = .ok (b.map (bn2dImg L st), L2) := by
  unfold BatchNorm.run2d
  rw [bn2d_check_of_shape L hb hn, if_pos rfl]
  cases htr : L.training with
  | false =>
    rw [if_neg (by simp)]
    exact ⟨bnRunningStat L, L, rfl⟩
  | true =>
    have hc := hcount htr
    rw [if_pos rfl, chanVals2d_length hpos hb, if_neg (by omega)]
    exact ⟨_, _, rfl⟩

theorem bn2d_run_eval (L : BatchNorm) {B n a c : Nat} {b : Batch}
    (hb : BatchShape B n a c b) (hn : n = L.num_features)
    (htr : L.training = false) :
    L.run2d b = .ok (b.map (bn2dSample L), L) := by
  unfold BatchNorm.run2d
  rw [bn2d_check_of_shape L hb hn, if_pos rfl, htr, if_neg (by simp)]
  rfl

theorem bn1d_check_of_shape (L : BatchNorm) {B w : Nat} {rows : List Vec}
    (hr : RowsShape B w rows) (hw : w = L.num_features) :
    rows.all (fun r => r.length == L.num_features) = true := by
  rw [List.all_eq_true]
  intro r hrm
  simpa using ((hr.2 r hrm).trans hw)

theorem bn1d_run_ok (L : BatchNorm) {B w : Nat} {rows : List Vec}
    (hr : RowsShape B w rows) (hw : w = L.num_features)
    (hcount : L.training = true → 1 < B) :
    ∃ st L2, L.run1d rows = .ok (rows.map (bn1dRow L st), L2) := by
  unfold BatchNorm.run1d
  rw [bn1d_check_of_shape L hr hw, if_pos rfl]
  cases htr : L.training with
  | false =>
    rw [if_neg (by simp)]
    exact ⟨bnRunningStat L, L, rfl⟩
  | true =>
    have hc := hcount htr
    rw [if_pos rfl, hr.1, if_neg (by omega)]
    exact ⟨_, _, rfl⟩

theorem bn1d_run_eval (L : BatchNorm) {B w : Nat} {rows : List Vec}
    (hr : RowsShape B w rows) (hw : w = L.num_features)
    (htr : L.training = false) :
    L.run1d rows = .ok (rows.map (bn1dSample L), L) := by
  unfold BatchNorm.run1d
  rw [bn1d_check_of_shape L hr hw, if_pos rfl, htr, if_neg (by simp)]
  rfl

theorem rowsShape_map {B w w2 : Nat} {rows : List Vec} {g : Vec → Vec}
    (hg : ∀ r, r.length = w → (g r).length = w2)
    (hr : RowsShape B w rows) : RowsShape B w2 (rows.map g) := by
  refine ⟨by simp [hr.1], ?_⟩
  intro r hrm
  rcases List.mem_map.mp hrm with ⟨r0, hr0, rfl⟩
  exact hg r0 (hr.2 r0 hr0)

theorem linear_mapM_ok (L : Linear) {B w : Nat} {rows : List Vec}
    (hr : RowsShape B w rows) (hw : w = L.in_features) :
    List.mapM L.run rows = .ok (rows.map (linOut L)) := by
  apply mapM_ok_of
  intro r hrm
  unfold Linear.run
  rw [if_pos ((hr.2 r hrm).trans hw)]

theorem embed_mapM_ok (E : Embedding) (inputs : List Int)
    (h : ∀ i ∈ inputs, 0 ≤ i ∧ i < (E.num_embeddings : Int)) :
    List.mapM E.run inputs =
      .ok (inputs.map (fun i => nthD [] E.weight i.toNat)) := by
  apply mapM_ok_of
  intro i hi
  unfold Embedding.run
  rw [if_pos (h i hi)]

theorem embed_mapM_error (E : Embedding) (inputs : List Int)
    (h : ∃ i ∈ inputs, ¬(0 ≤ i ∧ i < (E.num_embeddings : Int))) :
    List.mapM E.run inputs = .error .indexError := by
  apply mapM_error_of
  · intro i _
    unfold Embedding.run
    by_cases hc : 0 ≤ i ∧ i < (E.num_embeddings : Int)
    · exact Or.inr ⟨_, by rw [if_pos hc]⟩
    · exact Or.inl (by rw [if_neg hc])
  · rcases h with ⟨i, hi, hc⟩
    refine ⟨i, hi, ?_⟩
    unfold Embedding.run
    rw [if_neg hc]

/-! ### `Except` bind reductions -/

theorem ok_bind {α β : Type} (a : α) (f : α → Except PyError β) :
    (Except.ok a >>= f) = f a := rfl

theorem error_bind {α β : Type} (er : PyError) (f : α → Except PyError β) :
    ((Except.error er : Except PyError α) >>= f) = .error er := rfl

theorem length_evenSlice (f : Vec) (base d : Nat) :
    (evenSlice f base d).length = d := by simp [evenSlice]

theorem length_oddSlice (f : Vec) (base d : Nat) :
    (oddSlice f base d).length = d := by simp [oddSlice]

/-! ### `DomainEncoder` core lemmas -/

theorem domain_embed_rows_shape (e : DomainEncoder) (inputs : List Int)
    (hok : domainShapeOk e)
    (hin : ∀ i ∈ inputs, 0 ≤ i ∧ i < (e.embed.num_embeddings : Int)) :
    RowsShape inputs.length e.bn.num_features
      (inputs.map (fun i => nthD [] e.embed.weight i.toNat)) := by
  refine ⟨by simp, ?_⟩
  intro r hr
  rcases List.mem_map.mp hr with ⟨i, hi, rfl⟩
  have hrange := hin i hi
  have hle := hok.1
  have hlt : i.toNat < e.embed.weight.length := by
    have h1 : i.toNat < e.embed.num_embeddings := by omega
    omega
  exact hok.2.1 _ (nthD_mem [] e.embed.weight i.toNat hlt)

theorem domainForwardS_ok (e : DomainEncoder) (inputs : List Int)
    (hok : domainShapeOk e)
    (hcount : e.bn.training = true → 1 < inputs.length)
    (hin : ∀ i ∈ inputs, 0 ≤ i ∧ i < (e.embed.num_embeddings : Int)) :
    ∃ ms ls e2, e.forwardS inputs = .ok ((ms, ls), e2) ∧
      ms.length = inputs.length ∧ ls.length = inputs.length ∧
      (∀ v ∈ ms, v.length = e.latent_dim) ∧
      (∀ v ∈ ls, v.length = e.latent_dim) := by
  obtain ⟨hemb, hrows, hmuin, hmuwf, hmuout⟩ := hok
  have hshape := domain_embed_rows_shape e inputs
    ⟨hemb, hrows, hmuin, hmuwf, hmuout⟩ hin
  obtain ⟨st, L2, hbn⟩ := bn1d_run_ok e.bn hshape rfl hcount
  have hsh1 : RowsShape inputs.length e.bn.num_features
      ((inputs.map (fun i => nthD [] e.embed.weight i.toNat)).map
        (bn1dRow e.bn st)) :=
    rowsShape_map (fun r hr => by rw [bn1dRow_length, hr]) hshape
  have hsh2 : RowsShape inputs.length e.mu_logvar_gen.in_features
      (leakyRows ((inputs.map (fun i => nthD [] e.embed.weight i.toNat)).map
        (bn1dRow e.bn st))) := by
    rw [hmuin]
    exact rowsShape_map (fun r hr => by rw [leakyV_length, hr]) hsh1
  have hmu := linear_mapM_ok e.mu_logvar_gen hsh2 rfl
  have hsh3 : RowsShape inputs.length (e.latent_dim * 2)
      ((leakyRows ((inputs.map (fun i => nthD [] e.embed.weight i.toNat)).map
        (bn1dRow e.bn st))).map (linOut e.mu_logvar_gen)) := by
    rw [← hmuout]
    exact rowsShape_map (fun r _ => linOut_length _ hmuwf r) hsh2
  have hub := viewUnbindExplicit_uniform e.latent_dim
    ((leakyRows ((inputs.map (fun i => nthD [] e.embed.weight i.toNat)).map
        (bn1dRow e.bn st))).map (linOut e.mu_logvar_gen)) hsh3.2
  rw [hsh3.1] at hub
  have hfw : e.forwardS inputs = .ok
      ((((leakyRows ((inputs.map (fun i => nthD [] e.embed.weight i.toNat)).map
        (bn1dRow e.bn st))).map (linOut e.mu_logvar_gen)).map (fun r => evenSlice r 0 e.latent_dim),
        ((leakyRows ((inputs.map (fun i => nthD [] e.embed.weight i.toNat)).map
        (bn1dRow e.bn st))).map (linOut e.mu_logvar_gen)).map (fun r => oddSlice r 0 e.latent_dim)),
       { e with bn := L2 }) := by
    unfold DomainEncoder.forwardS domainPre
    rw [embed_mapM_ok e.embed inputs hin]
    simp only [pure_bind, ok_bind, hbn, hmu, hub]
    rfl
  refine ⟨_, _, _, hfw, ?_, ?_, ?_, ?_⟩
  · simp [leakyRows]
  · simp [leakyRows]
  · intro v hv
    rcases List.mem_map.mp hv with ⟨r, _, rfl⟩
    exact length_evenSlice r 0 e.latent_dim
  · intro v hv
    rcases List.mem_map.mp hv with ⟨r, _, rfl⟩
    exact length_oddSlice r 0 e.latent_dim

theorem domainForwardS_eval (e : DomainEncoder) (inputs : List Int)
    (hok : domainShapeOk e) (hev : e.isEval)
    (hin : ∀ i ∈ inputs, 0 ≤ i ∧ i < (e.embed.num_embeddings : Int)) :
    e.forwardS inputs = .ok (unzipPair (inputs.map (domainSample e)), e) := by
  obtain ⟨hemb, hrows, hmuin, hmuwf, hmuout⟩ := hok
  have hshape := domain_embed_rows_shape e inputs
    ⟨hemb, hrows, hmuin, hmuwf, hmuout⟩ hin
  have hbn := bn1d_run_eval e.bn hshape rfl hev
  have hsh1 : RowsShape inputs.length e.bn.num_features
      ((inputs.map (fun i => nthD [] e.embed.weight i.toNat)).map
        (bn1dSample e.bn)) :=
    rowsShape_map (fun r hr => by
      rw [bn1dSample, bn1dRow_length, hr]) hshape
  have hsh2 : RowsShape inputs.length e.mu_logvar_gen.in_features
      (leakyRows ((inputs.map (fun i => nthD [] e.embed.weight i.toNat)).map
        (bn1dSample e.bn))) := by
    rw [hmuin]
    exact rowsShape_map (fun r hr => by rw [leakyV_length, hr]) hsh1
  have hmu := linear_mapM_ok e.mu_logvar_gen hsh2 rfl
  have hsh3 : RowsShape inputs.length (e.latent_dim * 2)
      ((leakyRows ((inputs.map (fun i => nthD [] e.embed.weight i.toNat)).map
        (bn1dSample e.bn))).map (linOut e.mu_logvar_gen)) := by
    rw [← hmuout]
    exact rowsShape_map (fun r _ => linOut_length _ hmuwf r) hsh2
  have hub := viewUnbindExplicit_uniform e.latent_dim
    ((leakyRows ((inputs.map (fun i => nthD [] e.embed.weight i.toNat)).map
      (bn1dSample e.bn))).map (linOut e.mu_logvar_gen)) hsh3.2
  rw [hsh3.1] at hub
  unfold DomainEncoder.forwardS domainPre
  rw [embed_mapM_ok e.embed inputs hin]
  simp only [pure_bind, ok_bind, hbn, hmu, hub]
  unfold unzipPair domainSample leakyRows
  simp only [List.map_map, Function.comp]
  rfl

theorem domainForwardS_error (e : DomainEncoder) (inputs : List Int)
    (hbad : ∃ i ∈ inputs, ¬(0 ≤ i ∧ i < (e.embed.num_embeddings : Int))) :
    e.forwardS inputs = .error .indexError := by
  unfold DomainEncoder.forwardS domainPre
  rw [embed_mapM_error e.embed inputs hbad, error_bind, error_bind]

theorem bn1d_state_eval (L : BatchNorm) (rows : List Vec)
    (htr : L.training = false) :
    ∀ out L2, L.run1d rows = .ok (out, L2) → L2 = L := by
  intro out L2 h
  unfold BatchNorm.run1d at h
  by_cases hc : rows.all (fun r => r.length == L.num_features) = true
  · rw [hc, if_pos rfl, htr, if_neg (by simp)] at h
    cases h
    rfl
  · rw [if_neg hc] at h
    cases h

theorem domainForwardS_state_eval (e : DomainEncoder) (inputs : List Int)
    (hev : e.isEval) :
    ∀ r e2, e.forwardS inputs = .ok (r, e2) → e2 = e := by
  intro r e2 h
  unfold DomainEncoder.forwardS domainPre at h
  cases hemb : List.mapM e.embed.run inputs with
  | error er => rw [hemb, error_bind, error_bind] at h; cases h
  | ok rows =>
    rw [hemb, ok_bind] at h
    cases hbn : e.bn.run1d rows with
    | error er => rw [hbn, error_bind] at h; cases h
    | ok p =>
      obtain ⟨out, L2⟩ := p
      have hL2 : L2 = e.bn := bn1d_state_eval e.bn rows hev out L2 hbn
      simp only [hbn, ok_bind, pure_bind] at h
      cases hmu : List.mapM e.mu_logvar_gen.run (leakyRows out) with
      | error er => simp only [hmu, error_bind] at h; cases h
      | ok ml =>
        simp only [hmu, ok_bind, pure_bind] at h
        cases hub : viewUnbindExplicit inputs.length e.latent_dim ml with
        | error er => simp only [hub, error_bind] at h; cases h
        | ok pair =>
          obtain ⟨ms, ls⟩ := pair
          simp only [hub, ok_bind, pure_bind] at h
          cases h
          rw [hL2]

/-! ### `EncoderBurgess` core lemmas -/

theorem flatLen_pos {d : Nat × Nat × Nat} (h1 : 0 < d.1) (h2 : 0 < d.2.1)
    (h3 : 0 < d.2.2) : 0 < flatLen d := by
  unfold flatLen
  positivity

theorem imgFlat_length_flatLen {d : Nat × Nat × Nat} {x : Img}
    (h : ImgShape d.1 d.2.1 d.2.2 x) : (imgFlat x).length = flatLen d :=
  imgFlat_length_of_shape h

theorem burgessConvFlat_ok (e : EncoderBurgess) {B n a c : Nat} (b : Batch)
    (hok : burgessShapeOk e (n, a, c)) (hne : b ≠ [])
    (hb : BatchShape B n a c b) :
    burgessConvFlat e b = .ok ((b.map (burgessConvSample e)).map imgFlat) ∧
      RowsShape B e.lin1.in_features
        ((b.map (burgessConvSample e)).map imgFlat) := by
  have hok2 := hok
  simp only [burgessShapeOk] at hok2
  obtain ⟨hf1, hf2, hf3, hf64, hpos4, hflat, hwf1, hin2, hwf2, hinmu,
    hwfmu, houtmu, hdpos⟩ := hok2
  have hd1 : convDims e.conv1 (n, a, c) =
      (e.conv1.out_channels, convOutDim e.conv1 a, convOutDim e.conv1 c) := rfl
  rw [hd1] at hf2
  -- stage 1
  have hc1 := conv_mapM_ok e.conv1 hf1 hb
  have hs1 : BatchShape B e.conv1.out_channels (convOutDim e.conv1 a)
      (convOutDim e.conv1 c) (reluB (b.map (convGrid e.conv1))) :=
    reluB_shape (batchShape_map
      (fun x hx => convGrid_shape_of e.conv1 x hf1 hx) hb)
  -- stage 2
  have hd2 : convDims e.conv2
      (e.conv1.out_channels, convOutDim e.conv1 a, convOutDim e.conv1 c) =
      (e.conv2.out_channels, convOutDim e.conv2 (convOutDim e.conv1 a),
        convOutDim e.conv2 (convOutDim e.conv1 c)) := rfl
  rw [hd1, hd2] at hf3
  have hc2 := conv_mapM_ok e.conv2 hf2 hs1
  have hs2 : BatchShape B e.conv2.out_channels
      (convOutDim e.conv2 (convOutDim e.conv1 a))
      (convOutDim e.conv2 (convOutDim e.conv1 c))
      (reluB ((reluB (b.map (convGrid e.conv1))).map (convGrid e.conv2))) :=
    reluB_shape (batchShape_map
      (fun x hx => convGrid_shape_of e.conv2 x hf2 hx) hs1)
  -- stage 3
  have hc3 := conv_mapM_ok e.conv3 hf3 hs2
  have hs3 : BatchShape B e.conv3.out_channels
      (convOutDim e.conv3 (convOutDim e.conv2 (convOutDim e.conv1 a)))
      (convOutDim e.conv3 (convOutDim e.conv2 (convOutDim e.conv1 c)))
      (reluB ((reluB ((reluB (b.map (convGrid e.conv1))).map
        (convGrid e.conv2))).map (convGrid e.conv3))) :=
    reluB_shape (batchShape_map
      (fun x hx => convGrid_shape_of e.conv3 x hf3 hx) hs2)
  have hd3 : convDims e.conv3
      (e.conv2.out_channels, convOutDim e.conv2 (convOutDim e.conv1 a),
        convOutDim e.conv2 (convOutDim e.conv1 c)) =
      (e.conv3.out_channels,
        convOutDim e.conv3 (convOutDim e.conv2 (convOutDim e.conv1 a)),
        convOutDim e.conv3 (convOutDim e.conv2 (convOutDim e.conv1 c))) := rfl
  rw [hd1, hd2, hd3] at hf64 hpos4 hflat
  by_cases hcond : e.img_size.2.1 = 64 ∧ e.img_size.2.2 = 64
  · -- 64×64: fourth convolution
    rw [if_pos hcond] at hpos4 hflat
    have hfL := hf64 hcond
    cases hL : e.conv_64 with
    | none => rw [hL] at hfL; exact hfL.elim
    | some L =>
      rw [hL] at hfL hpos4 hflat
      have hfL2 : convFits L (e.conv3.out_channels,
          convOutDim e.conv3 (convOutDim e.conv2 (convOutDim e.conv1 a)),
          convOutDim e.conv3 (convOutDim e.conv2 (convOutDim e.conv1 c))) := hfL
      have hc4 := conv_mapM_ok L hfL2 hs3
      have hs4 : BatchShape B L.out_channels
          (convOutDim L (convOutDim e.conv3 (convOutDim e.conv2
            (convOutDim e.conv1 a))))
          (convOutDim L (convOutDim e.conv3 (convOutDim e.conv2
            (convOutDim e.conv1 c))))
          (reluB ((reluB ((reluB ((reluB (b.map (convGrid e.conv1))).map
            (convGrid e.conv2))).map (convGrid e.conv3))).map (convGrid L))) :=
        reluB_shape (batchShape_map
          (fun x hx => convGrid_shape_of L x hfL2 hx) hs3)
      have hflatlen : ∀ x ∈ (reluB ((reluB ((reluB ((reluB (b.map
          (convGrid e.conv1))).map (convGrid e.conv2))).map
            (convGrid e.conv3))).map (convGrid L))),
          (imgFlat x).length = e.lin1.in_features := by
        intro x hx
        rw [imgFlat_length_of_shape (hs4.2 x hx)]
        exact hflat
      have hposflat : 0 < e.lin1.in_features := by
        rw [← hflat]
        exact Nat.mul_pos hpos4
          (Nat.mul_pos (convOutDim_pos _ _) (convOutDim_pos _ _))
      have hne4 : (reluB ((reluB ((reluB ((reluB (b.map
          (convGrid e.conv1))).map (convGrid e.conv2))).map
            (convGrid e.conv3))).map (convGrid L))) ≠ [] := by
        simp only [reluB, List.map_eq_nil_iff]
        simpa using hne
      have hview := viewFlattenB_uniform _ e.lin1.in_features hposflat
        hne4 hflatlen
      have hlen4 : (reluB ((reluB ((reluB ((reluB (b.map
          (convGrid e.conv1))).map (convGrid e.conv2))).map
            (convGrid e.conv3))).map (convGrid L))).length = b.length := by
        simp [reluB]
      rw [hlen4] at hview
      have heq : burgessConvFlat e b = .ok ((reluB ((reluB ((reluB ((reluB
          (b.map (convGrid e.conv1))).map (convGrid e.conv2))).map
            (convGrid e.conv3))).map (convGrid L))).map imgFlat) := by
        unfold burgessConvFlat
        simp only [hc1, hc2, hc3, ok_bind, pure_bind]
        rw [if_pos hcond, hL]
        simp only [hc4, ok_bind, pure_bind, hview]
      have hmapeq : (reluB ((reluB ((reluB ((reluB (b.map
          (convGrid e.conv1))).map (convGrid e.conv2))).map
            (convGrid e.conv3))).map (convGrid L))) =
          b.map (burgessConvSample e) := by
        simp only [reluB, List.map_map]
        apply List.map_congr_left
        intro x _
        simp only [Function.comp]
        unfold burgessConvSample
        rw [if_pos hcond, hL]
      constructor
      · rw [heq, hmapeq]
      · rw [← hmapeq]
        refine ⟨by simp [reluB, hb.1], ?_⟩
        intro r hr
        rcases List.mem_map.mp hr with ⟨x, hx, rfl⟩
        exact hflatlen x hx
  · -- no fourth convolution
    rw [if_neg hcond] at hpos4 hflat
    have hflatlen : ∀ x ∈ (reluB ((reluB ((reluB (b.map
        (convGrid e.conv1))).map (convGrid e.conv2))).map (convGrid e.conv3))),
        (imgFlat x).length = e.lin1.in_features := by
      intro x hx
      rw [imgFlat_length_of_shape (hs3.2 x hx)]
      exact hflat
    have hposflat : 0 < e.lin1.in_features := by
      rw [← hflat]
      exact Nat.mul_pos hpos4
        (Nat.mul_pos (convOutDim_pos _ _) (convOutDim_pos _ _))
    have hne3 : (reluB ((reluB ((reluB (b.map (convGrid e.conv1))).map
        (convGrid e.conv2))).map (convGrid e.conv3))) ≠ [] := by
      simp only [reluB, List.map_eq_nil_iff]
      simpa using hne
    have hview := viewFlattenB_uniform _ e.lin1.in_features hposflat
      hne3 hflatlen
    have hlen3 : (reluB ((reluB ((reluB (b.map (convGrid e.conv1))).map
        (convGrid e.conv2))).map (convGrid e.conv3))).length = b.length := by
      simp [reluB]
    rw [hlen3] at hview
    have heq : burgessConvFlat e b = .ok ((reluB ((reluB ((reluB (b.map
        (convGrid e.conv1))).map (convGrid e.conv2))).map
          (convGrid e.conv3))).map imgFlat) := by
      unfold burgessConvFlat
      simp only [hc1, hc2, hc3, ok_bind, pure_bind]
      rw [if_neg hcond]
      simp only [ok_bind, pure_bind, hview]
    have hmapeq : (reluB ((reluB ((reluB (b.map (convGrid e.conv1))).map
        (convGrid e.conv2))).map (convGrid e.conv3))) =
        b.map (burgessConvSample e) := by
      simp only [reluB, List.map_map]
      apply List.map_congr_left
      intro x _
      simp only [Function.comp]
      unfold burgessConvSample
      rw [if_neg hcond]
    constructor
    · rw [heq, hmapeq]
    · rw [← hmapeq]
      refine ⟨by simp [reluB, hb.1], ?_⟩
      intro r hr
      rcases List.mem_map.mp hr with ⟨x, hx, rfl⟩
      exact hflatlen x hx

theorem burgessForward_core (e : EncoderBurgess) {B n a c : Nat} (b : Batch)
    (hok : burgessShapeOk e (n, a, c)) (hne : b ≠ [])
    (hb : BatchShape B n a c b) :
    EncoderBurgess.forward e b = .ok (unzipPair (b.map (burgessSample e))) := by
  obtain ⟨hcf, hrows⟩ := burgessConvFlat_ok e b hok hne hb
  have hok2 := hok
  simp only [burgessShapeOk] at hok2
  obtain ⟨_, _, _, _, _, _, hwf1, hin2, hwf2, hinmu, hwfmu, houtmu,
    hdpos⟩ := hok2
  have hBpos : 0 < B := by
    rw [← hb.1]
    exact List.length_pos.mpr hne
  have hl1 := linear_mapM_ok e.lin1 hrows rfl
  have hr1 : RowsShape B e.lin2.in_features (reluRows (((b.map (burgessConvSample e)).map imgFlat).map (linOut e.lin1))) := by
    rw [hin2]
    exact rowsShape_map (fun r hr => by rw [reluV_length, hr])
      (rowsShape_map (fun r _ => linOut_length _ hwf1 r) hrows)
  have hl2 := linear_mapM_ok e.lin2 hr1 rfl
  have hr2 : RowsShape B e.mu_logvar_gen.in_features (reluRows ((reluRows (((b.map (burgessConvSample e)).map imgFlat).map (linOut e.lin1))).map (linOut e.lin2))) := by
    rw [hinmu]
    exact rowsShape_map (fun r hr => by rw [reluV_length, hr])
      (rowsShape_map (fun r _ => linOut_length _ hwf2 r) hr1)
  have hmu := linear_mapM_ok e.mu_logvar_gen hr2 rfl
  have hr3 : RowsShape B (e.latent_dim * 2) ((reluRows ((reluRows (((b.map (burgessConvSample e)).map imgFlat).map (linOut e.lin1))).map (linOut e.lin2))).map (linOut e.mu_logvar_gen)) := by
    rw [← houtmu]
    exact rowsShape_map (fun r _ => linOut_length _ hwfmu r) hr2
  have hne3 : ((reluRows ((reluRows (((b.map (burgessConvSample e)).map imgFlat).map (linOut e.lin1))).map (linOut e.lin2))).map (linOut e.mu_logvar_gen)) ≠ [] := by
    apply List.ne_nil_of_length_pos
    rw [hr3.1]
    exact hBpos
  have hub := viewUnbindInfer_uniform e.latent_dim ((reluRows ((reluRows (((b.map (burgessConvSample e)).map imgFlat).map (linOut e.lin1))).map (linOut e.lin2))).map (linOut e.mu_logvar_gen)) hdpos hne3 hr3.2
  unfold EncoderBurgess.forward burgessPre
  simp only [hcf, ok_bind, pure_bind, hl1, hl2, hmu, hub]
  unfold unzipPair burgessSample reluRows
  simp only [List.map_map, Function.comp]
  rfl

/-! ### `ConvEncoder` core lemmas -/

theorem convRest_eval (e : ConvEncoder) {B n a c : Nat} (h0 : Batch)
    (hok : convEncShapeOk e (n, a, c)) (hev : e.isEval) (hne : h0 ≠ [])
    (hb : BatchShape B n a c h0) :
    convRest e B h0 = .ok (h0.map (convEncSampleHidden e), e) ∧
      RowsShape B e.mu_logvar_gen.in_features
        (h0.map (convEncSampleHidden e)) := by
  have hok2 := hok
  simp only [convEncShapeOk] at hok2
  obtain ⟨hf1, hnf1, hf2, hnf2, hf3, hnf3, hpos3, hflat, hwfc1, hnff1,
    hinf2, hwfc2, hnff2, hinmu, hwfmu, houtmu⟩ := hok2
  obtain ⟨hev1, hev2, hev3, hev4, hev5⟩ := hev
  -- stage 1: conv1, bn1, act, pool
  have hc1 := conv_mapM_ok e.conv1 hf1 hb
  have hs1 : BatchShape B e.conv1.out_channels (convOutDim e.conv1 a)
      (convOutDim e.conv1 c) (h0.map (convGrid e.conv1)) :=
    batchShape_map (fun x hx => convGrid_shape_of e.conv1 x hf1 hx) hb
  have hbn1 := bn2d_run_eval e.bn1 hs1 hnf1.symm hev1
  have hs1b : BatchShape B e.conv1.out_channels (poolDim (convOutDim e.conv1 a))
      (poolDim (convOutDim e.conv1 c)) (poolB (leakyB ((h0.map (convGrid e.conv1)).map (bn2dSample e.bn1)))) :=
    poolB_shape (convOutDim_pos _ _) (leakyB_shape
      (batchShape_map (fun x hx => bn2dImg_shape _ _ hx) hs1))
  have hf2t : convFits e.conv2 (e.conv1.out_channels,
      poolDim (convOutDim e.conv1 a), poolDim (convOutDim e.conv1 c)) := hf2
  -- stage 2: conv2, bn2, act, pool
  have hc2 := conv_mapM_ok e.conv2 hf2t hs1b
  have hs2 : BatchShape B e.conv2.out_channels
      (convOutDim e.conv2 (poolDim (convOutDim e.conv1 a)))
      (convOutDim e.conv2 (poolDim (convOutDim e.conv1 c))) ((poolB (leakyB ((h0.map (convGrid e.conv1)).map (bn2dSample e.bn1)))).map (convGrid e.conv2)) :=
    batchShape_map (fun x hx => convGrid_shape_of e.conv2 x hf2t hx) hs1b
  have hbn2 := bn2d_run_eval e.bn2 hs2 hnf2.symm hev2
  have hs2b : BatchShape B e.conv2.out_channels
      (poolDim (convOutDim e.conv2 (poolDim (convOutDim e.conv1 a))))
      (poolDim (convOutDim e.conv2 (poolDim (convOutDim e.conv1 c)))) (poolB (leakyB (((poolB (leakyB ((h0.map (convGrid e.conv1)).map (bn2dSample e.bn1)))).map (convGrid e.conv2)).map (bn2dSample e.bn2)))) :=
    poolB_shape (convOutDim_pos _ _) (leakyB_shape
      (batchShape_map (fun x hx => bn2dImg_shape _ _ hx) hs2))
  have hf3t : convFits e.conv3 (e.conv2.out_channels,
      poolDim (convOutDim e.conv2 (poolDim (convOutDim e.conv1 a))),
      poolDim (convOutDim e.conv2 (poolDim (convOutDim e.conv1 c)))) := hf3
  -- stage 3: conv3, bn3, act
  have hc3 := conv_mapM_ok e.conv3 hf3t hs2b
  have hs3 : BatchShape B e.conv3.out_channels
      (convOutDim e.conv3 (poolDim (convOutDim e.conv2 (poolDim
        (convOutDim e.conv1 a)))))
      (convOutDim e.conv3 (poolDim (convOutDim e.conv2 (poolDim
        (convOutDim e.conv1 c))))) ((poolB (leakyB (((poolB (leakyB ((h0.map (convGrid e.conv1)).map (bn2dSample e.bn1)))).map (convGrid e.conv2)).map (bn2dSample e.bn2)))).map (convGrid e.conv3)) :=
    batchShape_map (fun x hx => convGrid_shape_of e.conv3 x hf3t hx) hs2b
  have hbn3 := bn2d_run_eval e.bn3 hs3 hnf3.symm hev3
  have hs3b : BatchShape B e.conv3.out_channels
      (convOutDim e.conv3 (poolDim (convOutDim e.conv2 (poolDim
        (convOutDim e.conv1 a)))))
      (convOutDim e.conv3 (poolDim (convOutDim e.conv2 (poolDim
        (convOutDim e.conv1 c))))) (leakyB (((poolB (leakyB (((poolB (leakyB ((h0.map (convGrid e.conv1)).map (bn2dSample e.bn1)))).map (convGrid e.conv2)).map (bn2dSample e.bn2)))).map (convGrid e.conv3)).map (bn2dSample e.bn3))) :=
    leakyB_shape (batchShape_map (fun x hx => bn2dImg_shape _ _ hx) hs3)
  -- flatten
  have hflatlen : ∀ x ∈ (leakyB (((poolB (leakyB (((poolB (leakyB ((h0.map (convGrid e.conv1)).map (bn2dSample e.bn1)))).map (convGrid e.conv2)).map (bn2dSample e.bn2)))).map (convGrid e.conv3)).map (bn2dSample e.bn3))), (imgFlat x).length = e.fc1.in_features := by
    intro x hx
    rw [imgFlat_length_of_shape (hs3b.2 x hx)]
    exact hflat
  have hposflat : 0 < e.fc1.in_features := by
    rw [← hflat]
    exact Nat.mul_pos hpos3
      (Nat.mul_pos (convOutDim_pos _ _) (convOutDim_pos _ _))
  have hne3 : (leakyB (((poolB (leakyB (((poolB (leakyB ((h0.map (convGrid e.conv1)).map (bn2dSample e.bn1)))).map (convGrid e.conv2)).map (bn2dSample e.bn2)))).map (convGrid e.conv3)).map (bn2dSample e.bn3))) ≠ [] := by
    simp only [poolB, leakyB, List.map_eq_nil_iff]
    simpa using hne
  have hlen3 : (leakyB (((poolB (leakyB (((poolB (leakyB ((h0.map (convGrid e.conv1)).map (bn2dSample e.bn1)))).map (convGrid e.conv2)).map (bn2dSample e.bn2)))).map (convGrid e.conv3)).map (bn2dSample e.bn3))).length = B := by
    simpa [poolB, leakyB] using hb.1
  have hview := viewFlattenB_uniform (leakyB (((poolB (leakyB (((poolB (leakyB ((h0.map (convGrid e.conv1)).map (bn2dSample e.bn1)))).map (convGrid e.conv2)).map (bn2dSample e.bn2)))).map (convGrid e.conv3)).map (bn2dSample e.bn3))) e.fc1.in_features hposflat
    hne3 hflatlen
  rw [hlen3] at hview
  have hr0 : RowsShape B e.fc1.in_features ((leakyB (((poolB (leakyB (((poolB (leakyB ((h0.map (convGrid e.conv1)).map (bn2dSample e.bn1)))).map (convGrid e.conv2)).map (bn2dSample e.bn2)))).map (convGrid e.conv3)).map (bn2dSample e.bn3))).map imgFlat) := by
    refine ⟨by simpa [poolB, leakyB] using hb.1, ?_⟩
    intro r hr
    rcases List.mem_map.mp hr with ⟨x, hx, rfl⟩
    exact hflatlen x hx
  -- fully connected stages
  have hl1 := linear_mapM_ok e.fc1 hr0 rfl
  have hrf1 : RowsShape B e.fc1.out_features (((leakyB (((poolB (leakyB (((poolB (leakyB ((h0.map (convGrid e.conv1)).map (bn2dSample e.bn1)))).map (convGrid e.conv2)).map (bn2dSample e.bn2)))).map (convGrid e.conv3)).map (bn2dSample e.bn3))).map imgFlat).map (linOut e.fc1)) :=
    rowsShape_map (fun r _ => linOut_length _ hwfc1 r) hr0
  have hbnf1 := bn1d_run_eval e.bn1_fc hrf1 hnff1.symm hev4
  have hr1 : RowsShape B e.fc2.in_features (leakyRows ((((leakyB (((poolB (leakyB (((poolB (leakyB ((h0.map (convGrid e.conv1)).map (bn2dSample e.bn1)))).map (convGrid e.conv2)).map (bn2dSample e.bn2)))).map (convGrid e.conv3)).map (bn2dSample e.bn3))).map imgFlat).map (linOut e.fc1)).map (bn1dSample e.bn1_fc))) := by
    rw [hinf2]
    exact rowsShape_map (fun r hr => by rw [leakyV_length, hr])
      (rowsShape_map (fun r hr => by
        rw [bn1dSample, bn1dRow_length, hr]) hrf1)
  have hl2 := linear_mapM_ok e.fc2 hr1 rfl
  have hrf2 : RowsShape B e.fc2.out_features ((leakyRows ((((leakyB (((poolB (leakyB (((poolB (leakyB ((h0.map (convGrid e.conv1)).map (bn2dSample e.bn1)))).map (convGrid e.conv2)).map (bn2dSample e.bn2)))).map (convGrid e.conv3)).map (bn2dSample e.bn3))).map imgFlat).map (linOut e.fc1)).map (bn1dSample e.bn1_fc))).map (linOut e.fc2)) :=
    rowsShape_map (fun r _ => linOut_length _ hwfc2 r) hr1
  have hbnf2 := bn1d_run_eval e.bn2_fc hrf2 hnff2.symm hev5
  have hr2 : RowsShape B e.mu_logvar_gen.in_features (leakyRows (((leakyRows ((((leakyB (((poolB (leakyB (((poolB (leakyB ((h0.map (convGrid e.conv1)).map (bn2dSample e.bn1)))).map (convGrid e.conv2)).map (bn2dSample e.bn2)))).map (convGrid e.conv3)).map (bn2dSample e.bn3))).map imgFlat).map (linOut e.fc1)).map (bn1dSample e.bn1_fc))).map (linOut e.fc2)).map (bn1dSample e.bn2_fc))) := by
    rw [hinmu]
    exact rowsShape_map (fun r hr => by rw [leakyV_length, hr])
      (rowsShape_map (fun r hr => by
        rw [bn1dSample, bn1dRow_length, hr]) hrf2)
  have hfuse : (leakyRows (((leakyRows ((((leakyB (((poolB (leakyB (((poolB (leakyB ((h0.map (convGrid e.conv1)).map (bn2dSample e.bn1)))).map (convGrid e.conv2)).map (bn2dSample e.bn2)))).map (convGrid e.conv3)).map (bn2dSample e.bn3))).map imgFlat).map (linOut e.fc1)).map (bn1dSample e.bn1_fc))).map (linOut e.fc2)).map (bn1dSample e.bn2_fc))) = h0.map (convEncSampleHidden e) := by
    simp only [poolB, leakyB, leakyRows, List.map_map]
    apply List.map_congr_left
    intro x _
    simp only [Function.comp]
    rfl
  rw [hfuse] at hr2
  refine ⟨?_, hr2⟩
  have heq : convRest e B h0 = .ok ((leakyRows (((leakyRows ((((leakyB (((poolB (leakyB (((poolB (leakyB ((h0.map (convGrid e.conv1)).map (bn2dSample e.bn1)))).map (convGrid e.conv2)).map (bn2dSample e.bn2)))).map (convGrid e.conv3)).map (bn2dSample e.bn3))).map imgFlat).map (linOut e.fc1)).map (bn1dSample e.bn1_fc))).map (linOut e.fc2)).map (bn1dSample e.bn2_fc))), e) := by
    unfold convRest
    simp only [hc1, ok_bind, pure_bind, hbn1]
    simp only [hc2, ok_bind, pure_bind, hbn2]
    simp only [hc3, ok_bind, pure_bind, hbn3]
    simp only [hview, ok_bind, pure_bind]
    simp only [hl1, ok_bind, pure_bind, hbnf1]
    simp only [hl2, ok_bind, pure_bind, hbnf2]
    rfl
  rw [heq, hfuse]

theorem convRest_ok (e : ConvEncoder) {B n a c : Nat} (h0 : Batch)
    (hok : convEncShapeOk e (n, a, c)) (hcnt : convCountOk e (n, a, c) B)
    (hne : h0 ≠ []) (hb : BatchShape B n a c h0) :
    ∃ h2 e1, convRest e B h0 = .ok (h2, e1) ∧
      RowsShape B e.mu_logvar_gen.in_features h2 := by
  have hok2 := hok
  simp only [convEncShapeOk] at hok2
  obtain ⟨hf1, hnf1, hf2, hnf2, hf3, hnf3, hpos3, hflat, hwfc1, hnff1,
    hinf2, hwfc2, hnff2, hinmu, hwfmu, houtmu⟩ := hok2
  have hcnt2 := hcnt
  simp only [convCountOk] at hcnt2
  obtain ⟨hct1, hct2, hct3, hct4, hct5⟩ := hcnt2
  -- stage 1: conv1, bn1, act, pool
  have hc1 := conv_mapM_ok e.conv1 hf1 hb
  have hs1 : BatchShape B e.conv1.out_channels (convOutDim e.conv1 a)
      (convOutDim e.conv1 c) (h0.map (convGrid e.conv1)) :=
    batchShape_map (fun x hx => convGrid_shape_of e.conv1 x hf1 hx) hb
  have hf2t : convFits e.conv2 (e.conv1.out_channels,
      poolDim (convOutDim e.conv1 a), poolDim (convOutDim e.conv1 c)) := hf2
  obtain ⟨st1, L1, hbn1⟩ := bn2d_run_ok e.bn1 hs1 hnf1.symm
    (by exact hf2t.2.1) hct1
  have hs1b : BatchShape B e.conv1.out_channels (poolDim (convOutDim e.conv1 a))
      (poolDim (convOutDim e.conv1 c)) (poolB (leakyB ((h0.map (convGrid e.conv1)).map (bn2dImg e.bn1 st1)))) :=
    poolB_shape (convOutDim_pos _ _) (leakyB_shape
      (batchShape_map (fun x hx => bn2dImg_shape _ _ hx) hs1))
  -- stage 2
  have hc2 := conv_mapM_ok e.conv2 hf2t hs1b
  have hs2 : BatchShape B e.conv2.out_channels
      (convOutDim e.conv2 (poolDim (convOutDim e.conv1 a)))
      (convOutDim e.conv2 (poolDim (convOutDim e.conv1 c))) ((poolB (leakyB ((h0.map (convGrid e.conv1)).map (bn2dImg e.bn1 st1)))).map (convGrid e.conv2)) :=
    batchShape_map (fun x hx => convGrid_shape_of e.conv2 x hf2t hx) hs1b
  have hf3t : convFits e.conv3 (e.conv2.out_channels,
      poolDim (convOutDim e.conv2 (poolDim (convOutDim e.conv1 a))),
      poolDim (convOutDim e.conv2 (poolDim (convOutDim e.conv1 c)))) := hf3
  obtain ⟨st2, L2, hbn2⟩ := bn2d_run_ok e.bn2 hs2 hnf2.symm
    (by exact hf3t.2.1) hct2
  have hs2b : BatchShape B e.conv2.out_channels
      (poolDim (convOutDim e.conv2 (poolDim (convOutDim e.conv1 a))))
      (poolDim (convOutDim e.conv2 (poolDim (convOutDim e.conv1 c)))) (poolB (leakyB (((poolB (leakyB ((h0.map (convGrid e.conv1)).map (bn2dImg e.bn1 st1)))).map (convGrid e.conv2)).map (bn2dImg e.bn2 st2)))) :=
    poolB_shape (convOutDim_pos _ _) (leakyB_shape
      (batchShape_map (fun x hx => bn2dImg_shape _ _ hx) hs2))
  -- stage 3
  have hc3 := conv_mapM_ok e.conv3 hf3t hs2b
  have hs3 : BatchShape B e.conv3.out_channels
      (convOutDim e.conv3 (poolDim (convOutDim e.conv2 (poolDim
        (convOutDim e.conv1 a)))))
      (convOutDim e.conv3 (poolDim (convOutDim e.conv2 (poolDim
        (convOutDim e.conv1 c))))) ((poolB (leakyB (((poolB (leakyB ((h0.map (convGrid e.conv1)).map (bn2dImg e.bn1 st1)))).map (convGrid e.conv2)).map (bn2dImg e.bn2 st2)))).map (convGrid e.conv3)) :=
    batchShape_map (fun x hx => convGrid_shape_of e.conv3 x hf3t hx) hs2b
  obtain ⟨st3, L3, hbn3⟩ := bn2d_run_ok e.bn3 hs3 hnf3.symm hpos3 hct3
  have hs3b : BatchShape B e.conv3.out_channels
      (convOutDim e.conv3 (poolDim (convOutDim e.conv2 (poolDim
        (convOutDim e.conv1 a)))))
      (convOutDim e.conv3 (poolDim (convOutDim e.conv2 (poolDim
        (convOutDim e.conv1 c))))) (leakyB (((poolB (leakyB (((poolB (leakyB ((h0.map (convGrid e.conv1)).map (bn2dImg e.bn1 st1)))).map (convGrid e.conv2)).map (bn2dImg e.bn2 st2)))).map (convGrid e.conv3)).map (bn2dImg e.bn3 st3))) :=
    leakyB_shape (batchShape_map (fun x hx => bn2dImg_shape _ _ hx) hs3)
  -- flatten
  have hflatlen : ∀ x ∈ (leakyB (((poolB (leakyB (((poolB (leakyB ((h0.map (convGrid e.conv1)).map (bn2dImg e.bn1 st1)))).map (convGrid e.conv2)).map (bn2dImg e.bn2 st2)))).map (convGrid e.conv3)).map (bn2dImg e.bn3 st3))), (imgFlat x).length = e.fc1.in_features := by
    intro x hx
    rw [imgFlat_length_of_shape (hs3b.2 x hx)]
    exact hflat
  have hposflat : 0 < e.fc1.in_features := by
    rw [← hflat]
    exact Nat.mul_pos hpos3
      (Nat.mul_pos (convOutDim_pos _ _) (convOutDim_pos _ _))
  have hne3 : (leakyB (((poolB (leakyB (((poolB (leakyB ((h0.map (convGrid e.conv1)).map (bn2dImg e.bn1 st1)))).map (convGrid e.conv2)).map (bn2dImg e.bn2 st2)))).map (convGrid e.conv3)).map (bn2dImg e.bn3 st3))) ≠ [] := by
    simp only [poolB, leakyB, List.map_eq_nil_iff]
    simpa using hne
  have hlen3 : (leakyB (((poolB (leakyB (((poolB (leakyB ((h0.map (convGrid e.conv1)).map (bn2dImg e.bn1 st1)))).map (convGrid e.conv2)).map (bn2dImg e.bn2 st2)))).map (convGrid e.conv3)).map (bn2dImg e.bn3 st3))).length = B := by
    simpa [poolB, leakyB] using hb.1
  have hview := viewFlattenB_uniform (leakyB (((poolB (leakyB (((poolB (leakyB ((h0.map (convGrid e.conv1)).map (bn2dImg e.bn1 st1)))).map (convGrid e.conv2)).map (bn2dImg e.bn2 st2)))).map (convGrid e.conv3)).map (bn2dImg e.bn3 st3))) e.fc1.in_features hposflat
    hne3 hflatlen
  rw [hlen3] at hview
  have hr0 : RowsShape B e.fc1.in_features ((leakyB (((poolB (leakyB (((poolB (leakyB ((h0.map (convGrid e.conv1)).map (bn2dImg e.bn1 st1)))).map (convGrid e.conv2)).map (bn2dImg e.bn2 st2)))).map (convGrid e.conv3)).map (bn2dImg e.bn3 st3))).map imgFlat) := by
    refine ⟨by simpa [poolB, leakyB] using hb.1, ?_⟩
    intro r hr
    rcases List.mem_map.mp hr with ⟨x, hx, rfl⟩
    exact hflatlen x hx
  -- fully connected stages
  have hl1 := linear_mapM_ok e.fc1 hr0 rfl
  have hrf1 : RowsShape B e.fc1.out_features (((leakyB (((poolB (leakyB (((poolB (leakyB ((h0.map (convGrid e.conv1)).map (bn2dImg e.bn1 st1)))).map (convGrid e.conv2)).map (bn2dImg e.bn2 st2)))).map (convGrid e.conv3)).map (bn2dImg e.bn3 st3))).map imgFlat).map (linOut e.fc1)) :=
    rowsShape_map (fun r _ => linOut_length _ hwfc1 r) hr0
  obtain ⟨st4, L4, hbnf1⟩ := bn1d_run_ok e.bn1_fc hrf1 hnff1.symm hct4
  have hr1 : RowsShape B e.fc2.in_features (leakyRows ((((leakyB (((poolB (leakyB (((poolB (leakyB ((h0.map (convGrid e.conv1)).map (bn2dImg e.bn1 st1)))).map (convGrid e.conv2)).map (bn2dImg e.bn2 st2)))).map (convGrid e.conv3)).map (bn2dImg e.bn3 st3))).map imgFlat).map (linOut e.fc1)).map (bn1dRow e.bn1_fc st4))) := by
    rw [hinf2]
    exact rowsShape_map (fun r hr => by rw [leakyV_length, hr])
      (rowsShape_map (fun r hr => by rw [bn1dRow_length, hr]) hrf1)
  have hl2 := linear_mapM_ok e.fc2 hr1 rfl
  have hrf2 : RowsShape B e.fc2.out_features ((leakyRows ((((leakyB (((poolB (leakyB (((poolB (leakyB ((h0.map (convGrid e.conv1)).map (bn2dImg e.bn1 st1)))).map (convGrid e.conv2)).map (bn2dImg e.bn2 st2)))).map (convGrid e.conv3)).map (bn2dImg e.bn3 st3))).map imgFlat).map (linOut e.fc1)).map (bn1dRow e.bn1_fc st4))).map (linOut e.fc2)) :=
    rowsShape_map (fun r _ => linOut_length _ hwfc2 r) hr1
  obtain ⟨st5, L5, hbnf2⟩ := bn1d_run_ok e.bn2_fc hrf2 hnff2.symm hct5
  have hr2 : RowsShape B e.mu_logvar_gen.in_features (leakyRows (((leakyRows ((((leakyB (((poolB (leakyB (((poolB (leakyB ((h0.map (convGrid e.conv1)).map (bn2dImg e.bn1 st1)))).map (convGrid e.conv2)).map (bn2dImg e.bn2 st2)))).map (convGrid e.conv3)).map (bn2dImg e.bn3 st3))).map imgFlat).map (linOut e.fc1)).map (bn1dRow e.bn1_fc st4))).map (linOut e.fc2)).map (bn1dRow e.bn2_fc st5))) := by
    rw [hinmu]
    exact rowsShape_map (fun r hr => by rw [leakyV_length, hr])
      (rowsShape_map (fun r hr => by rw [bn1dRow_length, hr]) hrf2)
  refine ⟨(leakyRows (((leakyRows ((((leakyB (((poolB (leakyB (((poolB (leakyB ((h0.map (convGrid e.conv1)).map (bn2dImg e.bn1 st1)))).map (convGrid e.conv2)).map (bn2dImg e.bn2 st2)))).map (convGrid e.conv3)).map (bn2dImg e.bn3 st3))).map imgFlat).map (linOut e.fc1)).map (bn1dRow e.bn1_fc st4))).map (linOut e.fc2)).map (bn1dRow e.bn2_fc st5))),
    { e with bn1 := L1, bn2 := L2, bn3 := L3, bn1_fc := L4, bn2_fc := L5 },
    ?_, hr2⟩
  unfold convRest
  simp only [hc1, ok_bind, pure_bind, hbn1]
  simp only [hc2, ok_bind, pure_bind, hbn2]
  simp only [hc3, ok_bind, pure_bind, hbn3]
  simp only [hview, ok_bind, pure_bind]
  simp only [hl1, ok_bind, pure_bind, hbnf1]
  simp only [hl2, ok_bind, pure_bind, hbnf2]
  rfl

/-! ### Tensor-tree lemmas -/

theorem nthD_map_lt {α β : Type} (d : β) (d0 : α) (f : α → β) (l : List α)
    (i : Nat) (h : i < l.length) : nthD d (l.map f) i = f (nthD d0 l i) := by
  rw [nthD_eq_getElem d _ i (by simpa using h),
    nthD_eq_getElem d0 l i h, List.getElem_map]

theorem regularList_mem {ts : List PyTensor} (h : regularList ts = true) :
    ∀ u ∈ ts, u.regular = true := by
  induction ts with
  | nil => intro u hu; cases hu
  | cons x rest ih =>
    rw [regularList, Bool.and_eq_true] at h
    intro u hu
    rcases List.mem_cons.mp hu with rfl | hu
    · exact h.1
    · exact ih h.2 u hu

theorem shapesEq_mem {x : PyTensor} {rest : List PyTensor}
    (h : shapesEq (x :: rest) = true) :
    ∀ u ∈ x :: rest, u.shape = x.shape := by
  rw [shapesEq, List.all_eq_true] at h
  intro u hu
  simpa using h u hu

theorem regular_arr {ts : List PyTensor}
    (h : PyTensor.regular (.arr ts) = true) :
    regularList ts = true ∧ shapesEq ts = true := by
  rw [PyTensor.regular, Bool.and_eq_true] at h
  exact h

theorem tensorToVec_length (t : PyTensor) {h : Nat} (hs : t.shape = [h]) :
    (tensorToVec t).length = h := by
  cases t with
  | val q => cases hs
  | arr ts =>
    cases ts with
    | nil =>
      rw [PyTensor.shape] at hs
      cases hs
      rfl
    | cons x rest =>
      rw [PyTensor.shape] at hs
      have h1 : rest.length + 1 = h := (List.cons.injEq _ _ _ _ ▸ hs).1
      simp [tensorToVec, PyTensor.dim1, ← h1]

theorem tensorToMat_shape (t : PyTensor) {w h : Nat}
    (hreg : t.regular = true) (hs : t.shape = [w, h]) :
    (tensorToMat t).length = w ∧ ∀ r ∈ tensorToMat t, r.length = h := by
  cases t with
  | val q => cases hs
  | arr ts =>
    cases ts with
    | nil => rw [PyTensor.shape] at hs; cases hs
    | cons x rest =>
      rw [PyTensor.shape] at hs
      rw [List.cons.injEq] at hs
      obtain ⟨hw, hx⟩ := hs
      obtain ⟨hrl, hse⟩ := regular_arr hreg
      constructor
      · simp [tensorToMat, PyTensor.dim1, hw]
      · intro r hr
        rcases List.mem_map.mp hr with ⟨u, hu, rfl⟩
        have hus : u.shape = [h] := by
          rw [shapesEq_mem hse u hu, hx]
        exact tensorToVec_length u hus

theorem tensorToImg_shape (t : PyTensor) {n w h : Nat}
    (hreg : t.regular = true) (hs : t.shape = [n, w, h]) :
    ImgShape n w h (tensorToImg t) := by
  cases t with
  | val q => cases hs
  | arr ts =>
    cases ts with
    | nil => rw [PyTensor.shape] at hs; cases hs
    | cons x rest =>
      rw [PyTensor.shape] at hs
      rw [List.cons.injEq] at hs
      obtain ⟨hn, hx⟩ := hs
      obtain ⟨hrl, hse⟩ := regular_arr hreg
      refine ⟨by simp [tensorToImg, PyTensor.dim1, hn], ?_⟩
      intro m hm
      rcases List.mem_map.mp hm with ⟨u, hu, rfl⟩
      have hus : u.shape = [w, h] := by
        rw [shapesEq_mem hse u hu, hx]
      exact tensorToMat_shape u (regularList_mem hrl u hu) hus

theorem tensorToBatch_shape (t : PyTensor) {B c w h : Nat}
    (hreg : t.regular = true) (hs : t.shape = [B, c, w, h]) :
    BatchShape B c w h (tensorToBatch t) := by
  cases t with
  | val q => cases hs
  | arr ts =>
    cases ts with
    | nil => rw [PyTensor.shape] at hs; cases hs
    | cons x rest =>
      rw [PyTensor.shape] at hs
      rw [List.cons.injEq] at hs
      obtain ⟨hB, hx⟩ := hs
      obtain ⟨hrl, hse⟩ := regular_arr hreg
      refine ⟨by simp [tensorToBatch, PyTensor.dim1, hB], ?_⟩
      intro y hy
      rcases List.mem_map.mp hy with ⟨u, hu, rfl⟩
      have hus : u.shape = [c, w, h] := by
        rw [shapesEq_mem hse u hu, hx]
      exact tensorToImg_shape u (regularList_mem hrl u hu) hus

theorem shape_rank4_pos (t : PyTensor) {B c w h : Nat}
    (hs : t.shape = [B, c, w, h]) : 0 < B ∧ 0 < c ∧ 0 < w := by
  cases t with
  | val q => cases hs
  | arr ts =>
    cases ts with
    | nil => rw [PyTensor.shape] at hs; cases hs
    | cons x rest =>
      rw [PyTensor.shape, List.cons.injEq] at hs
      obtain ⟨hB, hx⟩ := hs
      refine ⟨by omega, ?_⟩
      cases x with
      | val q => cases hx
      | arr ts2 =>
        cases ts2 with
        | nil => rw [PyTensor.shape] at hx; cases hx
        | cons y rest2 =>
          rw [PyTensor.shape, List.cons.injEq] at hx
          obtain ⟨hc, hy⟩ := hx
          refine ⟨by omega, ?_⟩
          cases y with
          | val q => cases hy
          | arr ts3 =>
            cases ts3 with
            | nil => rw [PyTensor.shape] at hy; cases hy
            | cons z rest3 =>
              rw [PyTensor.shape, List.cons.injEq] at hy
              omega

theorem flat4_length {B c w h : Nat} (b : Batch) (hb : BatchShape B c w h b) :
    (flat4 b).length = B * (c * (w * h)) := by
  rw [flat4_eq]
  have hel : ∀ v ∈ b.map imgFlat, v.length = c * (w * h) := by
    intro v hv
    rcases List.mem_map.mp hv with ⟨x, hx, rfl⟩
    exact imgFlat_length_of_shape (hb.2 x hx)
  rw [length_flatten_uniform (c * (w * h)) _ hel]
  simp [hb.1]

theorem regroup4_flat4 (b : Batch) {B c w h : Nat}
    (hb : BatchShape B c w h b) :
    (List.range B).map (fun i => (List.range c).map (fun ci =>
      (List.range w).map (fun wi =>
        sliceRow (flat4 b) (((i * c + ci) * w + wi) * h) h))) = b := by
  have hflatrows : ∀ r ∈ b.map imgFlat, r.length = c * (w * h) := by
    intro r hr
    rcases List.mem_map.mp hr with ⟨x, hx, rfl⟩
    exact imgFlat_length_of_shape (hb.2 x hx)
  have step : ∀ i ∈ List.range B,
      (List.range c).map (fun ci => (List.range w).map (fun wi =>
        sliceRow (flat4 b) (((i * c + ci) * w + wi) * h) h)) = nthD [] b i := by
    intro i hi
    have hiB : i < B := List.mem_range.mp hi
    have hib : i < b.length := by rw [hb.1]; exact hiB
    obtain ⟨hxlen, hxm⟩ := hb.2 _ (nthD_mem [] b i hib)
    have hmatrows : ∀ r ∈ (nthD [] b i).map List.flatten, r.length = w * h := by
      intro r hr
      rcases List.mem_map.mp hr with ⟨m, hm, rfl⟩
      obtain ⟨hml, hmr⟩ := hxm m hm
      rw [length_flatten_uniform h m hmr, hml]
    have inner : ∀ ci ∈ List.range c, (List.range w).map (fun wi =>
        sliceRow (flat4 b) (((i * c + ci) * w + wi) * h) h) =
          nthD [] (nthD [] b i) ci := by
      intro ci hci
      have hcic : ci < c := List.mem_range.mp hci
      have hcix : ci < (nthD [] b i).length := by rw [hxlen]; exact hcic
      obtain ⟨hmlen, hmrows⟩ := hxm _ (nthD_mem [] (nthD [] b i) ci hcix)
      have inner2 : ∀ wi ∈ List.range w,
          sliceRow (flat4 b) (((i * c + ci) * w + wi) * h) h =
            nthD [] (nthD [] (nthD [] b i) ci) wi := by
        intro wi hwi
        have hwiw : wi < w := List.mem_range.mp hwi
        have hidx : (((i * c + ci) * w + wi) * h) =
            i * (c * (w * h)) + ((ci * w + wi) * h) := by ring
        have hbound1 : (ci * w + wi) * h + h ≤ c * (w * h) := by
          have h1 : ci * w + wi + 1 ≤ c * w := by
            calc ci * w + wi + 1 ≤ ci * w + w := by omega
              _ = (ci + 1) * w := by ring
              _ ≤ c * w := Nat.mul_le_mul_right w (by omega)
          calc (ci * w + wi) * h + h = (ci * w + wi + 1) * h := by ring
            _ ≤ (c * w) * h := Nat.mul_le_mul_right h h1
            _ = c * (w * h) := by ring
        rw [hidx, flat4_eq,
          sliceRow_flatten_uniform (c * (w * h)) (b.map imgFlat)
            hflatrows i ((ci * w + wi) * h) h hbound1,
          nthD_map_lt [] [] imgFlat b i hib]
        have hidx2 : (ci * w + wi) * h = ci * (w * h) + wi * h := by ring
        have hbound2 : wi * h + h ≤ w * h := by
          calc wi * h + h = (wi + 1) * h := by ring
            _ ≤ w * h := Nat.mul_le_mul_right h (by omega)
        rw [hidx2, imgFlat,
          sliceRow_flatten_uniform (w * h) ((nthD [] b i).map List.flatten)
            hmatrows ci (wi * h) h hbound2,
          nthD_map_lt [] [] List.flatten (nthD [] b i) ci hcix]
        have hidx3 : wi * h = wi * h + 0 := by omega
        rw [hidx3,
          sliceRow_flatten_uniform h (nthD [] (nthD [] b i) ci) hmrows wi 0 h
            (by omega)]
        have hrl : (nthD [] (nthD [] (nthD [] b i) ci) wi).length = h := by
          have hwix : wi < (nthD [] (nthD [] b i) ci).length := by
            rw [hmlen]; exact hwiw
          exact hmrows _ (nthD_mem [] _ wi hwix)
        rw [← hrl, sliceRow_self]
      rw [List.map_congr_left inner2]
      have : (List.range w).map (fun wi =>
          nthD [] (nthD [] (nthD [] b i) ci) wi) =
          nthD [] (nthD [] b i) ci := by
        rw [← hmlen]
        exact rangeMap_nthD_self [] _
      exact this
    rw [List.map_congr_left inner]
    rw [← hxlen]
    exact rangeMap_nthD_self [] _
  rw [List.map_congr_left step, ← hb.1]
  exact rangeMap_nthD_self [] b

theorem view4_regular (t : PyTensor) {B c w h : Nat}
    (hreg : t.regular = true) (hs : t.shape = [B, c, w, h]) (hh : 0 < h) :
    view4Infer c w h (tensorFlat t) = .ok (tensorToBatch t) := by
  obtain ⟨hB, hc, hw⟩ := shape_rank4_pos t hs
  have hbs := tensorToBatch_shape t hreg hs
  have hlen : (tensorFlat t).length = B * (c * (w * h)) :=
    flat4_length _ hbs
  have hcwh : c * w * h = c * (w * h) := by ring
  have hpos : 0 < (tensorFlat t).length := by
    rw [hlen]; positivity
  have hmod : (tensorFlat t).length % (c * w * h) = 0 := by
    rw [hlen, hcwh]; exact Nat.mul_mod_left _ _
  have hdiv : (tensorFlat t).length / (c * w * h) = B := by
    rw [hlen, hcwh]
    exact Nat.mul_div_cancel B (by positivity)
  unfold view4Infer
  rw [if_pos ⟨hpos, hmod⟩, hdiv]
  exact congrArg Except.ok (regroup4_flat4 (tensorToBatch t) hbs)

/-! ### No stage after the `ConvEncoder` rank assertion raises an
`AssertionError` -/

/-- The computation never fails with the given error kind. -/
def NeverErr {α : Type} (er : PyError) (x : Except PyError α) : Prop :=
  ∀ e2, x = .error e2 → e2 ≠ er

theorem neverErr_ok {α : Type} (er : PyError) (a : α) :
    NeverErr er (.ok a) := by
  intro e2 h
  cases h

theorem neverErr_error {α : Type} {er e0 : PyError} (h : e0 ≠ er) :
    NeverErr er (.error e0 : Except PyError α) := by
  intro e2 h2
  cases h2
  exact h

theorem neverErr_bind {α β : Type} {er : PyError} {x : Except PyError α}
    {f : α → Except PyError β} (hx : NeverErr er x)
    (hf : ∀ a, NeverErr er (f a)) : NeverErr er (x >>= f) := by
  intro e2 h2
  cases x with
  | error e0 =>
    rw [error_bind] at h2
    cases h2
    exact hx _ rfl
  | ok a => exact hf a e2 h2

theorem neverErr_ite {α : Type} {er : PyError} {p : Prop} [Decidable p]
    {x y : Except PyError α} (hx : NeverErr er x) (hy : NeverErr er y) :
    NeverErr er (if p then x else y) := by
  by_cases hp : p
  · rw [if_pos hp]; exact hx
  · rw [if_neg hp]; exact hy

theorem neverErr_mapM {α β : Type} {er : PyError}
    (f : α → Except PyError β) (h : ∀ a, NeverErr er (f a)) :
    ∀ l : List α, NeverErr er (l.mapM f) := by
  intro l
  induction l with
  | nil => exact neverErr_ok er []
  | cons a t ih =>
    rw [List.mapM_cons]
    exact neverErr_bind (h a) (fun b =>
      neverErr_bind ih (fun bs => neverErr_ok er _))

theorem conv_run_noAssert (L : Conv2d) (x : Img) :
    NeverErr .assertionError (L.run x) := by
  unfold Conv2d.run
  exact neverErr_ite (neverErr_ok _ _) (neverErr_error (by simp))

theorem linear_run_noAssert (L : Linear) (v : Vec) :
    NeverErr .assertionError (L.run v) := by
  unfold Linear.run
  exact neverErr_ite (neverErr_ok _ _) (neverErr_error (by simp))

theorem bn2d_run_noAssert (L : BatchNorm) (b : Batch) :
    NeverErr .assertionError (L.run2d b) := by
  unfold BatchNorm.run2d
  refine neverErr_ite (neverErr_ite ?_ (neverErr_ok _ _))
    (neverErr_error (by simp))
  exact neverErr_ite (neverErr_error (by simp)) (neverErr_ok _ _)

theorem bn1d_run_noAssert (L : BatchNorm) (rows : List Vec) :
    NeverErr .assertionError (L.run1d rows) := by
  unfold BatchNorm.run1d
  refine neverErr_ite (neverErr_ite ?_ (neverErr_ok _ _))
    (neverErr_error (by simp))
  exact neverErr_ite (neverErr_error (by simp)) (neverErr_ok _ _)

theorem viewFlattenB_noAssert (B : Nat) (b : Batch) :
    NeverErr .assertionError (viewFlattenB B b) := by
  unfold viewFlattenB
  exact neverErr_ite (neverErr_ok _ _) (neverErr_error (by simp))

theorem view4Infer_noAssert (c w h : Nat) (f : Vec) :
    NeverErr .assertionError (view4Infer c w h f) := by
  unfold view4Infer
  exact neverErr_ite (neverErr_ok _ _) (neverErr_error (by simp))

theorem viewUnbindExplicit_noAssert (B d : Nat) (m : List Vec) :
    NeverErr .assertionError (viewUnbindExplicit B d m) := by
  unfold viewUnbindExplicit
  exact neverErr_ite (neverErr_ok _ _) (neverErr_error (by simp))

theorem convRest_noAssert (e : ConvEncoder) (B : Nat) (h0 : Batch) :
    NeverErr .assertionError (convRest e B h0) := by
  unfold convRest
  refine neverErr_bind (neverErr_mapM _ (conv_run_noAssert e.conv1) h0)
    (fun c1 => ?_)
  refine neverErr_bind (bn2d_run_noAssert e.bn1 c1) (fun p1 => ?_)
  rcases p1 with ⟨b1, bn1a⟩
  refine neverErr_bind (neverErr_mapM _ (conv_run_noAssert e.conv2) _)
    (fun c2 => ?_)
  refine neverErr_bind (bn2d_run_noAssert e.bn2 c2) (fun p2 => ?_)
  rcases p2 with ⟨b2, bn2a⟩
  refine neverErr_bind (neverErr_mapM _ (conv_run_noAssert e.conv3) _)
    (fun c3 => ?_)
  refine neverErr_bind (bn2d_run_noAssert e.bn3 c3) (fun p3 => ?_)
  rcases p3 with ⟨b3, bn3a⟩
  refine neverErr_bind (viewFlattenB_noAssert B _) (fun hf => ?_)
  refine neverErr_bind (neverErr_mapM _ (linear_run_noAssert e.fc1) hf)
    (fun f1 => ?_)
  refine neverErr_bind (bn1d_run_noAssert e.bn1_fc f1) (fun g1 => ?_)
  rcases g1 with ⟨g1, bnf1a⟩
  refine neverErr_bind (neverErr_mapM _ (linear_run_noAssert e.fc2) _)
    (fun f2 => ?_)
  refine neverErr_bind (bn1d_run_noAssert e.bn2_fc f2) (fun g2 => ?_)
  rcases g2 with ⟨g2, bnf2a⟩
  exact neverErr_ok _ _

theorem convAfterAssert_noAssert (e : ConvEncoder) (t : PyTensor) :
    NeverErr .assertionError (convAfterAssert e t) := by
  unfold convAfterAssert convHidden
  refine neverErr_bind (neverErr_ite ?_ (neverErr_error (by simp)))
    (fun p => ?_)
  · exact neverErr_bind (view4Infer_noAssert _ _ _ _)
      (fun h0 => convRest_noAssert e _ h0)
  · rcases p with ⟨h2, e1⟩
    refine neverErr_bind (neverErr_mapM _
      (linear_run_noAssert e.mu_logvar_gen) h2) (fun ml => ?_)
    refine neverErr_bind (viewUnbindExplicit_noAssert _ _ ml) (fun pr => ?_)
    rcases pr with ⟨ms, ls⟩
    exact neverErr_ok _ _

/-! ### Eval-mode frame lemmas for `ConvEncoder` -/

theorem bn2d_state_eval (L : BatchNorm) (b : Batch)
    (htr : L.training = false) :
    ∀ out L2, L.run2d b = .ok (out, L2) → L2 = L := by
  intro out L2 h
  unfold BatchNorm.run2d at h
  by_cases hc : b.all (fun x => x.length == L.num_features) = true
  · rw [hc, if_pos rfl, htr, if_neg (by simp)] at h
    cases h
    rfl
  · rw [if_neg hc] at h
    cases h

theorem convRest_state_eval (e : ConvEncoder) (B : Nat) (h0 : Batch)
    (hev : e.isEval) :
    ∀ h2 e1, convRest e B h0 = .ok (h2, e1) → e1 = e := by
  obtain ⟨hev1, hev2, hev3, hev4, hev5⟩ := hev
  intro h2 e1 h
  unfold convRest at h
  cases hc1 : List.mapM e.conv1.run h0 with
  | error er => rw [hc1, error_bind] at h; cases h
  | ok c1 =>
    rw [hc1, ok_bind] at h
    cases hbn1 : e.bn1.run2d c1 with
    | error er => rw [hbn1, error_bind] at h; cases h
    | ok p1 =>
      obtain ⟨b1, L1⟩ := p1
      have hL1 := bn2d_state_eval e.bn1 c1 hev1 b1 L1 hbn1
      simp only [hbn1, ok_bind, pure_bind] at h
      cases hc2 : List.mapM e.conv2.run (poolB (leakyB b1)) with
      | error er => simp only [hc2, error_bind] at h; cases h
      | ok c2 =>
        simp only [hc2, ok_bind] at h
        cases hbn2 : e.bn2.run2d c2 with
        | error er => simp only [hbn2, error_bind] at h; cases h
        | ok p2 =>
          obtain ⟨b2, L2⟩ := p2
          have hL2 := bn2d_state_eval e.bn2 c2 hev2 b2 L2 hbn2
          simp only [hbn2, ok_bind, pure_bind] at h
          cases hc3 : List.mapM e.conv3.run (poolB (leakyB b2)) with
          | error er => simp only [hc3, error_bind] at h; cases h
          | ok c3 =>
            simp only [hc3, ok_bind] at h
            cases hbn3 : e.bn3.run2d c3 with
            | error er => simp only [hbn3, error_bind] at h; cases h
            | ok p3 =>
              obtain ⟨b3, L3⟩ := p3
              have hL3 := bn2d_state_eval e.bn3 c3 hev3 b3 L3 hbn3
              simp only [hbn3, ok_bind, pure_bind] at h
              cases hhf : viewFlattenB B (leakyB b3) with
              | error er => simp only [hhf, error_bind] at h; cases h
              | ok hf =>
                simp only [hhf, ok_bind] at h
                cases hf1 : List.mapM e.fc1.run hf with
                | error er => simp only [hf1, error_bind] at h; cases h
                | ok f1 =>
                  simp only [hf1, ok_bind] at h
                  cases hbnf1 : e.bn1_fc.run1d f1 with
                  | error er => simp only [hbnf1, error_bind] at h; cases h
                  | ok p4 =>
                    obtain ⟨g1, L4⟩ := p4
                    have hL4 := bn1d_state_eval e.bn1_fc f1 hev4 g1 L4 hbnf1
                    simp only [hbnf1, ok_bind, pure_bind] at h
                    cases hf2 : List.mapM e.fc2.run (leakyRows g1) with
                    | error er => simp only [hf2, error_bind] at h; cases h
                    | ok f2 =>
                      simp only [hf2, ok_bind] at h
                      cases hbnf2 : e.bn2_fc.run1d f2 with
                      | error er => simp only [hbnf2, error_bind] at h; cases h
                      | ok p5 =>
                        obtain ⟨g2, L5⟩ := p5
                        have hL5 := bn1d_state_eval e.bn2_fc f2 hev5 g2 L5
                          hbnf2
                        simp only [hbnf2, ok_bind, pure_bind] at h
                        cases h
                        rw [hL1, hL2, hL3, hL4, hL5]

theorem convForwardT_state_eval (e : ConvEncoder) (t : PyTensor)
    (hev : e.isEval) :
    ∀ r e1, e.forwardT t = .ok (r, e1) → e1 = e := by
  intro r e1 h
  unfold ConvEncoder.forwardT convAfterAssert convHidden at h
  by_cases h4 : t.shape.length = 4
  · rw [if_pos h4] at h
    by_cases hreg : t.regular = true
    · rw [if_pos hreg] at h
      cases hv : view4Infer (nthD 0 t.shape 1) (nthD 0 t.shape 2)
          (nthD 0 t.shape 3) (tensorFlat t) with
      | error er => simp only [hv, error_bind] at h; cases h
      | ok h0 =>
        simp only [hv, ok_bind] at h
        cases hcr : convRest e (nthD 0 t.shape 0) h0 with
        | error er => simp only [hcr, error_bind] at h; cases h
        | ok p =>
          obtain ⟨h2, e2⟩ := p
          have he2 := convRest_state_eval e _ h0 hev h2 e2 hcr
          simp only [hcr, ok_bind] at h
          cases hmu : List.mapM e.mu_logvar_gen.run h2 with
          | error er => simp only [hmu, error_bind] at h; cases h
          | ok ml =>
            simp only [hmu, ok_bind] at h
            cases hub : viewUnbindExplicit (nthD 0 t.shape 0) e.latent_dim
                ml with
            | error er => simp only [hub, error_bind] at h; cases h
            | ok pr =>
              obtain ⟨ms, ls⟩ := pr
              simp only [hub, ok_bind] at h
              cases h
              exact he2
    · rw [if_neg hreg, error_bind] at h
      cases h
  · rw [if_neg h4] at h
    cases h

/-! ### The constructed encoders satisfy the shape conditions -/

theorem wfShape_mkLinear (inF outF : Nat) (q : ℚ) :
    (mkLinear inF outF q).wfShape := by
  simp [mkLinear, Linear.wfShape]

instance (L : Linear) : Decidable L.wfShape := by
  unfold Linear.wfShape; infer_instance

instance (e : EncoderBurgess) (d : Nat × Nat × Nat) :
    Decidable (burgessShapeOk e d) := by
  unfold burgessShapeOk; infer_instance

instance (e : ConvEncoder) (d : Nat × Nat × Nat) :
    Decidable (convEncShapeOk e d) := by
  unfold convEncShapeOk; infer_instance

instance (e : ConvEncoder) (d : Nat × Nat × Nat) (B : Nat) :
    Decidable (convCountOk e d B) := by
  unfold convCountOk; infer_instance

instance (e : DomainEncoder) : Decidable (domainShapeOk e) := by
  unfold domainShapeOk; infer_instance

instance (n a c : Nat) (x : Img) : Decidable (ImgShape n a c x) := by
  unfold ImgShape; infer_instance

instance (B n a c : Nat) (b : Batch) : Decidable (BatchShape B n a c b) := by
  unfold BatchShape; infer_instance

instance (B w : Nat) (rows : List Vec) : Decidable (RowsShape B w rows) := by
  unfold RowsShape; infer_instance

instance (e : ConvEncoder) : Decidable e.isEval := by
  unfold ConvEncoder.isEval; infer_instance

instance (e : DomainEncoder) : Decidable e.isEval := by
  unfold DomainEncoder.isEval; infer_instance

theorem mk_domainShapeOk (nd od : Nat) (q : ℚ) (rs : ℚ → ℚ) :
    domainShapeOk (mkDomainEncoder nd od q rs) := by
  refine ⟨by simp [mkDomainEncoder], ?_, rfl, wfShape_mkLinear _ _ _, rfl⟩
  intro r hr
  simp only [mkDomainEncoder] at hr
  rw [List.eq_of_mem_replicate hr]
  rfl

theorem mk_convEncShapeOk (d : Nat) (q : ℚ) (rs : ℚ → ℚ) :
    convEncShapeOk (mkConvEncoder d q rs) (3, 32, 32) := by
  simp only [convEncShapeOk, mkConvEncoder, mkConv2d, mkLinear, mkBatchNorm,
    convFits, convDims, poolDims, poolDim, convOutDim, flatLen,
    Linear.wfShape]
  norm_num

theorem mk_convCountOk (d : Nat) (q : ℚ) (rs : ℚ → ℚ) (B : Nat)
    (hB : 2 ≤ B) : convCountOk (mkConvEncoder d q rs) (3, 32, 32) B := by
  simp only [convCountOk, mkConvEncoder, mkConv2d, mkBatchNorm, convDims,
    poolDims, poolDim, convOutDim]
  norm_num
  omega

theorem mk_burgessShapeOk_32 (c0 d : Nat) (q : ℚ) (hc : 0 < c0)
    (hd : 0 < d) :
    burgessShapeOk (mkEncoderBurgess (c0, 32, 32) d q) (c0, 32, 32) := by
  simp only [burgessShapeOk, mkEncoderBurgess, mkConv2d, mkLinear,
    mkBatchNorm, convFits, convDims, optionDims, optionFits, flatLen,
    convOutDim, Linear.wfShape]
  norm_num
  exact ⟨hc, hd⟩

theorem mk_burgessShapeOk_64 (c0 d : Nat) (q : ℚ) (hc : 0 < c0)
    (hd : 0 < d) :
    burgessShapeOk (mkEncoderBurgess (c0, 64, 64) d q) (c0, 64, 64) := by
  simp only [burgessShapeOk, mkEncoderBurgess, mkConv2d, mkLinear,
    mkBatchNorm, convFits, convDims, optionDims, optionFits, flatLen,
    convOutDim, Linear.wfShape]
  norm_num
  exact ⟨hc, hd⟩

theorem batchShape_replicate (B n a c : Nat) (q : ℚ) :
    BatchShape B n a c (List.replicate B (List.replicate n
      (List.replicate a (List.replicate c q)))) := by
  refine ⟨by simp, ?_⟩
  intro x hx
  rw [List.eq_of_mem_replicate hx]
  refine ⟨by simp, ?_⟩
  intro m hm
  rw [List.eq_of_mem_replicate hm]
  refine ⟨by simp, ?_⟩
  intro r hr
  rw [List.eq_of_mem_replicate hr]
  simp

/-! ### `ConvEncoder` forward-level lemmas -/

theorem convForwardT_ok (e : ConvEncoder) (t : PyTensor) {B c w h : Nat}
    (hs : t.shape = [B, c, w, h]) (hreg : t.regular = true) (hh : 0 < h)
    (hok : convEncShapeOk e (c, w, h)) (hcnt : convCountOk e (c, w, h) B) :
    ∃ ms ls e1, e.forwardT t = .ok ((ms, ls), e1) ∧
      ms.length = B ∧ ls.length = B ∧
      (∀ v ∈ ms, v.length = e.latent_dim) ∧
      (∀ v ∈ ls, v.length = e.latent_dim) := by
  obtain ⟨hB, hc, hw⟩ := shape_rank4_pos t hs
  have hbs := tensorToBatch_shape t hreg hs
  have hne : tensorToBatch t ≠ [] := by
    apply List.ne_nil_of_length_pos
    rw [hbs.1]
    exact hB
  obtain ⟨h2, e1, hcr, hr2⟩ := convRest_ok e (tensorToBatch t) hok hcnt
    hne hbs
  have hok2 := hok
  simp only [convEncShapeOk] at hok2
  obtain ⟨_, _, _, _, _, _, _, _, _, _, _, _, _, hinmu, hwfmu, houtmu⟩ := hok2
  have hmu := linear_mapM_ok e.mu_logvar_gen hr2 rfl
  have hr3 : RowsShape B (e.latent_dim * 2) (h2.map (linOut e.mu_logvar_gen)) := by
    rw [← houtmu]
    exact rowsShape_map (fun r _ => linOut_length _ hwfmu r) hr2
  have hub := viewUnbindExplicit_uniform e.latent_dim
    (h2.map (linOut e.mu_logvar_gen)) hr3.2
  rw [hr3.1] at hub
  have hview := view4_regular t hreg hs hh
  have hfw : e.forwardT t = .ok
      (((h2.map (linOut e.mu_logvar_gen)).map
          (fun r => evenSlice r 0 e.latent_dim),
        (h2.map (linOut e.mu_logvar_gen)).map
          (fun r => oddSlice r 0 e.latent_dim)), e1) := by
    unfold ConvEncoder.forwardT convAfterAssert convHidden
    rw [if_pos (by rw [hs]; rfl), if_pos hreg, hs]
    simp only [nthD]
    simp only [hview, ok_bind, pure_bind]
    have hcr2 : convRest e B (tensorToBatch t) = .ok (h2, e1) := hcr
    simp only [hcr2, ok_bind, pure_bind, hmu, hub]
    rfl
  refine ⟨_, _, _, hfw, by simpa using hr3.1, by simpa using hr3.1, ?_, ?_⟩
  · intro v hv
    rcases List.mem_map.mp hv with ⟨r, _, rfl⟩
    exact length_evenSlice r 0 e.latent_dim
  · intro v hv
    rcases List.mem_map.mp hv with ⟨r, _, rfl⟩
    exact length_oddSlice r 0 e.latent_dim

theorem convForwardT_eval (e : ConvEncoder) (t : PyTensor) {B c w h : Nat}
    (hs : t.shape = [B, c, w, h]) (hreg : t.regular = true) (hh : 0 < h)
    (hok : convEncShapeOk e (c, w, h)) (hev : e.isEval) :
    e.forwardT t =
      .ok (unzipPair ((tensorToBatch t).map (convEncSample e)), e) := by
  obtain ⟨hB, hc, hw⟩ := shape_rank4_pos t hs
  have hbs := tensorToBatch_shape t hreg hs
  have hne : tensorToBatch t ≠ [] := by
    apply List.ne_nil_of_length_pos
    rw [hbs.1]
    exact hB
  obtain ⟨hcr, hr2⟩ := convRest_eval e (tensorToBatch t) hok hev hne hbs
  have hok2 := hok
  simp only [convEncShapeOk] at hok2
  obtain ⟨_, _, _, _, _, _, _, _, _, _, _, _, _, hinmu, hwfmu, houtmu⟩ := hok2
  have hmu := linear_mapM_ok e.mu_logvar_gen hr2 rfl
  have hr3 : RowsShape B (e.latent_dim * 2)
      (((tensorToBatch t).map (convEncSampleHidden e)).map
        (linOut e.mu_logvar_gen)) := by
    rw [← houtmu]
    exact rowsShape_map (fun r _ => linOut_length _ hwfmu r) hr2
  have hub := viewUnbindExplicit_uniform e.latent_dim
    (((tensorToBatch t).map (convEncSampleHidden e)).map
      (linOut e.mu_logvar_gen)) hr3.2
  rw [hr3.1] at hub
  have hview := view4_regular t hreg hs hh
  unfold ConvEncoder.forwardT convAfterAssert convHidden
  rw [if_pos (by rw [hs]; rfl), if_pos hreg, hs]
  simp only [nthD]
  simp only [hview, ok_bind, pure_bind]
  have hcr2 : convRest e B (tensorToBatch t) =
      .ok ((tensorToBatch t).map (convEncSampleHidden e), e) := hcr
  simp only [hcr2, ok_bind, pure_bind, hmu, hub]
  unfold unzipPair convEncSample
  simp only [List.map_map, Function.comp]
  rfl


/-! ### Scalar and sparse-weight helper lemmas -/

theorem blt_iff (a b : ℚ) : Rat.blt a b = true ↔ a < b := Iff.rfl

theorem leakyRelu_eq (q : ℚ) : leakyRelu q = if q < 0 then q / 100 else q := by
  unfold leakyRelu
  by_cases h : q < 0
  · rw [if_pos ((blt_iff q 0).mpr h), if_pos h]
  · rw [if_neg (fun hb => h ((blt_iff q 0).mp hb)), if_neg h]

theorem dot_replicate_zero : ∀ (k : Nat) (v : Vec),
    dot (List.replicate k 0) v = 0 := by
  intro k
  induction k with
  | zero => intro v; rfl
  | succ m ih =>
    intro v
    cases v with
    | nil => rfl
    | cons x xs =>
      show dot (0 :: List.replicate m 0) (x :: xs) = 0
      unfold dot
      rw [List.zip_cons_cons, List.map_cons, List.sum_cons]
      have := ih xs
      unfold dot at this
      rw [this, zero_mul, zero_add]

theorem dot_cons_replicate (q : ℚ) (k : Nat) (v : Vec) :
    dot (q :: List.replicate k 0) v = q * nth v 0 := by
  cases v with
  | nil =>
    show dot (q :: List.replicate k 0) [] = q * nth [] 0
    unfold dot nth nthD
    rw [List.zip_nil_right]
    simp
  | cons x xs =>
    show dot (q :: List.replicate k 0) (x :: xs) = q * nth (x :: xs) 0
    unfold dot
    rw [List.zip_cons_cons, List.map_cons, List.sum_cons]
    have := dot_replicate_zero k xs
    unfold dot at this
    rw [this, add_zero]
    rfl

theorem mapM_cons_error {α β : Type} (f : α → Except PyError β) (er : PyError)
    (a : α) (t : List α) (ha : f a = .error er) :
    (a :: t).mapM f = .error er := by
  rw [List.mapM_cons, ha]
  rfl

theorem lin_mapM_first_error (L : Linear) :
    ∀ rows : List Vec, (∃ r ∈ rows, r.length ≠ L.in_features) →
      List.mapM L.run rows = .error .runtimeError := by
  intro rows hex
  induction rows with
  | nil => rcases hex with ⟨x, hx, _⟩; cases hx
  | cons a t ih =>
    rw [List.mapM_cons]
    by_cases ha : a.length = L.in_features
    · rw [Linear.run, if_pos ha]
      have hext : ∃ r ∈ t, r.length ≠ L.in_features := by
        rcases hex with ⟨x, hx, hbad⟩
        rcases List.mem_cons.mp hx with hx1 | hx1
        · rw [hx1] at hbad; exact absurd ha hbad
        · exact ⟨x, hx1, hbad⟩
      rw [ih hext]
      rfl
    · rw [Linear.run, if_neg ha]
      rfl


/-! ### Training-mode core lemmas -/

theorem bn1d_run_train (L : BatchNorm) {B w : Nat} {rows : List Vec}
    (hr : RowsShape B w rows) (hw : w = L.num_features)
    (htr : L.training = true) (hcount : 1 < B) :
    L.run1d rows = .ok (rows.map (bn1dRow L (fun c =>
        (meanOf (chanVals1d rows c), varOf (chanVals1d rows c)))),
      { L with
        running_mean := (List.range L.num_features).map (fun c =>
          (1 - L.momentum) * nth L.running_mean c +
            L.momentum * meanOf (chanVals1d rows c)),
        running_var := (List.range L.num_features).map (fun c =>
          (1 - L.momentum) * nth L.running_var c +
            L.momentum * varUnbiasedOf (chanVals1d rows c)),
        num_batches_tracked := L.num_batches_tracked + 1 }) := by
  unfold BatchNorm.run1d
  rw [bn1d_check_of_shape L hr hw, if_pos rfl, htr, if_pos rfl, hr.1,
    if_neg (by omega)]



theorem domainForwardS_of_bn (e : DomainEncoder) (inputs : List Int)
    (outRows : List Vec) (L2 : BatchNorm)
    (hmuin : e.mu_logvar_gen.in_features = e.bn.num_features)
    (hmuwf : e.mu_logvar_gen.wfShape)
    (hmuout : e.mu_logvar_gen.out_features = e.latent_dim * 2)
    (hin : ∀ i ∈ inputs, 0 ≤ i ∧ i < (e.embed.num_embeddings : Int))
    (hbn : e.bn.run1d (inputs.map (fun i => nthD [] e.embed.weight i.toNat)) =
      .ok (outRows, L2))
    (hlen : ∀ r ∈ outRows, r.length = e.bn.num_features)
    (hcnt : outRows.length = inputs.length) :
    e.forwardS inputs = .ok
      ((((leakyRows outRows).map (linOut e.mu_logvar_gen)).map
          (fun r => evenSlice r 0 e.latent_dim),
        ((leakyRows outRows).map (linOut e.mu_logvar_gen)).map
          (fun r => oddSlice r 0 e.latent_dim)),
       { e with bn := L2 }) := by
  have hsh1 : RowsShape inputs.length e.bn.num_features outRows := ⟨hcnt, hlen⟩
  have hsh2 : RowsShape inputs.length e.mu_logvar_gen.in_features
      (leakyRows outRows) := by
    rw [hmuin]
    exact rowsShape_map (fun r hr => by rw [leakyV_length, hr]) hsh1
  have hmu := linear_mapM_ok e.mu_logvar_gen hsh2 rfl
  have hsh3 : RowsShape inputs.length (e.latent_dim * 2)
      ((leakyRows outRows).map (linOut e.mu_logvar_gen)) := by
    rw [← hmuout]
    exact rowsShape_map (fun r _ => linOut_length _ hmuwf r) hsh2
  have hub := viewUnbindExplicit_uniform e.latent_dim
    ((leakyRows outRows).map (linOut e.mu_logvar_gen)) hsh3.2
  rw [hsh3.1] at hub
  unfold DomainEncoder.forwardS domainPre
  rw [embed_mapM_ok e.embed inputs hin]
  simp only [pure_bind, ok_bind, hbn, hmu, hub]
  rfl


/-! ### `EncoderBurgess` convolution-stack lemmas independent of the
linear-layer widths -/

theorem burgessConvFlat_fits (e : EncoderBurgess) {B n a c : Nat} (b : Batch)
    (hf1 : convFits e.conv1 (n, a, c))
    (hf2 : convFits e.conv2 (convDims e.conv1 (n, a, c)))
    (hf3 : convFits e.conv3 (convDims e.conv2 (convDims e.conv1 (n, a, c))))
    (hf64 : e.img_size.2.1 = 64 ∧ e.img_size.2.2 = 64 →
      optionFits e.conv_64
        (convDims e.conv3 (convDims e.conv2 (convDims e.conv1 (n, a, c)))))
    (hpos4 : 0 < (burgessOutDims e (n, a, c)).1)
    (hne : b ≠ []) (hb : BatchShape B n a c b) :
    burgessConvFlat e b = .ok ((b.map (burgessConvSample e)).map imgFlat) ∧
      RowsShape B (flatLen (burgessOutDims e (n, a, c)))
        ((b.map (burgessConvSample e)).map imgFlat) := by
  have hd1 : convDims e.conv1 (n, a, c) =
      (e.conv1.out_channels, convOutDim e.conv1 a, convOutDim e.conv1 c) := rfl
  rw [hd1] at hf2
  have hc1 := conv_mapM_ok e.conv1 hf1 hb
  have hs1 : BatchShape B e.conv1.out_channels (convOutDim e.conv1 a)
      (convOutDim e.conv1 c) (reluB (b.map (convGrid e.conv1))) :=
    reluB_shape (batchShape_map
      (fun x hx => convGrid_shape_of e.conv1 x hf1 hx) hb)
  have hd2 : convDims e.conv2
      (e.conv1.out_channels, convOutDim e.conv1 a, convOutDim e.conv1 c) =
      (e.conv2.out_channels, convOutDim e.conv2 (convOutDim e.conv1 a),
        convOutDim e.conv2 (convOutDim e.conv1 c)) := rfl
  rw [hd1, hd2] at hf3
  have hc2 := conv_mapM_ok e.conv2 hf2 hs1
  have hs2 : BatchShape B e.conv2.out_channels
      (convOutDim e.conv2 (convOutDim e.conv1 a))
      (convOutDim e.conv2 (convOutDim e.conv1 c))
      (reluB ((reluB (b.map (convGrid e.conv1))).map (convGrid e.conv2))) :=
    reluB_shape (batchShape_map
      (fun x hx => convGrid_shape_of e.conv2 x hf2 hx) hs1)
  have hc3 := conv_mapM_ok e.conv3 hf3 hs2
  have hs3 : BatchShape B e.conv3.out_channels
      (convOutDim e.conv3 (convOutDim e.conv2 (convOutDim e.conv1 a)))
      (convOutDim e.conv3 (convOutDim e.conv2 (convOutDim e.conv1 c)))
      (reluB ((reluB ((reluB (b.map (convGrid e.conv1))).map
        (convGrid e.conv2))).map (convGrid e.conv3))) :=
    reluB_shape (batchShape_map
      (fun x hx => convGrid_shape_of e.conv3 x hf3 hx) hs2)
  have hd3 : convDims e.conv3
      (e.conv2.out_channels, convOutDim e.conv2 (convOutDim e.conv1 a),
        convOutDim e.conv2 (convOutDim e.conv1 c)) =
      (e.conv3.out_channels,
        convOutDim e.conv3 (convOutDim e.conv2 (convOutDim e.conv1 a)),
        convOutDim e.conv3 (convOutDim e.conv2 (convOutDim e.conv1 c))) := rfl
  rw [hd1, hd2, hd3] at hf64
  by_cases hcond : e.img_size.2.1 = 64 ∧ e.img_size.2.2 = 64
  · have hfL := hf64 hcond
    cases hL : e.conv_64 with
    | none => rw [hL] at hfL; exact hfL.elim
    | some L =>
      rw [hL] at hfL
      have hod : burgessOutDims e (n, a, c) =
          (L.out_channels,
            convOutDim L (convOutDim e.conv3 (convOutDim e.conv2
              (convOutDim e.conv1 a))),
            convOutDim L (convOutDim e.conv3 (convOutDim e.conv2
              (convOutDim e.conv1 c)))) := by
        simp only [burgessOutDims]
        rw [if_pos hcond, hL]
        rfl
      rw [hod] at hpos4
      have hfL2 : convFits L (e.conv3.out_channels,
          convOutDim e.conv3 (convOutDim e.conv2 (convOutDim e.conv1 a)),
          convOutDim e.conv3 (convOutDim e.conv2 (convOutDim e.conv1 c))) := hfL
      have hc4 := conv_mapM_ok L hfL2 hs3
      have hs4 : BatchShape B L.out_channels
          (convOutDim L (convOutDim e.conv3 (convOutDim e.conv2
            (convOutDim e.conv1 a))))
          (convOutDim L (convOutDim e.conv3 (convOutDim e.conv2
            (convOutDim e.conv1 c))))
          (reluB ((reluB ((reluB ((reluB (b.map (convGrid e.conv1))).map
            (convGrid e.conv2))).map (convGrid e.conv3))).map (convGrid L))) :=
        reluB_shape (batchShape_map
          (fun x hx => convGrid_shape_of L x hfL2 hx) hs3)
      have hflatlen : ∀ x ∈ (reluB ((reluB ((reluB ((reluB (b.map
          (convGrid e.conv1))).map (convGrid e.conv2))).map
            (convGrid e.conv3))).map (convGrid L))),
          (imgFlat x).length = flatLen (burgessOutDims e (n, a, c)) := by
        intro x hx
        rw [imgFlat_length_of_shape (hs4.2 x hx), hod]
        rfl
      have hposflat : 0 < flatLen (burgessOutDims e (n, a, c)) := by
        rw [hod]
        exact Nat.mul_pos hpos4
          (Nat.mul_pos (convOutDim_pos _ _) (convOutDim_pos _ _))
      have hne4 : (reluB ((reluB ((reluB ((reluB (b.map
          (convGrid e.conv1))).map (convGrid e.conv2))).map
            (convGrid e.conv3))).map (convGrid L))) ≠ [] := by
        simp only [reluB, List.map_eq_nil_iff]
        simpa using hne
      have hview := viewFlattenB_uniform _ (flatLen (burgessOutDims e (n, a, c)))
        hposflat hne4 hflatlen
      have hlen4 : (reluB ((reluB ((reluB ((reluB (b.map
          (convGrid e.conv1))).map (convGrid e.conv2))).map
            (convGrid e.conv3))).map (convGrid L))).length = b.length := by
        simp [reluB]
      rw [hlen4] at hview
      have heq : burgessConvFlat e b = .ok ((reluB ((reluB ((reluB ((reluB
          (b.map (convGrid e.conv1))).map (convGrid e.conv2))).map
            (convGrid e.conv3))).map (convGrid L))).map imgFlat) := by
        unfold burgessConvFlat
        simp only [hc1, hc2, hc3, ok_bind, pure_bind]
        rw [if_pos hcond, hL]
        simp only [hc4, ok_bind, pure_bind, hview]
      have hmapeq : (reluB ((reluB ((reluB ((reluB (b.map
          (convGrid e.conv1))).map (convGrid e.conv2))).map
            (convGrid e.conv3))).map (convGrid L))) =
          b.map (burgessConvSample e) := by
        simp only [reluB, List.map_map]
        apply List.map_congr_left
        intro x _
        simp only [Function.comp]
        unfold burgessConvSample
        rw [if_pos hcond, hL]
      constructor
      · rw [heq, hmapeq]
      · rw [← hmapeq]
        refine ⟨by simp [reluB, hb.1], ?_⟩
        intro r hr
        rcases List.mem_map.mp hr with ⟨x, hx, rfl⟩
        exact hflatlen x hx
  · have hod : burgessOutDims e (n, a, c) =
        (e.conv3.out_channels,
          convOutDim e.conv3 (convOutDim e.conv2 (convOutDim e.conv1 a)),
          convOutDim e.conv3 (convOutDim e.conv2 (convOutDim e.conv1 c))) := by
      simp only [burgessOutDims]
      rw [if_neg hcond]
      rfl
    rw [hod] at hpos4
    have hflatlen : ∀ x ∈ (reluB ((reluB ((reluB (b.map
        (convGrid e.conv1))).map (convGrid e.conv2))).map (convGrid e.conv3))),
        (imgFlat x).length = flatLen (burgessOutDims e (n, a, c)) := by
      intro x hx
      rw [imgFlat_length_of_shape (hs3.2 x hx), hod]
      rfl
    have hposflat : 0 < flatLen (burgessOutDims e (n, a, c)) := by
      rw [hod]
      exact Nat.mul_pos hpos4
        (Nat.mul_pos (convOutDim_pos _ _) (convOutDim_pos _ _))
    have hne3 : (reluB ((reluB ((reluB (b.map (convGrid e.conv1))).map
        (convGrid e.conv2))).map (convGrid e.conv3))) ≠ [] := by
      simp only [reluB, List.map_eq_nil_iff]
      simpa using hne
    have hview := viewFlattenB_uniform _ (flatLen (burgessOutDims e (n, a, c)))
      hposflat hne3 hflatlen
    have hlen3 : (reluB ((reluB ((reluB (b.map (convGrid e.conv1))).map
        (convGrid e.conv2))).map (convGrid e.conv3))).length = b.length := by
      simp [reluB]
    rw [hlen3] at hview
    have heq : burgessConvFlat e b = .ok ((reluB ((reluB ((reluB (b.map
        (convGrid e.conv1))).map (convGrid e.conv2))).map
          (convGrid e.conv3))).map imgFlat) := by
      unfold burgessConvFlat
      simp only [hc1, hc2, hc3, ok_bind, pure_bind]
      rw [if_neg hcond]
      simp only [ok_bind, pure_bind, hview]
    have hmapeq : (reluB ((reluB ((reluB (b.map (convGrid e.conv1))).map
        (convGrid e.conv2))).map (convGrid e.conv3))) =
        b.map (burgessConvSample e) := by
      simp only [reluB, List.map_map]
      apply List.map_congr_left
      intro x _
      simp only [Function.comp]
      unfold burgessConvSample
      rw [if_neg hcond]
    constructor
    · rw [heq, hmapeq]
    · rw [← hmapeq]
      refine ⟨by simp [reluB, hb.1], ?_⟩
      intro r hr
      rcases List.mem_map.mp hr with ⟨x, hx, rfl⟩
      exact hflatlen x hx


theorem burgessForward_fromFlat (e : EncoderBurgess) (b : Batch)
    (rows : List Vec) {B : Nat}
    (hcf : burgessConvFlat e b = .ok rows)
    (hrows : RowsShape B e.lin1.in_features rows) (hBpos : 0 < B)
    (hwf1 : e.lin1.wfShape) (hin2 : e.lin2.in_features = e.lin1.out_features)
    (hwf2 : e.lin2.wfShape)
    (hinmu : e.mu_logvar_gen.in_features = e.lin2.out_features)
    (hwfmu : e.mu_logvar_gen.wfShape)
    (houtmu : e.mu_logvar_gen.out_features = e.latent_dim * 2)
    (hdpos : 0 < e.latent_dim) :
    e.forward b = .ok
      (((reluRows ((reluRows (rows.map (linOut e.lin1))).map (linOut e.lin2))).map (linOut e.mu_logvar_gen)).map (fun r => evenSlice r 0 e.latent_dim),
       ((reluRows ((reluRows (rows.map (linOut e.lin1))).map (linOut e.lin2))).map (linOut e.mu_logvar_gen)).map (fun r => oddSlice r 0 e.latent_dim)) := by
  have hl1 := linear_mapM_ok e.lin1 hrows rfl
  have hr1 : RowsShape B e.lin2.in_features
      (reluRows (rows.map (linOut e.lin1))) := by
    rw [hin2]
    exact rowsShape_map (fun r hr => by rw [reluV_length, hr])
      (rowsShape_map (fun r _ => linOut_length _ hwf1 r) hrows)
  have hl2 := linear_mapM_ok e.lin2 hr1 rfl
  have hr2 : RowsShape B e.mu_logvar_gen.in_features
      (reluRows ((reluRows (rows.map (linOut e.lin1))).map (linOut e.lin2))) := by
    rw [hinmu]
    exact rowsShape_map (fun r hr => by rw [reluV_length, hr])
      (rowsShape_map (fun r _ => linOut_length _ hwf2 r) hr1)
  have hmu := linear_mapM_ok e.mu_logvar_gen hr2 rfl
  have hr3 : RowsShape B (e.latent_dim * 2) ((reluRows ((reluRows (rows.map (linOut e.lin1))).map (linOut e.lin2))).map (linOut e.mu_logvar_gen)) := by
    rw [← houtmu]
    exact rowsShape_map (fun r _ => linOut_length _ hwfmu r) hr2
  have hne3 : ((reluRows ((reluRows (rows.map (linOut e.lin1))).map (linOut e.lin2))).map (linOut e.mu_logvar_gen)) ≠ [] := by
    apply List.ne_nil_of_length_pos
    rw [hr3.1]
    exact hBpos
  have hub := viewUnbindInfer_uniform e.latent_dim ((reluRows ((reluRows (rows.map (linOut e.lin1))).map (linOut e.lin2))).map (linOut e.mu_logvar_gen)) hdpos hne3 hr3.2
  unfold EncoderBurgess.forward burgessPre
  simp only [hcf, ok_bind, pure_bind, hl1, hl2, hmu, hub]


/-! ### Replicated tensors and `eval()`-mode preservation -/

theorem shape_replicate_arr (n : Nat) (t : PyTensor) (hn : 0 < n) :
    (PyTensor.arr (List.replicate n t)).shape = n :: t.shape := by
  cases n with
  | zero => omega
  | succ m =>
    rw [List.replicate_succ]
    show ((List.replicate m t).length + 1) :: t.shape = (m + 1) :: t.shape
    rw [List.length_replicate]

theorem regularList_replicate (n : Nat) (t : PyTensor)
    (ht : t.regular = true) : regularList (List.replicate n t) = true := by
  induction n with
  | zero => rfl
  | succ m ih =>
    rw [List.replicate_succ]
    show (t.regular && regularList (List.replicate m t)) = true
    rw [ht, ih]
    rfl

theorem shapesEq_replicate (n : Nat) (t : PyTensor) :
    shapesEq (List.replicate n t) = true := by
  rw [shapesEq, List.all_eq_true]
  intro x hx
  cases n with
  | zero => cases hx
  | succ m =>
    rw [List.eq_of_mem_replicate hx]
    rw [List.replicate_succ]
    show (t.shape == (nthD (.val 0) (t :: List.replicate m t) 0).shape) = true
    show (t.shape == t.shape) = true
    exact beq_self_eq_true _

theorem regular_replicate_arr (n : Nat) (t : PyTensor)
    (ht : t.regular = true) :
    (PyTensor.arr (List.replicate n t)).regular = true := by
  show (regularList (List.replicate n t) && shapesEq (List.replicate n t)) = true
  rw [regularList_replicate n t ht, shapesEq_replicate]
  rfl

theorem tensorRep4_regular (B c w h : Nat) (q : ℚ) :
    (tensorRep4 B c w h q).regular = true := by
  unfold tensorRep4
  exact regular_replicate_arr _ _ (regular_replicate_arr _ _
    (regular_replicate_arr _ _ (regular_replicate_arr _ _ rfl)))

theorem tensorRep4_shape (B c w h : Nat) (q : ℚ) (hB : 0 < B) (hc : 0 < c)
    (hw : 0 < w) (hh : 0 < h) :
    (tensorRep4 B c w h q).shape = [B, c, w, h] := by
  unfold tensorRep4
  rw [shape_replicate_arr _ _ hB, shape_replicate_arr _ _ hc,
    shape_replicate_arr _ _ hw, shape_replicate_arr _ _ hh]
  rfl

theorem toEval_convEncShapeOk {e : ConvEncoder} {d0 : Nat × Nat × Nat}
    (h : convEncShapeOk e d0) : convEncShapeOk e.toEval d0 := h

theorem toEval_domainShapeOk {e : DomainEncoder}
    (h : domainShapeOk e) : domainShapeOk e.toEval := h

theorem toEval_isEval_conv (e : ConvEncoder) : e.toEval.isEval :=
  ⟨rfl, rfl, rfl, rfl, rfl⟩

theorem toEval_isEval_domain (e : DomainEncoder) : e.toEval.isEval := rfl


/-! ### The initial reshape of `ConvEncoder.forward` is the identity -/

theorem list_len4 {α : Type} : ∀ (l : List α), l.length = 4 →
    ∃ a b c d, l = [a, b, c, d]
  | [], h => by simp only [List.length_nil] at h; omega
  | [a], h => by simp only [List.length_cons, List.length_nil] at h; omega
  | [a, b], h => by simp only [List.length_cons, List.length_nil] at h; omega
  | [a, b, c], h => by
    simp only [List.length_cons, List.length_nil] at h
    omega
  | a :: b :: c :: d :: [], _ => ⟨a, b, c, d, rfl⟩
  | a :: b :: c :: d :: e :: rest, h => by
    simp only [List.length_cons] at h
    omega

theorem forwardT_eq_noView (e : ConvEncoder) (t : PyTensor)
    (hk : 2 * e.conv1.padding < e.conv1.kernel_size) :
    e.forwardT t = e.forwardTNoView t := by
  unfold ConvEncoder.forwardT ConvEncoder.forwardTNoView
  by_cases h4 : t.shape.length = 4
  · rw [if_pos h4, if_pos h4]
    unfold convAfterAssert convAfterAssertNoView
    have hh : convHidden e t = convHiddenNoView e t := by
      unfold convHidden convHiddenNoView
      by_cases hreg : t.regular = true
      · rw [if_pos hreg, if_pos hreg]
        obtain ⟨B, c, w, h, hs⟩ := list_len4 t.shape h4
        by_cases hhp : 0 < h
        · have hv := view4_regular t hreg hs hhp
          rw [hs]
          simp only [nthD]
          rw [hv, ok_bind]
        · have hh0 : h = 0 := by omega
          subst hh0
          obtain ⟨hB, hc, hw⟩ := shape_rank4_pos t hs
          have hbs := tensorToBatch_shape t hreg hs
          have hlen : (tensorFlat t).length = B * (c * (w * 0)) :=
            flat4_length _ hbs
          have hview : view4Infer c w 0 (tensorFlat t) =
              .error .runtimeError := by
            unfold view4Infer
            rw [if_neg]
            intro hcon
            rw [hlen] at hcon
            have := hcon.1
            omega
          have hrest : convRest e B (tensorToBatch t) =
              .error .runtimeError := by
            cases hb : tensorToBatch t with
            | nil =>
              exfalso
              have hb1 := hbs.1
              rw [hb] at hb1
              simp only [List.length_nil] at hb1
              omega
            | cons x0 rest =>
              have hx0 : ImgShape c w 0 x0 := by
                refine hbs.2 x0 ?_
                rw [hb]
                exact List.mem_cons_self x0 rest
              have hw0 : imgW x0 = 0 := imgW_of_shape hx0 hc hw
              have hnc : ¬(imgC x0 = e.conv1.in_channels ∧
                  e.conv1.kernel_size ≤ imgH x0 + 2 * e.conv1.padding ∧
                  e.conv1.kernel_size ≤ imgW x0 + 2 * e.conv1.padding) := by
                rw [hw0]
                intro hcon
                have := hcon.2.2
                omega
              have hrun : e.conv1.run x0 = .error .runtimeError := by
                unfold Conv2d.run
                rw [if_neg hnc]
              unfold convRest
              rw [List.mapM_cons, hrun]
              rfl
          rw [hs]
          simp only [nthD]
          rw [hview, hrest, error_bind]
      · rw [if_neg hreg, if_neg hreg]
    rw [hh]
  · rw [if_neg h4, if_neg h4]


/-! ### What names `get_encoder` can resolve -/

theorem encoder_append_ne_conv (m : String) : "Encoder" ++ m ≠ "ConvEncoder" := by
  intro h
  have hd := congrArg String.data h
  rw [String.data_append] at hd
  have h1 : some 'E' = some 'C' := by
    calc some 'E' = ("Encoder".data ++ m.data).head? := rfl
    _ = "ConvEncoder".data.head? := by rw [hd]
    _ = some 'C' := rfl
  exact absurd h1 (by decide)

theorem encoder_append_ne_domain (m : String) :
    "Encoder" ++ m ≠ "DomainEncoder" := by
  intro h
  have hd := congrArg String.data h
  rw [String.data_append] at hd
  have h1 : some 'E' = some 'D' := by
    calc some 'E' = ("Encoder".data ++ m.data).head? := rfl
    _ = "DomainEncoder".data.head? := by rw [hd]
    _ = some 'D' := rfl
  exact absurd h1 (by decide)

theorem encoder_append_eq_burgess (m : String) :
    "Encoder" ++ m = "EncoderBurgess" ↔ m = "Burgess" := by
  constructor
  · intro h
    have hd := congrArg String.data h
    rw [String.data_append] at hd
    have h2 : "EncoderBurgess".data = "Encoder".data ++ "Burgess".data := rfl
    rw [h2] at hd
    exact String.ext (List.append_cancel_left hd)
  · intro h
    rw [h]
    rfl

theorem get_encoder_eq (s : String) :
    get_encoder s = if pyCapitalize (pyLower s) = "Burgess"
      then some .encoderBurgess else none := by
  unfold get_encoder moduleClasses
  by_cases hB : pyCapitalize (pyLower s) = "Burgess"
  · rw [if_pos hB, hB]
    rfl
  · rw [if_neg hB]
    have h1 : ("Encoder" ++ pyCapitalize (pyLower s) == "EncoderBurgess") =
        false := by
      rw [beq_eq_false_iff_ne]
      intro h
      exact hB ((encoder_append_eq_burgess _).mp h)
    have h2 : ("Encoder" ++ pyCapitalize (pyLower s) == "ConvEncoder") =
        false := by
      rw [beq_eq_false_iff_ne]
      exact encoder_append_ne_conv _
    have h3 : ("Encoder" ++ pyCapitalize (pyLower s) == "DomainEncoder") =
        false := by
      rw [beq_eq_false_iff_ne]
      exact encoder_append_ne_domain _
    simp [List.lookup, h1, h2, h3]


/-! ### Parameter counting for the constructed `EncoderBurgess` -/

theorem convParamCount_mk (i o k s p : Nat) (q : ℚ) :
    convParamCount (mkConv2d i o k s p q) = o * (i * (k * k)) + o := by
  unfold convParamCount mkConv2d
  simp [List.map_replicate, List.sum_replicate, smul_eq_mul,
    List.length_replicate]

theorem linParamCount_mk (i o : Nat) (q : ℚ) :
    linParamCount (mkLinear i o q) = o * i + o := by
  unfold linParamCount mkLinear
  simp [List.map_replicate, List.sum_replicate, smul_eq_mul,
    List.length_replicate]

theorem burgessParamCount_64_32 (c0 d : Nat) (q : ℚ) :
    burgessParamCount (mkEncoderBurgess (c0, 64, 64) d q) =
      burgessParamCount (mkEncoderBurgess (c0, 32, 32) d q) + 16416 := by
  unfold burgessParamCount mkEncoderBurgess
  norm_num
  simp only [convParamCount_mk, linParamCount_mk]
  omega


/-! ## The claims

One theorem per claim of the specification, each preceded by the claim it
settles, followed by its concrete witness or counterexample. -/

/-- C1 (amended): for every appropriately shaped input batch, each
encoder's forward pass returns mean and log-variance lists of length `B`
whose rows all have the configured latent width — provided the batch-norm
layers are in eval mode or see more than one value per channel (the
original claim fails at batch size 1 in the default training mode, see
the counterexample). -/
theorem spec_c1_forward_shapes :
    (∀ (e : EncoderBurgess) (d0 : Nat × Nat × Nat) (B : Nat) (b : Batch),
      burgessShapeOk e d0 → b ≠ [] → BatchShape B d0.1 d0.2.1 d0.2.2 b →
      ∃ ms ls, e.forward b = .ok (ms, ls) ∧ ms.length = B ∧ ls.length = B ∧
        (∀ v ∈ ms, v.length = e.latent_dim) ∧
        (∀ v ∈ ls, v.length = e.latent_dim)) ∧
    (∀ (e : ConvEncoder) (t : PyTensor) (B c w h : Nat),
      t.shape = [B, c, w, h] → t.regular = true → 0 < h →
      convEncShapeOk e (c, w, h) → convCountOk e (c, w, h) B →
      ∃ ms ls e1, e.forwardT t = .ok ((ms, ls), e1) ∧
        ms.length = B ∧ ls.length = B ∧
        (∀ v ∈ ms, v.length = e.latent_dim) ∧
        (∀ v ∈ ls, v.length = e.latent_dim)) ∧
    (∀ (e : DomainEncoder) (inputs : List Int), domainShapeOk e →
      (e.bn.training = true → 1 < inputs.length) →
      (∀ i ∈ inputs, 0 ≤ i ∧ i < (e.embed.num_embeddings : Int)) →
      ∃ ms ls e2, e.forwardS inputs = .ok ((ms, ls), e2) ∧
        ms.length = inputs.length ∧ ls.length = inputs.length ∧
        (∀ v ∈ ms, v.length = e.latent_dim) ∧
        (∀ v ∈ ls, v.length = e.latent_dim)) := by
  refine ⟨?_, ?_, ?_⟩
  · intro e d0 B b hok hne hb
    obtain ⟨n, a, c⟩ := d0
    have hcore := burgessForward_core e b hok hne hb
    refine ⟨_, _, hcore, ?_, ?_, ?_, ?_⟩
    · simp only [unzipPair, List.length_map]
      exact hb.1
    · simp only [unzipPair, List.length_map]
      exact hb.1
    · intro v hv
      simp only [unzipPair, List.map_map] at hv
      rcases List.mem_map.mp hv with ⟨x, hx, rfl⟩
      exact length_evenSlice _ 0 _
    · intro v hv
      simp only [unzipPair, List.map_map] at hv
      rcases List.mem_map.mp hv with ⟨x, hx, rfl⟩
      exact length_oddSlice _ 0 _
  · intro e t B c w h hs hreg hh hok hcnt
    exact convForwardT_ok e t hs hreg hh hok hcnt
  · intro e inputs hok hcount hin
    exact domainForwardS_ok e inputs hok hcount hin

theorem spec_c1_forward_shapes_witness :
    (∃ ms ls, (mkEncoderBurgess (1, 32, 32) 2 0).forward
        (List.replicate 2 (List.replicate 1 (List.replicate 32
          (List.replicate 32 (0 : ℚ))))) = .ok (ms, ls) ∧
      ms.length = 2 ∧ ls.length = 2 ∧
      (∀ v ∈ ms, v.length = 2) ∧ (∀ v ∈ ls, v.length = 2)) ∧
    (∃ ms ls e1, (mkConvEncoder 1 0 (fun q => q)).forwardT
        (tensorRep4 2 3 32 32 0) = .ok ((ms, ls), e1) ∧
      ms.length = 2 ∧ ls.length = 2 ∧
      (∀ v ∈ ms, v.length = 1) ∧ (∀ v ∈ ls, v.length = 1)) ∧
    (∃ ms ls e2, (mkDomainEncoder 2 1 0 (fun q => q)).forwardS [0, 1] =
        .ok ((ms, ls), e2) ∧ ms.length = 2 ∧ ls.length = 2 ∧
      (∀ v ∈ ms, v.length = 1) ∧ (∀ v ∈ ls, v.length = 1)) :=
  ⟨spec_c1_forward_shapes.1 _ (1, 32, 32) 2 _
      (mk_burgessShapeOk_32 1 2 0 (by decide) (by decide)) (by decide)
      (batchShape_replicate 2 1 32 32 0),
   spec_c1_forward_shapes.2.1 _ _ 2 3 32 32
      (tensorRep4_shape 2 3 32 32 0 (by decide) (by decide) (by decide)
        (by decide))
      (tensorRep4_regular 2 3 32 32 0) (by decide)
      (mk_convEncShapeOk 1 0 (fun q => q))
      (mk_convCountOk 1 0 (fun q => q) 2 (by decide)),
   spec_c1_forward_shapes.2.2 _ [0, 1] (mk_domainShapeOk 2 1 0 (fun q => q))
      (fun _ => by decide) (by decide)⟩

/-- Counterexample to C1 as stated: a `DomainEncoder` fresh from its
constructor (training mode) errors on the valid, appropriately shaped,
in-range batch `[0]` of size 1, instead of returning a `(1, latent_dim)`
pair. -/
theorem spec_c1_counterexample :
    (∀ i ∈ ([0] : List Int), 0 ≤ i ∧
      i < ((mkDomainEncoder 1 1 0 (fun q => q)).embed.num_embeddings : Int)) ∧
    (mkDomainEncoder 1 1 0 (fun q => q)).forward [0] = .error .valueError :=
  ⟨by decide, by decide⟩

/-- C2: `get_encoder` resolves a name to `EncoderBurgess` exactly when
the capitalized lowercased input is `"Burgess"`, and resolves no name at
all to `ConvEncoder` or `DomainEncoder` even though both classes exist at
module level: `eval("Encoder" + "conv".lower().capitalize())` builds
`"EncoderConv"`, and no module global bears that name, so the factory
contract of the spec is unsatisfiable for two of the three variants. -/
theorem spec_c2_factory_resolution :
    (∀ s : String, get_encoder s =
      if pyCapitalize (pyLower s) = "Burgess" then some .encoderBurgess
      else none) ∧
    get_encoder "burgess" = some .encoderBurgess ∧
    get_encoder "Burgess" = some .encoderBurgess ∧
    get_encoder "conv" = none ∧ get_encoder "Conv" = none ∧
    get_encoder "convencoder" = none ∧
    get_encoder "domain" = none ∧ get_encoder "Domain" = none ∧
    get_encoder "domainencoder" = none ∧
    ("ConvEncoder", EncoderClass.convEncoder) ∈ moduleClasses ∧
    ("DomainEncoder", EncoderClass.domainEncoder) ∈ moduleClasses :=
  ⟨get_encoder_eq, by decide, by decide, by decide, by decide, by decide,
   by decide, by decide, by decide, by decide, by decide⟩

/-- C3: in every encoder, once the final linear projection has produced
the `2 * latent_dim`-wide rows `ml`, `forward` returns exactly the
even-indexed slices of `ml` as the mean and the odd-indexed slices as the
log-variance (the `view(..., latent_dim, 2).unbind(-1)` interleaving). -/
theorem spec_c3_interleaved_split :
    (∀ (e : EncoderBurgess) (b : Batch) (hidden ml : List Vec),
      burgessPre e b = .ok hidden →
      List.mapM e.mu_logvar_gen.run hidden = .ok ml →
      0 < e.latent_dim → ml ≠ [] →
      (∀ r ∈ ml, r.length = e.latent_dim * 2) →
      e.forward b = .ok (ml.map (fun r => evenSlice r 0 e.latent_dim),
        ml.map (fun r => oddSlice r 0 e.latent_dim))) ∧
    (∀ (e : ConvEncoder) (t : PyTensor) (hidden ml : List Vec)
      (e1 : ConvEncoder),
      t.shape.length = 4 →
      convHidden e t = .ok (hidden, e1) →
      List.mapM e.mu_logvar_gen.run hidden = .ok ml →
      ml.length = nthD 0 t.shape 0 →
      (∀ r ∈ ml, r.length = e.latent_dim * 2) →
      e.forwardT t = .ok ((ml.map (fun r => evenSlice r 0 e.latent_dim),
        ml.map (fun r => oddSlice r 0 e.latent_dim)), e1)) ∧
    (∀ (e : DomainEncoder) (inputs : List Int) (hidden ml : List Vec)
      (e1 : DomainEncoder),
      domainPre e inputs = .ok (hidden, e1) →
      List.mapM e.mu_logvar_gen.run hidden = .ok ml →
      ml.length = inputs.length →
      (∀ r ∈ ml, r.length = e.latent_dim * 2) →
      e.forwardS inputs = .ok ((ml.map (fun r => evenSlice r 0 e.latent_dim),
        ml.map (fun r => oddSlice r 0 e.latent_dim)), e1)) := by
  refine ⟨?_, ?_, ?_⟩
  · intro e b hidden ml hpre hml hd hne hu
    have hub := viewUnbindInfer_uniform e.latent_dim ml hd hne hu
    unfold EncoderBurgess.forward
    simp only [hpre, ok_bind, hml, hub]
  · intro e t hidden ml e1 h4 hh hml hB hu
    have hub := viewUnbindExplicit_uniform e.latent_dim ml hu
    rw [hB] at hub
    unfold ConvEncoder.forwardT convAfterAssert
    rw [if_pos h4]
    simp only [hh, ok_bind, hml, hub, pure_bind]
    rfl
  · intro e inputs hidden ml e1 hpre hml hB hu
    have hub := viewUnbindExplicit_uniform e.latent_dim ml hu
    rw [hB] at hub
    unfold DomainEncoder.forwardS
    simp only [hpre, ok_bind, hml, hub, pure_bind]
    rfl

theorem spec_c3_interleaved_split_witness :
    tinyBurgess.forward [[[[1]]]] = .ok ([[1]], [[2]]) ∧
    tinyConv.forwardT (tensorRep4 1 1 1 1 1) = .ok (([[1]], [[2]]), tinyConv) ∧
    tinyDomain.forwardS [0] = .ok (([[1]], [[2]]), tinyDomain) := by
  refine ⟨?_, ?_, ?_⟩
  · have h := spec_c3_interleaved_split.1 tinyBurgess [[[[1]]]] [[1]] [[1, 2]]
      (by with_unfolding_all decide) (by with_unfolding_all decide)
      (by decide) (by decide) (by decide)
    rw [h]
    with_unfolding_all rfl
  · have h := spec_c3_interleaved_split.2.1 tinyConv (tensorRep4 1 1 1 1 1)
      [[1]] [[1, 2]] tinyConv (by decide) (by with_unfolding_all rfl)
      (by with_unfolding_all decide) (by decide) (by decide)
    rw [h]
    with_unfolding_all rfl
  · have h := spec_c3_interleaved_split.2.2 tinyDomain [0] [[1]] [[1, 2]]
      tinyDomain (by with_unfolding_all rfl) (by with_unfolding_all decide)
      (by decide) (by decide)
    rw [h]
    with_unfolding_all rfl

/-- C4: `EncoderBurgess` owns the fourth stride-2 convolution exactly
when the declared height and width are both 64; the per-sample
convolution stack applies 3 (otherwise) or 4 (64×64) `ReLU ∘ conv`
stages, all convolutions have stride 2, and the 64×64 instance has
exactly 16416 more scalar parameters than the 32×32 instance. -/
theorem spec_c4_conditional_conv64 :
    (∀ (c0 hh ww d : Nat) (q : ℚ),
      (mkEncoderBurgess (c0, hh, ww) d q).conv_64 =
        if hh = 64 ∧ ww = 64 then some (mkConv2d 32 32 4 2 1 q) else none) ∧
    (∀ (c0 hh ww d : Nat) (q : ℚ),
      (mkEncoderBurgess (c0, hh, ww) d q).conv_64.isSome = true ↔
        (hh = 64 ∧ ww = 64)) ∧
    (∀ (c0 hh ww d : Nat) (q : ℚ),
      burgessNumConvs (mkEncoderBurgess (c0, hh, ww) d q) =
        if hh = 64 ∧ ww = 64 then 4 else 3) ∧
    (∀ (c0 hh ww d : Nat) (q : ℚ) (x : Img),
      burgessConvSample (mkEncoderBurgess (c0, hh, ww) d q) x =
        if hh = 64 ∧ ww = 64 then
          reluImg (convGrid (mkConv2d 32 32 4 2 1 q)
            (reluImg (convGrid (mkConv2d 32 32 4 2 1 q)
              (reluImg (convGrid (mkConv2d 32 32 4 2 1 q)
                (reluImg (convGrid (mkConv2d c0 32 4 2 1 q) x)))))))
        else
          reluImg (convGrid (mkConv2d 32 32 4 2 1 q)
            (reluImg (convGrid (mkConv2d 32 32 4 2 1 q)
              (reluImg (convGrid (mkConv2d c0 32 4 2 1 q) x)))))) ∧
    (∀ (c0 hh ww d : Nat) (q : ℚ),
      (mkEncoderBurgess (c0, hh, ww) d q).conv1.stride = 2 ∧
      (mkEncoderBurgess (c0, hh, ww) d q).conv2.stride = 2 ∧
      (mkEncoderBurgess (c0, hh, ww) d q).conv3.stride = 2 ∧
      (mkConv2d 32 32 4 2 1 q).stride = 2) ∧
    (∀ (c0 d : Nat) (q : ℚ),
      burgessParamCount (mkEncoderBurgess (c0, 64, 64) d q) =
        burgessParamCount (mkEncoderBurgess (c0, 32, 32) d q) + 16416) := by
  refine ⟨?_, ?_, ?_, ?_, ?_, burgessParamCount_64_32⟩
  · intro c0 hh ww d q
    rfl
  · intro c0 hh ww d q
    by_cases h : hh = 64 ∧ ww = 64
    · simp only [mkEncoderBurgess]
      rw [if_pos h]
      simp [h]
    · simp only [mkEncoderBurgess]
      rw [if_neg h]
      simp [h]
  · intro c0 hh ww d q
    unfold burgessNumConvs
    simp only [mkEncoderBurgess]
    by_cases h : hh = 64 ∧ ww = 64
    · simp [h]
    · simp [h]
  · intro c0 hh ww d q x
    unfold burgessConvSample
    simp only [mkEncoderBurgess]
    by_cases h : hh = 64 ∧ ww = 64
    · simp only [if_pos h]
    · simp only [if_neg h]
  · intro c0 hh ww d q
    exact ⟨rfl, rfl, rfl, rfl⟩

/-- C5: `ConvEncoder.forward` raises the assertion error exactly on
inputs whose rank is not 4, before any layer computation; on rank-4
inputs the assertion never fires (later failures surface as other
errors). -/
theorem spec_c5_rank4_assert :
    ∀ (e : ConvEncoder) (t : PyTensor),
      (t.shape.length ≠ 4 → e.forwardT t = .error .assertionError) ∧
      (t.shape.length = 4 → e.forwardT t ≠ .error .assertionError) := by
  intro e t
  constructor
  · intro h4
    unfold ConvEncoder.forwardT
    rw [if_neg h4]
  · intro h4
    unfold ConvEncoder.forwardT
    rw [if_pos h4]
    intro heq
    exact convAfterAssert_noAssert e t .assertionError heq rfl

theorem spec_c5_rank4_assert_witness :
    (mkConvEncoder 1 0 (fun q => q)).forwardT
        (.arr [.arr [.arr [.val 0]]]) = .error .assertionError ∧
    (mkConvEncoder 1 0 (fun q => q)).forwardT (tensorRep4 1 1 1 1 0) ≠
      .error .assertionError :=
  ⟨(spec_c5_rank4_assert (mkConvEncoder 1 0 (fun q => q))
      (.arr [.arr [.arr [.val 0]]])).1 (by decide),
   (spec_c5_rank4_assert (mkConvEncoder 1 0 (fun q => q))
      (tensorRep4 1 1 1 1 0)).2 (by decide)⟩


/-- C6 (amended): with every batch-norm layer in eval mode the forward
pass of each encoder factors into a per-sample map — the output at index
`i` is a function of sample `i` alone (`EncoderBurgess` has no batch
norm, so for it no eval-mode proviso is needed). In the default training
mode the property fails, see the counterexample. -/
theorem spec_c6_per_sample :
    (∀ (e : EncoderBurgess) (d0 : Nat × Nat × Nat) (B : Nat) (b : Batch),
      burgessShapeOk e d0 → b ≠ [] → BatchShape B d0.1 d0.2.1 d0.2.2 b →
      e.forward b = .ok (unzipPair (b.map (burgessSample e)))) ∧
    (∀ (e : ConvEncoder) (t : PyTensor) (B c w h : Nat),
      t.shape = [B, c, w, h] → t.regular = true → 0 < h →
      convEncShapeOk e (c, w, h) → e.isEval →
      e.forwardT t =
        .ok (unzipPair ((tensorToBatch t).map (convEncSample e)), e)) ∧
    (∀ (e : DomainEncoder) (inputs : List Int),
      domainShapeOk e → e.isEval →
      (∀ i ∈ inputs, 0 ≤ i ∧ i < (e.embed.num_embeddings : Int)) →
      e.forwardS inputs = .ok (unzipPair (inputs.map (domainSample e)), e)) := by
  refine ⟨?_, ?_, ?_⟩
  · intro e d0 B b hok hne hb
    obtain ⟨n, a, c⟩ := d0
    exact burgessForward_core e b hok hne hb
  · intro e t B c w h hs hreg hh hok hev
    exact convForwardT_eval e t hs hreg hh hok hev
  · intro e inputs hok hev hin
    exact domainForwardS_eval e inputs hok hev hin

theorem spec_c6_per_sample_witness :
    (mkEncoderBurgess (1, 32, 32) 1 0).forward
        (List.replicate 2 (List.replicate 1 (List.replicate 32
          (List.replicate 32 (0 : ℚ))))) =
      .ok (unzipPair ((List.replicate 2 (List.replicate 1 (List.replicate 32
          (List.replicate 32 (0 : ℚ))))).map
        (burgessSample (mkEncoderBurgess (1, 32, 32) 1 0)))) ∧
    (mkConvEncoder 1 0 (fun q => q)).toEval.forwardT (tensorRep4 1 3 32 32 0) =
      .ok (unzipPair ((tensorToBatch (tensorRep4 1 3 32 32 0)).map
          (convEncSample (mkConvEncoder 1 0 (fun q => q)).toEval)),
        (mkConvEncoder 1 0 (fun q => q)).toEval) ∧
    (mkDomainEncoder 3 2 0 (fun q => q)).toEval.forwardS [0, 2] =
      .ok (unzipPair (([0, 2] : List Int).map
          (domainSample (mkDomainEncoder 3 2 0 (fun q => q)).toEval)),
        (mkDomainEncoder 3 2 0 (fun q => q)).toEval) :=
  ⟨spec_c6_per_sample.1 _ (1, 32, 32) 2 _
      (mk_burgessShapeOk_32 1 1 0 (by decide) (by decide)) (by decide)
      (batchShape_replicate 2 1 32 32 0),
   spec_c6_per_sample.2.1 _ _ 1 3 32 32
      (tensorRep4_shape 1 3 32 32 0 (by decide) (by decide) (by decide)
        (by decide))
      (tensorRep4_regular 1 3 32 32 0) (by decide)
      (toEval_convEncShapeOk (mk_convEncShapeOk 1 0 (fun q => q)))
      (toEval_isEval_conv _),
   spec_c6_per_sample.2.2 _ [0, 2]
      (toEval_domainShapeOk (mk_domainShapeOk 3 2 0 (fun q => q)))
      (toEval_isEval_domain _) (by decide)⟩

/-- Counterexample to C6 as stated: a training-mode `DomainEncoder`
couples the samples of a batch through the batch statistics of its
`BatchNorm1d`. The batches `[0, 0]` and `[0, 1]` agree on the sample at
index 0, yet the mean output at index 0 is `[0]` for the first batch and
`[-1/200]` for the second. -/
theorem spec_c6_counterexample :
    nthD 0 ([0, 0] : List Int) 0 = nthD 0 ([0, 1] : List Int) 0 ∧
    ∃ yA yB, couplingCex.forward [0, 0] = .ok yA ∧
      couplingCex.forward [0, 1] = .ok yB ∧
      nthD [] yA.1 0 ≠ nthD [] yB.1 0 := by
  refine ⟨rfl, ?_⟩
  have hA : ∃ yA, couplingCex.forward [0, 0] = .ok yA ∧
      nthD [] yA.1 0 = [(0 : ℚ)] := by
    have hr : RowsShape 2 couplingCex.bn.num_features
        (([0, 0] : List Int).map (fun i =>
          nthD [] couplingCex.embed.weight i.toNat)) := by decide
    have hbn := bn1d_run_train couplingCex.bn hr rfl rfl (by omega)
    have hsh := rowsShape_map (g := bn1dRow couplingCex.bn (fun c =>
        (meanOf (chanVals1d (([0, 0] : List Int).map (fun i =>
          nthD [] couplingCex.embed.weight i.toNat)) c),
         varOf (chanVals1d (([0, 0] : List Int).map (fun i =>
          nthD [] couplingCex.embed.weight i.toNat)) c))))
      (fun r hrr => by rw [bn1dRow_length, hrr]) hr
    have hof := domainForwardS_of_bn couplingCex [0, 0] _ _ rfl (by decide) rfl
      (by decide) hbn hsh.2 hsh.1
    refine ⟨_, by unfold DomainEncoder.forward; rw [hof]; rfl, ?_⟩
    show [dot (1 :: List.replicate 511 0)
        (leakyV (bn1dRow couplingCex.bn
          (fun c => (meanOf (chanVals1d (([0, 0] : List Int).map (fun i =>
              nthD [] couplingCex.embed.weight i.toNat)) c),
            varOf (chanVals1d (([0, 0] : List Int).map (fun i =>
              nthD [] couplingCex.embed.weight i.toNat)) c)))
          (List.replicate 512 0))) + 0] = [(0 : ℚ)]
    rw [dot_cons_replicate]
    show [1 * leakyRelu (bnScalar 1 0 (meanOf [(0:ℚ), 0]) (varOf [(0:ℚ), 0])
        (1 / 100000) (fun _ => (1:ℚ)) 0) + 0] = [(0 : ℚ)]
    rw [show bnScalar 1 0 (meanOf [(0:ℚ), 0]) (varOf [(0:ℚ), 0])
        (1 / 100000) (fun _ => (1:ℚ)) 0 =
        1 * ((0 - meanOf [(0:ℚ), 0]) * 1) + 0 from rfl]
    have hm : meanOf [(0:ℚ), 0] = 0 := by norm_num [meanOf]
    rw [hm]
    norm_num [leakyRelu_eq]
  have hB : ∃ yB, couplingCex.forward [0, 1] = .ok yB ∧
      nthD [] yB.1 0 = [-(1 / 200 : ℚ)] := by
    have hr : RowsShape 2 couplingCex.bn.num_features
        (([0, 1] : List Int).map (fun i =>
          nthD [] couplingCex.embed.weight i.toNat)) := by decide
    have hbn := bn1d_run_train couplingCex.bn hr rfl rfl (by omega)
    have hsh := rowsShape_map (g := bn1dRow couplingCex.bn (fun c =>
        (meanOf (chanVals1d (([0, 1] : List Int).map (fun i =>
          nthD [] couplingCex.embed.weight i.toNat)) c),
         varOf (chanVals1d (([0, 1] : List Int).map (fun i =>
          nthD [] couplingCex.embed.weight i.toNat)) c))))
      (fun r hrr => by rw [bn1dRow_length, hrr]) hr
    have hof := domainForwardS_of_bn couplingCex [0, 1] _ _ rfl (by decide) rfl
      (by decide) hbn hsh.2 hsh.1
    refine ⟨_, by unfold DomainEncoder.forward; rw [hof]; rfl, ?_⟩
    show [dot (1 :: List.replicate 511 0)
        (leakyV (bn1dRow couplingCex.bn
          (fun c => (meanOf (chanVals1d (([0, 1] : List Int).map (fun i =>
              nthD [] couplingCex.embed.weight i.toNat)) c),
            varOf (chanVals1d (([0, 1] : List Int).map (fun i =>
              nthD [] couplingCex.embed.weight i.toNat)) c)))
          (List.replicate 512 0))) + 0] = [-(1 / 200 : ℚ)]
    rw [dot_cons_replicate]
    show [1 * leakyRelu (bnScalar 1 0 (meanOf [(0:ℚ), 1]) (varOf [(0:ℚ), 1])
        (1 / 100000) (fun _ => (1:ℚ)) 0) + 0] = [-(1 / 200 : ℚ)]
    rw [show bnScalar 1 0 (meanOf [(0:ℚ), 1]) (varOf [(0:ℚ), 1])
        (1 / 100000) (fun _ => (1:ℚ)) 0 =
        1 * ((0 - meanOf [(0:ℚ), 1]) * 1) + 0 from rfl]
    have hm : meanOf [(0:ℚ), 1] = 1 / 2 := by norm_num [meanOf]
    rw [hm]
    norm_num [leakyRelu_eq]
  obtain ⟨yA, hfA, hvA⟩ := hA
  obtain ⟨yB, hfB, hvB⟩ := hB
  refine ⟨yA, yB, hfA, hfB, ?_⟩
  rw [hvA, hvB]
  intro h
  have := List.head_eq_of_cons_eq h
  norm_num at this

/-- C7 (amended): in eval mode a forward call leaves the module state
unchanged — whenever it succeeds, the returned encoder state equals the
input state. In the default training mode forward mutates the batch-norm
running statistics, see the counterexample. (`EncoderBurgess.forward`
carries no mutable state at all in the embedding.) -/
theorem spec_c7_eval_frame :
    (∀ (e : ConvEncoder) (t : PyTensor), e.isEval →
      ∀ r e1, e.forwardT t = .ok (r, e1) → e1 = e) ∧
    (∀ (e : DomainEncoder) (inputs : List Int), e.isEval →
      ∀ r e2, e.forwardS inputs = .ok (r, e2) → e2 = e) :=
  ⟨fun e t hev => convForwardT_state_eval e t hev,
   fun e inputs hev => domainForwardS_state_eval e inputs hev⟩

theorem spec_c7_eval_frame_witness :
    tinyConv.forwardT (tensorRep4 2 1 1 1 1) =
      .ok (([[1], [1]], [[2], [2]]), tinyConv) ∧
    tinyDomain.forwardS [0, 0] = .ok (([[1], [1]], [[2], [2]]), tinyDomain) ∧
    tinyConv = tinyConv ∧ tinyDomain = tinyDomain := by
  have h1 : tinyConv.forwardT (tensorRep4 2 1 1 1 1) =
      .ok (([[1], [1]], [[2], [2]]), tinyConv) := by
    with_unfolding_all rfl
  have h2 : tinyDomain.forwardS [0, 0] =
      .ok (([[1], [1]], [[2], [2]]), tinyDomain) := by
    with_unfolding_all rfl
  exact ⟨h1, h2,
    spec_c7_eval_frame.1 tinyConv _ ⟨rfl, rfl, rfl, rfl, rfl⟩ _ _ h1,
    spec_c7_eval_frame.2 tinyDomain _ rfl _ _ h2⟩

/-- Counterexample to C7 as stated: a training-mode forward call is not a
pure, state-preserving function — the `DomainEncoder` batch norm updates
its running statistics, so the returned module state differs from the
input state (`num_batches_tracked` increments). -/
theorem spec_c7_counterexample :
    ∃ out e2, (mkDomainEncoder 1 1 0 (fun _ => (1:ℚ))).forwardS [0, 0] =
        .ok (out, e2) ∧
      e2.bn.num_batches_tracked ≠
        (mkDomainEncoder 1 1 0 (fun _ => (1:ℚ))).bn.num_batches_tracked := by
  have hr : RowsShape 2 (mkDomainEncoder 1 1 0 (fun _ => (1:ℚ))).bn.num_features
      (([0, 0] : List Int).map (fun i =>
        nthD [] (mkDomainEncoder 1 1 0 (fun _ => (1:ℚ))).embed.weight i.toNat)) := by
    decide
  have hbn := bn1d_run_train (mkDomainEncoder 1 1 0 (fun _ => (1:ℚ))).bn hr rfl
    rfl (by omega)
  have hsh := rowsShape_map
    (g := bn1dRow (mkDomainEncoder 1 1 0 (fun _ => (1:ℚ))).bn
      (fun c =>
        (meanOf (chanVals1d (([0, 0] : List Int).map (fun i =>
          nthD [] (mkDomainEncoder 1 1 0 (fun _ => (1:ℚ))).embed.weight
            i.toNat)) c),
         varOf (chanVals1d (([0, 0] : List Int).map (fun i =>
          nthD [] (mkDomainEncoder 1 1 0 (fun _ => (1:ℚ))).embed.weight
            i.toNat)) c))))
    (fun r hrr => by rw [bn1dRow_length, hrr]) hr
  have hof := domainForwardS_of_bn (mkDomainEncoder 1 1 0 (fun _ => (1:ℚ)))
    [0, 0] _ _ rfl (by decide) rfl (by decide) hbn hsh.2 hsh.1
  exact ⟨_, _, hof, by decide⟩

/-- C8 (amended): `DomainEncoder.forward` returns a well-formed
`(mean, logvar)` pair of per-sample width `latent_dim` when every index
lies in `[0, num_domains)` — provided the batch norm is in eval mode or
the batch has more than one sample — and raises `IndexError` as soon as
some index lies outside that range. The original claim without the
batch-size proviso fails, see the counterexample. -/
theorem spec_c8_domain_range :
    (∀ (e : DomainEncoder) (inputs : List Int),
      domainShapeOk e → (e.bn.training = true → 1 < inputs.length) →
      (∀ i ∈ inputs, 0 ≤ i ∧ i < (e.embed.num_embeddings : Int)) →
      ∃ ms ls, e.forward inputs = .ok (ms, ls) ∧
        ms.length = inputs.length ∧ ls.length = inputs.length ∧
        (∀ v ∈ ms, v.length = e.latent_dim) ∧
        (∀ v ∈ ls, v.length = e.latent_dim)) ∧
    (∀ (e : DomainEncoder) (inputs : List Int),
      (∃ i ∈ inputs, ¬(0 ≤ i ∧ i < (e.embed.num_embeddings : Int))) →
      e.forward inputs = .error .indexError) := by
  constructor
  · intro e inputs hok hcount hin
    obtain ⟨ms, ls, e2, hfw, h1, h2, h3, h4⟩ :=
      domainForwardS_ok e inputs hok hcount hin
    refine ⟨ms, ls, ?_, h1, h2, h3, h4⟩
    unfold DomainEncoder.forward
    rw [hfw]
    rfl
  · intro e inputs hbad
    unfold DomainEncoder.forward
    rw [domainForwardS_error e inputs hbad]
    rfl

theorem spec_c8_domain_range_witness :
    (∃ ms ls, (mkDomainEncoder 3 1 0 (fun q => q)).forward [0, 2] =
        .ok (ms, ls) ∧ ms.length = 2 ∧ ls.length = 2 ∧
      (∀ v ∈ ms, v.length = 1) ∧ (∀ v ∈ ls, v.length = 1)) ∧
    (mkDomainEncoder 3 1 0 (fun q => q)).forward [3] = .error .indexError :=
  ⟨spec_c8_domain_range.1 _ [0, 2] (mk_domainShapeOk 3 1 0 (fun q => q))
      (fun _ => by decide) (by decide),
   spec_c8_domain_range.2 _ [3] ⟨3, by decide, by decide⟩⟩

/-- Counterexample to C8 as stated: the in-range batch `[0]` of size 1
makes a fresh (training-mode) `DomainEncoder` raise `ValueError` from its
batch norm instead of returning a well-defined output. -/
theorem spec_c8_counterexample :
    (∀ i ∈ ([0] : List Int), 0 ≤ i ∧
      i < ((mkDomainEncoder 2 1 0 (fun q => q)).embed.num_embeddings : Int)) ∧
    (mkDomainEncoder 2 1 0 (fun q => q)).forward [0] = .error .valueError :=
  ⟨by decide, by decide⟩

/-- C10: for every constructed `ConvEncoder` and every input tensor,
`forward` equals the same pipeline with the initial
`view(-1, channel, width, height)` reshape removed: on a rank-4 input of
exactly that shape the reshape is the identity, and in every degenerate
case both pipelines fail with the same error. -/
theorem spec_c10_reshape_identity (d : Nat) (q : ℚ) (rs : ℚ → ℚ)
    (t : PyTensor) :
    (mkConvEncoder d q rs).forwardT t =
      (mkConvEncoder d q rs).forwardTNoView t :=
  forwardT_eq_noView _ t (of_decide_eq_true rfl)

/-- C9: the first fully connected layer of every constructed
`EncoderBurgess` has input width `np.product((32, 4, 4)) = 512`
regardless of the declared `img_size`; consequently `forward` errors with
the shape `RuntimeError` at `lin1` whenever the flattened convolution
output rows do not have exactly 512 entries, and succeeds (with
`(B, latent_dim)` outputs) whenever they all do. -/
theorem spec_c9_lin1_width :
    (∀ (sz : Nat × Nat × Nat) (d : Nat) (q : ℚ),
      (mkEncoderBurgess sz d q).lin1.in_features = 512) ∧
    (∀ (sz : Nat × Nat × Nat) (d : Nat) (q : ℚ) (b : Batch) (rows : List Vec),
      burgessConvFlat (mkEncoderBurgess sz d q) b = .ok rows →
      (∃ r ∈ rows, r.length ≠ 512) →
      (mkEncoderBurgess sz d q).forward b = .error .runtimeError) ∧
    (∀ (sz : Nat × Nat × Nat) (d : Nat) (q : ℚ) (b : Batch) (rows : List Vec),
      0 < d →
      burgessConvFlat (mkEncoderBurgess sz d q) b = .ok rows →
      rows ≠ [] → (∀ r ∈ rows, r.length = 512) →
      ∃ ms ls, (mkEncoderBurgess sz d q).forward b = .ok (ms, ls) ∧
        ms.length = rows.length ∧ ls.length = rows.length ∧
        (∀ v ∈ ms, v.length = d) ∧ (∀ v ∈ ls, v.length = d)) := by
  refine ⟨fun sz d q => rfl, ?_, ?_⟩
  · intro sz d q b rows hcf hex
    have herr : List.mapM (mkEncoderBurgess sz d q).lin1.run rows =
        .error .runtimeError :=
      lin_mapM_first_error _ rows hex
    unfold EncoderBurgess.forward burgessPre
    simp only [hcf, ok_bind, herr, error_bind]
  · intro sz d q b rows hd hcf hne hall
    have hrows : RowsShape rows.length
        (mkEncoderBurgess sz d q).lin1.in_features rows := ⟨rfl, hall⟩
    have hfw := burgessForward_fromFlat _ b rows hcf hrows
      (List.length_pos.mpr hne) (wfShape_mkLinear _ _ _) rfl
      (wfShape_mkLinear _ _ _) rfl (wfShape_mkLinear _ _ _) rfl hd
    refine ⟨_, _, hfw, ?_, ?_, ?_, ?_⟩
    · simp [reluRows]
    · simp [reluRows]
    · intro v hv
      rcases List.mem_map.mp hv with ⟨r, _, rfl⟩
      exact length_evenSlice _ 0 _
    · intro v hv
      rcases List.mem_map.mp hv with ⟨r, _, rfl⟩
      exact length_oddSlice _ 0 _

theorem spec_c9_lin1_width_witness :
    (mkEncoderBurgess (1, 8, 8) 1 0).lin1.in_features = 512 ∧
    (mkEncoderBurgess (1, 8, 8) 1 0).forward
        (List.replicate 1 (List.replicate 1 (List.replicate 8
          (List.replicate 8 (0 : ℚ))))) = .error .runtimeError ∧
    (∃ ms ls, (mkEncoderBurgess (1, 32, 32) 1 0).forward
        (List.replicate 1 (List.replicate 1 (List.replicate 32
          (List.replicate 32 (0 : ℚ))))) = .ok (ms, ls)) := by
  have h88 := burgessConvFlat_fits (mkEncoderBurgess (1, 8, 8) 1 0)
    (List.replicate 1 (List.replicate 1 (List.replicate 8
      (List.replicate 8 (0 : ℚ)))))
    (by decide) (by decide) (by decide) (by decide) (by decide) (by decide)
    (batchShape_replicate 1 1 8 8 0)
  have h32 := burgessConvFlat_fits (mkEncoderBurgess (1, 32, 32) 1 0)
    (List.replicate 1 (List.replicate 1 (List.replicate 32
      (List.replicate 32 (0 : ℚ)))))
    (by decide) (by decide) (by decide) (by decide) (by decide) (by decide)
    (batchShape_replicate 1 1 32 32 0)
  refine ⟨rfl, ?_, ?_⟩
  · have hmem : nthD [] (((List.replicate 1 (List.replicate 1 (List.replicate 8
        (List.replicate 8 (0 : ℚ))))).map
          (burgessConvSample (mkEncoderBurgess (1, 8, 8) 1 0))).map imgFlat) 0 ∈
        ((List.replicate 1 (List.replicate 1 (List.replicate 8
        (List.replicate 8 (0 : ℚ))))).map
          (burgessConvSample (mkEncoderBurgess (1, 8, 8) 1 0))).map imgFlat := by
      apply nthD_mem
      rw [(h88.2).1]
      decide
    have hlen := (h88.2).2 _ hmem
    refine spec_c9_lin1_width.2.1 (1, 8, 8) 1 0 _ _ h88.1 ⟨_, hmem, ?_⟩
    rw [hlen]
    decide
  · have hne : ((List.replicate 1 (List.replicate 1 (List.replicate 32
        (List.replicate 32 (0 : ℚ))))).map
          (burgessConvSample (mkEncoderBurgess (1, 32, 32) 1 0))).map imgFlat ≠
        [] := by
      apply List.ne_nil_of_length_pos
      rw [(h32.2).1]
      decide
    have hall : ∀ r ∈ ((List.replicate 1 (List.replicate 1 (List.replicate 32
        (List.replicate 32 (0 : ℚ))))).map
          (burgessConvSample (mkEncoderBurgess (1, 32, 32) 1 0))).map imgFlat,
        r.length = 512 := by
      intro r hr
      rw [(h32.2).2 r hr]
      decide
    obtain ⟨ms, ls, hfw, _, _, _, _⟩ := spec_c9_lin1_width.2.2 (1, 32, 32) 1 0
      _ _ (by decide) h32.1 hne hall
    exact ⟨ms, ls, hfw⟩

end Disvae
